import Mathlib

/-!
# cpu-miner.c: a shallow embedding of the work-distribution core

The definitions below follow `src/miner/cpu-miner.c`.  Machine integers are
natural numbers reduced modulo `2^32` (or `2^8`) where the C code can wrap;
byte buffers are lists of natural numbers; the hash primitive `sha256d`
(defined in another translation unit) is a parameter `H` of every function
that calls it.
-/

namespace CpuMiner

/-! ## Machine arithmetic -/

/-- Reduction of a natural number to an unsigned 32-bit value. -/
def u32 (x : Nat) : Nat := x % 2 ^ 32

/-- Subtraction of two `uint32_t` values, wrapping modulo `2^32`. -/
def sub32 (a b : Nat) : Nat := (u32 a + 2 ^ 32 - u32 b) % 2 ^ 32

/-! ## The unit of work (`struct work`) -/

/-- The `struct work` of cpu-miner.c: `data` holds 32 header words, `target`
8 words; the heap attachments are optional (a NULL pointer is `none`). -/
structure Work where
  data : List Nat
  target : List Nat
  height : Int
  txs : Option String
  workid : Option String
  job_id : Option String
  xnonce2 : List Nat
deriving DecidableEq

/-! ## miner_thread: nonce partition -/

/-- The value `0xffffffffU / opt_n_threads * thr_id` that `miner_thread`
stores into `work.data[19]` when it picks up new work (line 1069). -/
def start_nonce (opt_n_threads thr_id : Nat) : Nat :=
  u32 (0xffffffff / opt_n_threads * thr_id)

/-- The initialiser of `end_nonce` in `miner_thread` (line 1011):
`0xffffffffU / opt_n_threads * (thr_id + 1) - 0x20` in `uint32_t`. -/
def end_nonce (opt_n_threads thr_id : Nat) : Nat :=
  sub32 (u32 (0xffffffff / opt_n_threads * (thr_id + 1))) 0x20

/-- Lines 1066-1071 of `miner_thread`: when the first 76 bytes (19 words) of
the private work differ from the shared slot, the slot is copied and the
nonce word is reset to the start of the partition; otherwise the private
nonce is incremented. -/
def miner_thread_refresh (opt_n_threads thr_id : Nat) (work g_work : Work) : Work :=
  if work.data.take 19 ≠ g_work.data.take 19 then
    { g_work with data := g_work.data.set 19 (start_nonce opt_n_threads thr_id) }
  else
    { work with data := work.data.set 19 (u32 (work.data.getD 19 0 + 1)) }

/-- Lines 1092-1095 of `miner_thread`: `max_nonce` is `end_nonce` when
`work.data[19] + max64` exceeds it (64-bit signed comparison), and the sum
truncated to 32 bits otherwise. -/
def max_nonce (nonce : Nat) (max64 : Int) (end_nonce : Nat) : Nat :=
  if (nonce : Int) + max64 > (end_nonce : Int) then end_nonce
  else (((nonce : Int) + max64) % 2 ^ 32).toNat

/-- A nonce `x` lies in the half-open range `[start_k, end_k)` of some worker
`k < N`. -/
def covered (N x : Nat) : Prop :=
  ∃ k, k < N ∧ start_nonce N k ≤ x ∧ x < end_nonce N k

/-- The zero-initialised private work of a worker that has not yet copied
the slot (`struct work work = {{0}}`, line 1009). -/
def zero_work : Work :=
  { data := List.replicate 32 0, target := List.replicate 8 0, height := 0,
    txs := none, workid := none, job_id := none, xnonce2 := [] }

/-- The benchmark work of `get_work` (lines 891-898) with `time(NULL) = 0`:
76 bytes of `0x55`, a zero nonce and the SHA-256 padding words. -/
def benchmark_work : Work :=
  { zero_work with
    data := List.replicate 17 0x55555555 ++ [0, 0x55555555, 0, 0x80000000] ++
      List.replicate 10 0 ++ [0x280] }

/-! ## Byte-order helpers -/

/-- Modelled from the spec: `le32enc` of miner.h (not under src/) stores a
32-bit value as four bytes, least significant first ("LE32"). -/
def le32enc (x : Nat) : List Nat :=
  [x % 256, x / 256 % 256, x / 65536 % 256, x / 16777216 % 256]

/-- Modelled from the spec: `be32dec` of miner.h (not under src/) reads four
bytes as a 32-bit value, most significant first ("words interpreted
big-endian"). -/
def be32dec (p : List Nat) : Nat :=
  p.getD 0 0 * 16777216 + p.getD 1 0 * 65536 + p.getD 2 0 * 256 + p.getD 3 0

/-- Modelled from the spec: `le32dec` of miner.h (not under src/) reads four
bytes as a 32-bit value, least significant first. -/
def le32dec (p : List Nat) : Nat :=
  p.getD 0 0 + p.getD 1 0 * 256 + p.getD 2 0 * 65536 + p.getD 3 0 * 16777216

/-- Modelled from the spec: `be32enc` of miner.h (not under src/) stores a
32-bit value as four bytes, most significant first. -/
def be32enc (x : Nat) : List Nat :=
  [x / 16777216 % 256, x / 65536 % 256, x / 256 % 256, x % 256]

/-- Modelled from the spec: `swab32` of miner.h (not under src/) reverses the
four bytes of a 32-bit value ("byteswap32"). -/
def swab32 (x : Nat) : Nat := be32dec (le32enc x)

/-- The value of a byte string read as a little-endian unsigned integer. -/
def le_val : List Nat → Nat
  | [] => 0
  | b :: rest => b + 256 * le_val rest

/-- The spec's script-number reading of a pushed byte string: the bytes are a
little-endian magnitude and the top bit of the last byte is the sign. -/
def script_num_decode (bs : List Nat) : Int :=
  match bs.getLast? with
  | none => 0
  | some t =>
    if t < 128 then (le_val bs : Int)
    else -((le_val bs : Int) - 128 * 256 ^ (bs.length - 1))

/-- Parsing of a data push: a length byte `k` followed by `k` bytes that are
read as a script number; `none` when fewer than `k` bytes follow. -/
def script_push_parse : List Nat → Option Int
  | [] => none
  | k :: rest => if k ≤ rest.length then some (script_num_decode (rest.take k)) else none

/-! ## gbt_work_decode: template fields -/

/-- One entry of the template's `transactions` array: the string values of
its `data`, `txid` and `hash` members (`none` when the member is missing or
not a string). -/
structure TemplateTx where
  data : Option String
  txid : Option String
  hash : Option String
deriving DecidableEq

/-- Lines 265-275 of `gbt_work_decode`: SegWit is active when the `rules`
array holds the string `segwit` or `!segwit`; non-string entries are skipped
and a missing or non-array `rules` member leaves the flag false. -/
def gbt_segwit (rules : Option (List (Option String))) : Bool :=
  match rules with
  | none => false
  | some l => l.any (fun s => s == some "segwit" || s == some "!segwit")

/-! ## gbt_work_decode: BIP-34 height -/

/-- The loop `for (n = work->height; n; n >>= 8)` of lines 376-380, on the
signed `int n`: each pass appends `n & 0xff`, and one more zero byte when
`0x80 ≤ n < 0x100`.  The first argument bounds the number of passes; the
result is `none` when the loop has not reached `n = 0` within it. -/
def bip34_loop : Nat → Int → List Nat → Option (List Nat)
  | 0, _, _ => none
  | fuel + 1, n, out =>
    if n = 0 then some out
    else
      let out1 := out ++ [(n % 256).toNat]
      let out2 := if n < 0x100 ∧ n ≥ 0x80 then out1 ++ [0] else out1
      bip34_loop fuel (n >>> 8) out2

/-- The bytes `cbtx[42 ..]` written by lines 376-381: the push length
`cbtx[42] = cbtx_size - 43` (an `unsigned char`) followed by the height
bytes. -/
def bip34_push (fuel : Nat) (height : Int) : Option (List Nat) :=
  (bip34_loop fuel height []).map (fun bs => bs.length % 256 :: bs)

/-! ## Merkle folds over arrays of 32-byte rows -/

/-- The inner loop `for (i = 0; i < n; i++) sha256d(tree[i], tree[2*i], 64)`
(lines 418-419 and 517-518), run in place on an array of 32-byte rows: the
64 bytes read at row `2*i` are rows `2*i` and `2*i + 1`.  The first argument
counts the remaining passes, the second is `i`. -/
def hash_level (H : List Nat → List Nat) : Nat → Nat → List (List Nat) → List (List Nat)
  | 0, _, tree => tree
  | k + 1, i, tree =>
    hash_level H k (i + 1)
      (tree.set i (H (tree.getD (2 * i) [] ++ tree.getD (2 * i + 1) [])))

/-- The loop of lines 510-519 on `merkle_tree`: while `n > 1`, an odd `n`
copies row `n - 1` to row `n` and is incremented, `n` is halved, and the rows
are hashed pairwise in place. -/
def merkle_loop (H : List Nat → List Nat) : Nat → Nat → List (List Nat) → Option (List (List Nat))
  | 0, _, _ => none
  | fuel + 1, n, tree =>
    if n > 1 then
      let tree1 := if n % 2 = 1 then tree.set n (tree.getD (n - 1) []) else tree
      let n1 := if n % 2 = 1 then n + 1 else n
      let n2 := n1 / 2
      merkle_loop H fuel n2 (hash_level H n2 0 tree1)
    else some tree

/-- The loop of lines 413-420 on `wtree`: while `n > 1`, an odd `n` copies
row `n - 1` to row `n`, `n` becomes `(n + 1) / 2`, and the rows are hashed
pairwise in place. -/
def wtree_loop (H : List Nat → List Nat) : Nat → Nat → List (List Nat) → Option (List (List Nat))
  | 0, _, _ => none
  | fuel + 1, n, tree =>
    if n > 1 then
      let tree1 := if n % 2 = 1 then tree.set n (tree.getD (n - 1) []) else tree
      let n1 := (n + 1) / 2
      wtree_loop H fuel n1 (hash_level H n1 0 tree1)
    else some tree

/-- The spec's pairing of one tree level: adjacent nodes are hashed as
`sha256d(a || b)`, the last node is paired with itself on an odd count. -/
def merkle_pairs (H : List Nat → List Nat) : List (List Nat) → List (List Nat)
  | [] => []
  | [a] => [H (a ++ a)]
  | a :: b :: rest => H (a ++ b) :: merkle_pairs H rest

/-- The spec's reference Merkle root: a single node is the root, otherwise
the level is paired and the root of the next level is taken. -/
def merkle_root_ref (H : List Nat → List Nat) : List (List Nat) → List Nat
  | [] => []
  | [a] => a
  | a :: b :: rest => merkle_root_ref H (merkle_pairs H (a :: b :: rest))
termination_by l => l.length
decreasing_by
  have key : ∀ (n : Nat) (l : List (List Nat)), l.length ≤ n →
      (merkle_pairs H l).length ≤ l.length := by
    intro n
    induction n with
    | zero =>
      intro l h
      cases l with
      | nil => simp [merkle_pairs]
      | cons a t => simp at h
    | succ n ih =>
      intro l h
      cases l with
      | nil => simp [merkle_pairs]
      | cons a t =>
        cases t with
        | nil => simp [merkle_pairs]
        | cons b t =>
          have h2 := ih t (by simp at h; omega)
          simp only [merkle_pairs, List.length_cons]
          omega
  have h3 := key rest.length rest (le_refl _)
  simp only [merkle_pairs, List.length_cons]
  omega

/-! ## gbt_work_decode: coinbase construction -/

/-- Lines 403-412: rows `1 .. tx_count` of `wtree` are the `hash` members of
the transactions, decoded by `hex2bin(.., 32)` and reversed by `memrev`; a
missing or undecodable `hash` rejects the template. -/
def gbt_witness_leaves (hex2bin : String → Nat → Option (List Nat)) :
    List TemplateTx → Option (List (List Nat))
  | [] => some []
  | tx :: rest =>
    match tx.hash with
    | none => none
    | some s =>
      match hex2bin s 32 with
      | none => none
      | some bs => (gbt_witness_leaves hex2bin rest).map (fun l => bs.reverse :: l)

/-- Lines 393 and 403-422: the 32 bytes written after the commitment header.
`wtree` is `calloc(tx_count + 2, 32)`, so row 0 and the spare last row start
as zeros; after the fold row 1 is cleared (the witness reserved value) and
rows 0 and 1 are hashed together. -/
def gbt_witness_commitment (H : List Nat → List Nat)
    (hex2bin : String → Nat → Option (List Nat)) (fuel : Nat)
    (txs : List TemplateTx) : Option (List Nat) :=
  match gbt_witness_leaves hex2bin txs with
  | none => none
  | some leaves =>
    let wtree0 := List.replicate 32 0 :: leaves ++ [List.replicate 32 0]
    match wtree_loop H fuel (txs.length + 1) wtree0 with
    | none => none
    | some wtree =>
      let wtree1 := wtree.set 1 (List.replicate 32 0)
      some (H (wtree1.getD 0 [] ++ wtree1.getD 1 []))

/-- Lines 392-425: the bytes of the second output.  Under SegWit they are a
zero value, the script length 38, the commitment header and the commitment;
without SegWit nothing is written. -/
def gbt_witness_output (H : List Nat → List Nat)
    (hex2bin : String → Nat → Option (List Nat)) (fuel : Nat) (segwit : Bool)
    (txs : List TemplateTx) : Option (List Nat) :=
  if segwit then
    (gbt_witness_commitment H hex2bin fuel txs).map
      (fun c => List.replicate 8 0 ++ [38, 0x6a, 0x24, 0xaa, 0x21, 0xa9, 0xed] ++ c)
  else some []

/-- Lines 350-429 of `gbt_work_decode` (no `coinbasetxn` in the template; the
`coinbasevalue` member is the integer `cbvalue`): the serialized coinbase
`cbtx[0 .. cbtx_size)`.  The stores `cbtx[cbtx_size++] = b` are appends;
`cbtx[41]` and `cbtx[42]` are the script length and the push length. -/
def gbt_coinbase (H : List Nat → List Nat)
    (hex2bin : String → Nat → Option (List Nat)) (fuel : Nat)
    (height cbvalue : Int) (pk_script : List Nat) (segwit : Bool)
    (txs : List TemplateTx) : Option (List Nat) :=
  if pk_script.length = 0 then none
  else
    match bip34_push fuel height, gbt_witness_output H hex2bin fuel segwit txs with
    | some push, some out2 =>
      some (le32enc 1 ++ [1] ++ List.replicate 32 0 ++ le32enc 0xffffffff ++
        [push.length % 256] ++ push ++ le32enc 0xffffffff ++
        [if segwit then 2 else 1] ++
        le32enc (cbvalue % 2 ^ 32).toNat ++ le32enc ((cbvalue >>> 32) % 2 ^ 32).toNat ++
        [pk_script.length % 256] ++ pk_script ++ out2 ++ le32enc 0)
    | _, _ => none

/-! ## gbt_work_decode: coinbase signature append -/

/-- Lines 433-441: the operator's `coinbase_sig` (the bytes of the C string)
is taken into the empty `xsig` when it is not empty and, with the script
length `cbtx[41]`, stays within 100 bytes; otherwise it is skipped. -/
def gbt_xsig_sig (len41 : Nat) (coinbase_sig : List Nat) : List Nat :=
  if coinbase_sig ≠ [] ∧ len41 + 0 + coinbase_sig.length ≤ 100 then coinbase_sig else []

/-- Lines 446-459: the loop over the values of `coinbaseaux`.  A value that
is not a string, is longer than 100 bytes or does not decode ends the loop;
a decoded value is copied from the zeroed 100-byte `buf` when it fits. -/
def gbt_xsig_aux (hex2bin : String → Nat → Option (List Nat)) (len41 : Nat) :
    List (Option String) → List Nat → List Nat
  | [], xsig => xsig
  | none :: _, xsig => xsig
  | some s :: rest, xsig =>
    if s.utf8ByteSize / 2 > 100 then xsig
    else
      match hex2bin s (s.utf8ByteSize / 2) with
      | none => xsig
      | some bytes =>
        gbt_xsig_aux hex2bin len41 rest
          (if len41 + xsig.length + s.utf8ByteSize / 2 ≤ 100 then
            xsig ++ ((bytes ++ List.replicate 100 0).take 100).take (s.utf8ByteSize / 2)
          else xsig)

/-- Lines 431-460: the collected extra signature `xsig[0 .. xsig_len)`;
`coinbaseaux` is `none` when the member is missing or not an object. -/
def gbt_xsig (hex2bin : String → Nat → Option (List Nat)) (len41 : Nat)
    (coinbase_sig : List Nat) (coinbaseaux : Option (List (Option String))) : List Nat :=
  match coinbaseaux with
  | none => gbt_xsig_sig len41 coinbase_sig
  | some vals => gbt_xsig_aux hex2bin len41 vals (gbt_xsig_sig len41 coinbase_sig)

/-- Lines 463-474 for a `memmove` count `cbtx_size - 42 - cbtx[41]` that is
not negative: a non-empty `xsig` is inserted at the end of the scriptSig.
The bytes from `ssig_end` on are moved up by `n`, `cbtx[41]` grows by `n` as
an `unsigned char`, then the push opcode (when `push_len` is 2), the length
byte (when `push_len` is not 0) and `xsig` are stored. -/
def gbt_append_insert (cbtx xsig : List Nat) : List Nat :=
  if xsig.length = 0 then cbtx
  else
    let push_len :=
      if cbtx.getD 41 0 + xsig.length < 76 then 1
      else if cbtx.getD 41 0 + 2 + xsig.length > 100 then 0 else 2
    let n := xsig.length + push_len
    (cbtx.take (42 + cbtx.getD 41 0)).set 41 ((cbtx.getD 41 0 + n) % 256) ++
      (if push_len = 2 then [0x4c] else []) ++
      (if push_len ≠ 0 then [xsig.length % 256] else []) ++
      xsig ++ cbtx.drop (42 + cbtx.getD 41 0)

/-- Lines 462-475, the append step.  With a non-empty `xsig`, `memmove` is
called with the count `cbtx_size - 42 - cbtx[41]`: when `42 + cbtx[41]`
exceeds `cbtx_size` the count is negative, a huge `size_t`, and the call does
not come back (`none`).  In every other case the step ends with the coinbase
of `gbt_append_insert`. -/
def gbt_coinbase_append (cbtx xsig : List Nat) : Option (List Nat) :=
  if xsig.length ≠ 0 ∧ cbtx.length < 42 + cbtx.getD 41 0 then none
  else some (gbt_append_insert cbtx xsig)

/-- Lines 350-476 for a template without `coinbasetxn`: the coinbase is
built, `coinbase_append` is set, and the collected signature is inserted. -/
def gbt_coinbase_final (H : List Nat → List Nat)
    (hex2bin : String → Nat → Option (List Nat)) (fuel : Nat)
    (height cbvalue : Int) (pk_script : List Nat) (segwit : Bool)
    (txs : List TemplateTx) (coinbase_sig : List Nat)
    (coinbaseaux : Option (List (Option String))) : Option (List Nat) :=
  (gbt_coinbase H hex2bin fuel height cbvalue pk_script segwit txs).bind
    (fun cbtx =>
      gbt_coinbase_append cbtx (gbt_xsig hex2bin (cbtx.getD 41 0) coinbase_sig coinbaseaux))

/-! ## gbt_work_decode: transaction Merkle tree -/

/-- Lines 487-506: the leaf of one transaction.  Under SegWit it is the
`txid` member decoded by `hex2bin(.., 32)` and reversed; otherwise it is
`sha256d` of the `data` member decoded to `strlen / 2` bytes. -/
def gbt_leaf (H : List Nat → List Nat) (hex2bin : String → Nat → Option (List Nat))
    (segwit : Bool) (tx : TemplateTx) : Option (List Nat) :=
  if segwit then
    match tx.txid with
    | none => none
    | some s => (hex2bin s 32).map List.reverse
  else
    match tx.data with
    | none => none
    | some s => (hex2bin s (s.utf8ByteSize / 2)).map H

/-- The loop of lines 486-509 over the transactions: rows `1 .. tx_count` of
`merkle_tree`; the first failing transaction rejects the template. -/
def gbt_leaves (H : List Nat → List Nat) (hex2bin : String → Nat → Option (List Nat))
    (segwit : Bool) : List TemplateTx → Option (List (List Nat))
  | [] => some []
  | tx :: rest =>
    match gbt_leaf H hex2bin segwit tx with
    | none => none
    | some leaf => (gbt_leaves H hex2bin segwit rest).map (fun l => leaf :: l)

/-- Lines 484-519: the array `merkle_tree` after the fold.  It has
`(1 + tx_count + 1) & ~1` rows: row 0 is `sha256d` of the coinbase, rows
`1 .. tx_count` are the leaves, and when `1 + tx_count` is odd one more row
exists whose initial content `spare` is whatever `malloc` returned. -/
def gbt_merkle_tree (H : List Nat → List Nat)
    (hex2bin : String → Nat → Option (List Nat)) (fuel : Nat) (segwit : Bool)
    (cbtx : List Nat) (txs : List TemplateTx) (spare : List Nat) :
    Option (List (List Nat)) :=
  match gbt_leaves H hex2bin segwit txs with
  | none => none
  | some leaves =>
    merkle_loop H fuel (1 + txs.length)
      (H cbtx :: leaves ++ (if (1 + txs.length) % 2 = 1 then [spare] else []))

/-- Lines 525-526: `data[9 + i] = be32dec((uint32_t *)merkle_tree[0] + i)` for
`i < 8`, as the list of the eight words. -/
def merkle_words (root : List Nat) : List Nat :=
  (List.range 8).map (fun i => be32dec (root.drop (4 * i)))

/-- Lines 521-531: the 32 words of `work->data`.  `data[8 - i]` is the i-th
little-endian word of the decoded `previousblockhash`, `data[9 + i]` the i-th
big-endian word of the Merkle root, words 19 to 31 are cleared and the
padding words 20 and 31 are set. -/
def gbt_header (version curtime : Int) (prevhash bits root : List Nat) : List Nat :=
  [swab32 (version % 2 ^ 32).toNat] ++
  ((List.range 8).map (fun i => le32dec (prevhash.drop (4 * i)))).reverse ++
  merkle_words root ++
  [swab32 (curtime % 2 ^ 32).toNat, le32dec bits, 0, 0x80000000] ++
  List.replicate 10 0 ++ [0x280]

/-- Three SegWit transactions whose `hash` members have one, two and three
characters, for evaluating the model. -/
def sample_txs : List TemplateTx :=
  [{ data := some "00", txid := some "t", hash := some "a" },
   { data := some "00", txid := some "tt", hash := some "bb" },
   { data := some "00", txid := some "ttt", hash := some "ccc" }]

/-- A stand-in for the hash primitive used to evaluate the model on concrete
inputs: 32 bytes, each the byte sum of the input plus one, modulo 256. -/
def toy_hash (l : List Nat) : List Nat := List.replicate 32 ((l.sum + 1) % 256)

/-- A stand-in for `hex2bin` used to evaluate the model on concrete inputs:
every string decodes to `len` bytes equal to the string's length. -/
def toy_hex2bin (s : String) (len : Nat) : Option (List Nat) :=
  some (List.replicate len (s.length % 256))

/-! ## stratum_gen_work -/

/-- Modelled from the spec: the job cached by the Stratum client at
`mining.notify` (`struct stratum_job` of miner.h, filled in util.c, neither
under src/).  The coinbase is `coinb1 ++ xnonce2 ++ coinb2`: `coinb1` ends with
the pool's xnonce1, `xnonce2` is the miner's counter of `xnonce2_size` bytes
that `job.xnonce2` points at, `coinb2` is the suffix; `merkle` is the branch;
`version`, `nbits`, `ntime` are the 4 notified bytes each. -/
structure StratumJob where
  job_id : String
  prevhash : List Nat
  coinb1 : List Nat
  xnonce2 : List Nat
  coinb2 : List Nat
  merkle : List (List Nat)
  version : List Nat
  nbits : List Nat
  ntime : List Nat
  diff : Rat
deriving DecidableEq

/-- The bytes `sctx->job.coinbase[0 .. coinbase_size)`. -/
def StratumJob.coinbase (job : StratumJob) : List Nat :=
  job.coinb1 ++ job.xnonce2 ++ job.coinb2

/-- A store of the bytes `src` at offset `off` of the buffer `buf`
(`memcpy(buf + off, src, len)`, or a hash written to `buf + off`). -/
def buf_write (buf : List Nat) (off : Nat) (src : List Nat) : List Nat :=
  buf.take off ++ src ++ buf.drop (off + src.length)

/-- Lines 957 and 969-973: the 64-byte buffer `merkle_root` after the fold.
It starts zeroed, receives `sha256d(coinbase)` at offset 0, and for every
branch element receives its 32 bytes at offset 32 and then the hash of its
own 64 bytes at offset 0. -/
def stratum_merkle_root (H : List Nat → List Nat) (coinbase : List Nat)
    (merkle : List (List Nat)) : List Nat :=
  merkle.foldl
    (fun buf b =>
      let buf1 := buf_write buf 32 (b.take 32)
      buf_write buf1 0 (H (buf1.take 64)))
    (buf_write (List.replicate 64 0) 0 (H coinbase))

/-- Line 976: `for (i = 0; i < size && !++xnonce2[i]; i++);` on the bytes of
the counter: a byte is incremented modulo 256 and the loop goes on to the
next byte only when the result is zero. -/
def xnonce2_increment : List Nat → List Nat
  | [] => []
  | b :: rest =>
    if (b + 1) % 256 = 0 then 0 :: xnonce2_increment rest
    else (b + 1) % 256 :: rest

/-- Lines 955-1003 of `stratum_gen_work`: the job after the call (its
`xnonce2` incremented) and the work produced.  `diff_to_target` (util.c) is a
parameter; `scrypt` tells whether `opt_algo` is `ALGO_SCRYPT`. -/
def stratum_gen_work (H : List Nat → List Nat) (diff_to_target : Rat → List Nat)
    (scrypt : Bool) (job : StratumJob) (work : Work) : StratumJob × Work :=
  let merkle_root := stratum_merkle_root H job.coinbase job.merkle
  let data := [le32dec job.version] ++
    (List.range 8).map (fun i => le32dec (job.prevhash.drop (4 * i))) ++
    merkle_words merkle_root ++
    [le32dec job.ntime, le32dec job.nbits, 0, 0x80000000] ++
    List.replicate 10 0 ++ [0x280]
  ({ job with xnonce2 := xnonce2_increment job.xnonce2 },
   { work with
     job_id := some job.job_id
     xnonce2 := job.xnonce2
     data := data
     target := diff_to_target (if scrypt then job.diff / 65536 else job.diff) })

/-- A job with a two-element branch and a two-byte counter at `ff 00`, for
evaluating the model. -/
def sample_job : StratumJob :=
  { job_id := "j1", prevhash := List.replicate 32 7, coinb1 := [1, 2, 3],
    xnonce2 := [255, 0], coinb2 := [9],
    merkle := [List.replicate 32 4, List.replicate 32 5],
    version := [0, 0, 0, 2], nbits := [1, 2, 3, 4], ntime := [5, 6, 7, 8], diff := 1 }

/-! ## submit_upstream_work -/

/-- A request handed to a transport by `submit_upstream_work`.  Byte lists
stand for the hex strings that `bin2hex` makes of them. -/
inductive WireRequest where
  | stratum_submit (user : String) (job_id : Option String)
      (xnonce2 ntime nonce : List Nat)
  | submitblock (header : List Nat) (txs : String) (workid : Option String)
  | getwork_submit (data : List Nat)
deriving DecidableEq

/-- The globals read by `submit_upstream_work`, and the byte order of the
host (`true` for a little-endian host), which decides how the words that the
function re-encodes in place read back. -/
structure SubmitEnv where
  submit_old : Bool
  have_stratum : Bool
  rpc_user : String
  g_work : Work
  host_le : Bool
deriving DecidableEq

/-- What a call of `submit_upstream_work` did: its return value, the requests
handed to a transport, and the work as the call left it. -/
structure SubmitResult where
  rc : Bool
  sent : List WireRequest
  work : Work
deriving DecidableEq

/-- A `uint32_t` read by the host from four bytes of memory. -/
def host_word (host_le : Bool) (bytes : List Nat) : Nat :=
  if host_le then le32dec bytes else be32dec bytes

/-- Lines 596-691 of `submit_upstream_work`.  `transport_ok` tells whether
the transport call succeeded (`stratum_send_line` returned true,
`json_rpc_call` returned a value).  The stale gate of line 605 compares the
32 bytes of words 1 to 8; past it the request of the active mode is sent:
the Stratum line, else `submitblock` when the work carries `txs`, else
`getwork`; the last two re-encode `work->data` in place first. -/
def submit_upstream_work (env : SubmitEnv) (transport_ok : Bool) (work : Work) :
    SubmitResult :=
  if !env.submit_old && (work.data.drop 1).take 8 != (env.g_work.data.drop 1).take 8 then
    { rc := true, sent := [], work := work }
  else if env.have_stratum then
    { rc := transport_ok
      sent := [WireRequest.stratum_submit env.rpc_user work.job_id work.xnonce2
        (le32enc (work.data.getD 17 0)) (le32enc (work.data.getD 19 0))]
      work := work }
  else
    match work.txs with
    | some txs =>
      { rc := transport_ok
        sent := [WireRequest.submitblock ((work.data.take 20).flatMap be32enc) txs
          work.workid]
        work := { work with data := work.data.map (fun w => host_word env.host_le (be32enc w)) } }
    | none =>
      { rc := transport_ok
        sent := [WireRequest.getwork_submit (work.data.flatMap le32enc)]
        work := { work with data := work.data.map (fun w => host_word env.host_le (le32enc w)) } }

/-- A second benchmark-like work whose previous-hash words differ from those
of `benchmark_work`, carrying a transaction list. -/
def other_work : Work :=
  { benchmark_work with
    data := [2] ++ List.replicate 8 0x11111111 ++ List.replicate 8 0x55555555 ++
      [0, 0x55555555, 7, 0x80000000] ++ List.replicate 10 0 ++ [0x280]
    txs := some "01" }

/-- Lines 464-465: `push_len`, from the script length `L = cbtx[41]` and the
signature length `x = xsig_len`. -/
def gbt_push_len (L x : Nat) : Nat :=
  if L + x < 76 then 1 else if L + 2 + x > 100 then 0 else 2

/-- Lines 469-472: the bytes stored before the signature: `OP_PUSHDATA1` when
`push_len` is 2, then the length byte when `push_len` is not 0. -/
def gbt_push_bytes (L x : Nat) : List Nat :=
  (if gbt_push_len L x = 2 then [0x4c] else []) ++
  (if gbt_push_len L x ≠ 0 then [x % 256] else [])

/-- The values that the loop of lines 446-459 can copy into `xsig`: the
decoded `coinbaseaux` strings, in order. -/
def gbt_aux_values (hex2bin : String → Nat → Option (List Nat))
    (vals : List (Option String)) : List (List Nat) :=
  vals.filterMap (fun v => v.bind (fun s => hex2bin s (s.utf8ByteSize / 2)))

/-- The coinbase built for height 700000, value 5000000000 and the payout
script `51 52`, without SegWit: 64 bytes, script length 4. -/
def sample_cbtx : List Nat :=
  [1, 0, 0, 0, 1] ++ List.replicate 32 0 ++ [255, 255, 255, 255, 4, 3, 0x60, 0xae, 0x0a,
    255, 255, 255, 255, 1, 0, 0xf2, 5, 0x2a, 1, 0, 0, 0, 2, 0x51, 0x52, 0, 0, 0, 0]

/-- One lowercase hexadecimal digit. -/
def hex_digit (n : Nat) : Char :=
  if n < 10 then Char.ofNat (48 + n) else Char.ofNat (87 + n)

/-- A coinbase of 60 bytes, the least size that line 346 lets through,
whose script length byte `cbtx[41]` is 90: the scriptSig it announces ends
past the end of the transaction. -/
def sample_short_cbtx : List Nat := (List.replicate 60 0).set 41 90

/-- Modelled from the spec: `bin2hex` of util.c (not under src/) writes every
byte as two lowercase hexadecimal digits, high nibble first ("hex bytes",
"hex-serialized"). -/
def bin2hex (bs : List Nat) : String :=
  String.mk (bs.flatMap (fun b => [hex_digit (b / 16 % 16), hex_digit (b % 16)]))

/-- Modelled from the spec: `diff_to_target` of util.c (not under src/)
converts a difficulty to the 256-bit target `floor(2^224 / diff)`, stored as
eight 32-bit words with `target[0]` the least significant. -/
def diff_to_target (diff : Rat) : List Nat :=
  (List.range 8).map (fun i => ⌊(2 : Rat) ^ 224 / diff⌋₊ / 2 ^ (32 * i) % 2 ^ 32)

/-- The 256-bit integer held by target words, `target[0]` least significant. -/
def target_value : List Nat → Nat
  | [] => 0
  | w :: rest => w + 2 ^ 32 * target_value rest

/-! ## gbt_work_decode: the whole function -/

/-- The `result` object of a JSON-RPC reply as the two decoders read it: every
member is `none` when it is missing or has another JSON type than the one the
decoder asks for.  `coinbasetxn` and `workid` tell apart a missing member
(`none`) from a member whose string value is missing (`some none`). -/
structure Template where
  rules : Option (List (Option String))
  mutable_flags : Option (List (Option String))
  height : Option Int
  version : Option Int
  previousblockhash : Option String
  curtime : Option Int
  bits : Option String
  transactions : Option (List TemplateTx)
  coinbasetxn : Option (Option String)
  coinbasevalue : Option Int
  coinbaseaux : Option (List (Option String))
  target : Option String
  workid : Option (Option String)
  longpollid : Option String
  longpolluri : Option String
  data : Option String
deriving DecidableEq

/-- The globals that `gbt_work_decode` reads: the payout script, the
operator's signature, and the protocol and long-poll flags. -/
structure GbtEnv where
  pk_script : List Nat
  coinbase_sig : List Nat
  allow_getwork : Bool
  have_gbt : Bool
  want_longpoll : Bool
  have_longpoll : Bool
  rpc_url : String
deriving DecidableEq

/-- What a call of `gbt_work_decode` did: its return value, the work it
filled in when it returned true, the flags `have_gbt` and `have_longpoll` as it
left them, the new `lp_id` and the URI pushed to the long-poll queue.  `left`
is the caller's `struct work` as the call left it, whatever the return value:
the members written before a `goto out` stay written. -/
structure GbtResult where
  rc : Bool
  work : Option Work
  left : Work
  have_gbt : Bool
  have_longpoll : Bool
  lp_id : Option String
  lp_push : Option String
deriving DecidableEq

/-- Lines 277-289: the flags `coinbase_append` and `submit_coinbase` read from
the `mutable` array. -/
def gbt_mutable (m : Option (List (Option String))) : Bool × Bool :=
  match m with
  | none => (false, false)
  | some l => (l.any (fun s => s == some "coinbase/append"),
      l.any (fun s => s == some "submit/coinbase"))

/-- The conversion of a 64-bit JSON integer to `int` (line 296). -/
def int32_wrap (x : Int) : Int := (x + 2 ^ 31) % 2 ^ 32 - 2 ^ 31

/-- The return of `gbt_work_decode` through `out` with `rc` false, the work
being left as `left`. -/
def gbt_reject (env : GbtEnv) (have_gbt : Bool) (left : Work) : GbtResult :=
  { rc := false, work := none, left := left, have_gbt := have_gbt,
    have_longpoll := env.have_longpoll, lp_id := none, lp_push := none }

/-- Lines 340-429: the coinbase before the signature append, with the flag
`have_gbt` as this part leaves it.  The outer `none` means that a loop did
not end within `fuel` passes; the inner `none` is a rejected template.  A
supplied `coinbasetxn` must decode to at least 60 bytes; otherwise the
coinbase is built, which needs a payout script (without one `have_gbt` is
cleared when getwork is allowed) and a `coinbasevalue`. -/
def gbt_cbtx_stage (H : List Nat → List Nat) (hex2bin : String → Nat → Option (List Nat))
    (fuel : Nat) (env : GbtEnv) (val : Template) (height : Int) (segwit : Bool)
    (txa : List TemplateTx) : Option (Option (List Nat) × Bool) :=
  match val.coinbasetxn with
  | some cbtx_hex =>
    match cbtx_hex with
    | none => some (none, env.have_gbt)
    | some s =>
      if s.utf8ByteSize / 2 < 60 then some (none, env.have_gbt)
      else some (hex2bin s (s.utf8ByteSize / 2), env.have_gbt)
  | none =>
    if env.pk_script.length = 0 then
      some (none, if env.allow_getwork then false else env.have_gbt)
    else
      match val.coinbasevalue with
      | none => some (none, env.have_gbt)
      | some cbvalue =>
        match bip34_push fuel height with
        | none => none
        | some _ =>
          if segwit = true ∧ gbt_witness_leaves hex2bin txa = none then
            some (none, env.have_gbt)
          else
            match gbt_coinbase H hex2bin fuel height cbvalue env.pk_script segwit txa with
            | none => none
            | some cbtx => some (some cbtx, env.have_gbt)

/-- Lines 428-476: the coinbase after the append step, which runs when
`coinbase/append` is mutable or the coinbase was built here.  `none` means
that the `memmove` of line 467 got a negative count. -/
def gbt_cbtx_append (hex2bin : String → Nat → Option (List Nat)) (env : GbtEnv)
    (val : Template) (coinbase_append : Bool) (cbtx : List Nat) : Option (List Nat) :=
  if coinbase_append = true ∨ val.coinbasetxn = none then
    gbt_coinbase_append cbtx (gbt_xsig hex2bin (cbtx.getD 41 0) env.coinbase_sig val.coinbaseaux)
  else some cbtx

/-- Lines 337 and 479: the size in bytes of the buffer `work->txs`,
`2 * (n + cbtx_size + tx_size) + 1`, where `n` is the length of the encoded
count and `tx_size` the sum of `strlen(tx_hex) / 2` over the transactions. -/
def gbt_txs_size (n cbtx_size : Nat) (txa : List TemplateTx) : Nat :=
  2 * (n + cbtx_size + (txa.map (fun tx => (tx.data.getD "").utf8ByteSize / 2)).sum) + 1

/-- Lines 486-509, the part of the loop that concerns `work->txs`, which
holds `s` when the loop reaches the listed transactions.  For each
transaction the Merkle leaf is decoded first: a failure leaves through `out`
with the string as it is (`false`).  Then, unless `submit/coinbase` is
mutable, `strcat` appends the `data` string; `none` means that the string and
its terminator do not fit in the `size` bytes of the buffer. -/
def gbt_txs_loop (H : List Nat → List Nat) (hex2bin : String → Nat → Option (List Nat))
    (segwit submit_coinbase : Bool) (size : Nat) :
    List TemplateTx → String → Option (String × Bool)
  | [], s => some (s, true)
  | tx :: rest, s =>
    match gbt_leaf H hex2bin segwit tx with
    | none => some (s, false)
    | some _ =>
      if submit_coinbase then
        gbt_txs_loop H hex2bin segwit submit_coinbase size rest s
      else if s.utf8ByteSize + (tx.data.getD "").utf8ByteSize + 1 ≤ size then
        gbt_txs_loop H hex2bin segwit submit_coinbase size rest (s ++ tx.data.getD "")
      else none

/-- Lines 478-481 and 486-509: `work->txs` is allocated with the size of
line 479 and receives the hex of the transaction count and of the coinbase;
then the loop over the transactions runs.  The result is the string with
the flag of `gbt_txs_loop`, `none` when a `strcat` wrote past the buffer. -/
def gbt_txs (H : List Nat → List Nat) (hex2bin : String → Nat → Option (List Nat))
    (bin2hex : List Nat → String) (varint_encode : Nat → List Nat)
    (segwit submit_coinbase : Bool) (cbtx : List Nat) (txa : List TemplateTx) :
    Option (String × Bool) :=
  gbt_txs_loop H hex2bin segwit submit_coinbase
    (gbt_txs_size (varint_encode (1 + txa.length)).length cbtx.length txa) txa
    (bin2hex (varint_encode (1 + txa.length)) ++ bin2hex cbtx)

/-- Lines 533-538: `work->target[7 - i] = be32dec(target + i)`. -/
def gbt_target (target : List Nat) : List Nat :=
  ((List.range 8).map (fun i => be32dec (target.drop (4 * i)))).reverse

/-- Lines 549-561: with long polling wanted and a string `longpollid`, the id
is stored, and when long polling is not yet active the `longpolluri` (or the
RPC URL) is pushed to the long-poll thread.  The result is the new
`have_longpoll`, `lp_id` and the pushed URI. -/
def gbt_longpoll (env : GbtEnv) (val : Template) : Bool × Option String × Option String :=
  match val.longpollid with
  | some id =>
    if env.want_longpoll then
      if env.have_longpoll then (true, some id, none)
      else (true, some id, some (val.longpolluri.getD env.rpc_url))
    else (env.have_longpoll, none, none)
  | none => (env.have_longpoll, none, none)

/-- Lines 248-569 of `gbt_work_decode`.  `none` means that the call has no
defined result: a loop did not end within `fuel` passes, the `memmove` of
line 467 got a negative count, or a `strcat` of line 508 wrote past the
buffer.  Otherwise the result tells whether the template was accepted and how
the work was left.  `spare` is the initial content of the spare row of
`merkle_tree`; `bin2hex` and `varint_encode` (util.c) are parameters. -/
def gbt_work_decode (H : List Nat → List Nat) (hex2bin : String → Nat → Option (List Nat))
    (bin2hex : List Nat → String) (varint_encode : Nat → List Nat) (fuel : Nat)
    (env : GbtEnv) (spare : List Nat) (val : Template) (work : Work) : Option GbtResult :=
  match val.height, val.version, val.previousblockhash.bind (fun s => hex2bin s 32),
      val.curtime, val.bits.bind (fun s => hex2bin s 4), val.transactions with
  | some height, some version, some prevhash, some curtime, some bits, some txa =>
    if txa.any (fun tx => tx.data.isNone) then
      some (gbt_reject env env.have_gbt { work with height := int32_wrap height })
    else
      match gbt_cbtx_stage H hex2bin fuel env val (int32_wrap height)
          (gbt_segwit val.rules) txa with
      | none => none
      | some (none, have_gbt) =>
        some (gbt_reject env have_gbt { work with height := int32_wrap height })
      | some (some cbtx0, have_gbt) =>
        match gbt_cbtx_append hex2bin env val (gbt_mutable val.mutable_flags).1 cbtx0 with
        | none => none
        | some cbtx =>
          match gbt_txs H hex2bin bin2hex varint_encode (gbt_segwit val.rules)
              (gbt_mutable val.mutable_flags).2 cbtx txa with
          | none => none
          | some (txs, false) =>
            some (gbt_reject env have_gbt
              { work with height := int32_wrap height, txs := some txs })
          | some (txs, true) =>
            match gbt_merkle_tree H hex2bin fuel (gbt_segwit val.rules) cbtx txa spare with
            | none => none
            | some tree =>
              match val.target.bind (fun s => hex2bin s 32), val.workid with
              | none, _ =>
                some (gbt_reject env have_gbt
                  { work with
                    height := int32_wrap height
                    txs := some txs
                    data := gbt_header version curtime prevhash bits (tree.getD 0 []) })
              | some target, some none =>
                some (gbt_reject env have_gbt
                  { work with
                    height := int32_wrap height
                    txs := some txs
                    data := gbt_header version curtime prevhash bits (tree.getD 0 [])
                    target := gbt_target target })
              | some target, workid =>
                some
                  { rc := true
                    work := some
                      { work with
                        height := int32_wrap height
                        txs := some txs
                        data := gbt_header version curtime prevhash bits (tree.getD 0 [])
                        target := gbt_target target
                        workid := match workid with
                          | some (some id) => some id
                          | _ => work.workid }
                    left :=
                      { work with
                        height := int32_wrap height
                        txs := some txs
                        data := gbt_header version curtime prevhash bits (tree.getD 0 [])
                        target := gbt_target target
                        workid := match workid with
                          | some (some id) => some id
                          | _ => work.workid }
                    have_gbt := have_gbt
                    have_longpoll := (gbt_longpoll env val).1
                    lp_id := (gbt_longpoll env val).2.1
                    lp_push := (gbt_longpoll env val).2.2 }
  | some height, _, _, _, _, _ =>
    some (gbt_reject env env.have_gbt { work with height := int32_wrap height })
  | none, _, _, _, _, _ => some (gbt_reject env env.have_gbt work)

/-- Modelled from the spec: `varint_encode` of util.c (not under src/), the
Bitcoin variable-length integer ("varint tx-count"), for counts below
`2^32`. -/
def varint_encode (n : Nat) : List Nat :=
  if n < 0xfd then [n]
  else if n ≤ 0xffff then [0xfd, n % 256, n / 256 % 256]
  else 0xfe :: le32enc n

/-- A SegWit template with the three sample transactions, for evaluating the
model. -/
def sample_template : Template :=
  { rules := some [some "segwit"], mutable_flags := some [some "coinbase/append"],
    height := some 700000, version := some 0x20000000,
    previousblockhash := some "p", curtime := some 1700000000, bits := some "b",
    transactions := some sample_txs, coinbasetxn := none,
    coinbasevalue := some 5000000000, coinbaseaux := some [some "abcd"],
    target := some "t", workid := some (some "w1"), longpollid := some "lp",
    longpolluri := none, data := none }

/-- The globals of a miner with the payout script `51`, the signature `41 42`
and every protocol allowed. -/
def sample_env : GbtEnv :=
  { pk_script := [0x51], coinbase_sig := [0x41, 0x42], allow_getwork := true,
    have_gbt := true, want_longpoll := true, have_longpoll := false, rpc_url := "http://x/" }


/-- The result of decoding the sample template with the stand-ins for the
hash and for `hex2bin`. -/
def sample_result : GbtResult :=
  (gbt_work_decode toy_hash toy_hex2bin bin2hex varint_encode 100 sample_env []
    sample_template zero_work).getD (gbt_reject sample_env false zero_work)

/-- The work that decoding the sample template produced. -/
def sample_work : Work := sample_result.work.getD zero_work

/-- The work of the sample template with the nonce word 5 stored in
`data[19]`. -/
def sample_mined : Work := { sample_work with data := sample_work.data.set 19 5 }

/-- The globals of a GBT miner whose shared slot still holds the work of the
sample template, with `submit_old` off. -/
def sample_submit_env : SubmitEnv :=
  { submit_old := false, have_stratum := false, rpc_user := "u", g_work := sample_work,
    host_le := true }

/-! ## get_upstream_work and workio_get_work -/

/-- Lines 218-241 of `work_decode`: the getwork reply carries `data` (128
bytes) and `target` (32 bytes) as hex strings; each word is read
little-endian.  `none` is the return value false. -/
def work_decode (hex2bin : String → Nat → Option (List Nat)) (val : Template)
    (work : Work) : Option Work :=
  match val.data.bind (fun s => hex2bin s 128), val.target.bind (fun s => hex2bin s 32) with
  | some d, some t =>
    some { work with
      data := (List.range 32).map (fun i => le32dec (d.drop (4 * i)))
      target := (List.range 8).map (fun i => le32dec (t.drop (4 * i))) }
  | _, _ => none

/-- The caller's `struct work` as a call of `work_decode` leaves it.  A call
that returns true leaves the decoded work.  `jobj_binary` lets `hex2bin`
write into `work->data` and `work->target` themselves, so a call that returns
false has written what `hex2bin` wrote before: `hex2bin_raw s len buf` stands
for the words that the buffer `buf` holds, read in the byte order of the
host, after the call of `hex2bin` (util.c) on the string `s` with the length
`len`.  A member that is missing or not a string is found before anything is
written. -/
def work_decode_left (hex2bin : String → Nat → Option (List Nat))
    (hex2bin_raw : String → Nat → List Nat → List Nat) (val : Template)
    (work : Work) : Work :=
  match work_decode hex2bin val work with
  | some w => w
  | none =>
    match val.data with
    | none => work
    | some s =>
      match hex2bin s 128, val.target with
      | some _, some t =>
        { work with
          data := hex2bin_raw s 128 work.data
          target := hex2bin_raw t 32 work.target }
      | _, _ => { work with data := hex2bin_raw s 128 work.data }

/-- The request body that `get_upstream_work` hands to `json_rpc_call`. -/
inductive RpcBody where
  | gbt_req
  | getwork_req
deriving DecidableEq

/-- What `json_rpc_call` gave back: `val` is the `result` member of the JSON
value (every member missing when there is no `result`), `none` when the call
returned NULL; `err` is the transport's error code, 0 for `CURLE_OK`.  An HTTP
404 under `JSON_RPC_QUIET_404` is `val = none` with `err = 0`. -/
structure RpcReply where
  val : Option Template
  err : Nat
deriving DecidableEq

/-- What a call of `get_upstream_work` did.  `outcome` is the return value,
`none` when the `assert` of line 717 stopped the program; `work` is the
decoded work when the value is true; `left` is the caller's `struct work` as
the call left it, whatever the value; `env` holds the globals as the call
left them; `sent` lists the request bodies in order, `log` the messages that
`get_upstream_work` itself wrote, `calls` counts the RPC calls made so far. -/
structure UpstreamResult where
  outcome : Option Bool
  work : Option Work
  left : Work
  env : GbtEnv
  lp_id : Option String
  lp_push : Option String
  sent : List RpcBody
  log : List String
  calls : Nat
deriving DecidableEq

/-- Lines 706-771 of `get_upstream_work`.  `rpc body k` is the reply of the
server to the k-th RPC call of the program when it carries `body`.  The first
argument bounds the passes through the label `start`; `none` means that the
bound was reached or that the call of `gbt_work_decode` has no defined
result.  `hex2bin_raw` is the parameter of `work_decode_left`. -/
def get_upstream_work (H : List Nat → List Nat) (hex2bin : String → Nat → Option (List Nat))
    (hex2bin_raw : String → Nat → List Nat → List Nat)
    (bin2hex : List Nat → String) (varint_encode : Nat → List Nat) (dfuel : Nat)
    (rpc : RpcBody → Nat → RpcReply) (have_stratum : Bool) (spare : List Nat) :
    Nat → GbtEnv → Nat → List RpcBody → List String → Work → Option UpstreamResult
  | 0, _, _, _, _, _ => none
  | fuel + 1, env, calls, sent, log, work =>
    if env.have_gbt = true ∧ env.pk_script.length = 0 then
      some { outcome := none, work := none, left := work, env := env, lp_id := none,
             lp_push := none, sent := sent, log := log, calls := calls }
    else
      let body := if env.have_gbt then RpcBody.gbt_req else RpcBody.getwork_req
      let reply := rpc body calls
      if have_stratum then
        some { outcome := some true, work := none, left := work, env := env, lp_id := none,
               lp_push := none, sent := sent ++ [body], log := log, calls := calls + 1 }
      else if env.have_gbt = false ∧ env.allow_getwork = false then
        some { outcome := some false, work := none, left := work, env := env, lp_id := none,
               lp_push := none, sent := sent ++ [body],
               log := log ++ ["No usable protocol"], calls := calls + 1 }
      else if env.have_gbt = true ∧ env.allow_getwork = true ∧ reply.val = none ∧
          reply.err = 0 then
        get_upstream_work H hex2bin hex2bin_raw bin2hex varint_encode dfuel rpc have_stratum
          spare fuel { env with have_gbt := false } (calls + 1) (sent ++ [body])
          (log ++ ["getblocktemplate failed, falling back to getwork"]) work
      else
        match reply.val with
        | none =>
          some { outcome := some false, work := none, left := work, env := env,
                 lp_id := none, lp_push := none, sent := sent ++ [body], log := log,
                 calls := calls + 1 }
        | some result =>
          if env.have_gbt then
            match gbt_work_decode H hex2bin bin2hex varint_encode dfuel env spare result
                work with
            | none => none
            | some r =>
              if r.have_gbt = false then
                get_upstream_work H hex2bin hex2bin_raw bin2hex varint_encode dfuel rpc
                  have_stratum spare fuel
                  { env with have_gbt := false, have_longpoll := r.have_longpoll }
                  (calls + 1) (sent ++ [body]) log r.left
              else
                some { outcome := some r.rc, work := r.work, left := r.left,
                       env := { env with have_gbt := r.have_gbt,
                                         have_longpoll := r.have_longpoll },
                       lp_id := r.lp_id, lp_push := r.lp_push, sent := sent ++ [body],
                       log := log, calls := calls + 1 }
          else
            some { outcome := some (work_decode hex2bin result work).isSome,
                   work := work_decode hex2bin result work,
                   left := work_decode_left hex2bin hex2bin_raw result work, env := env,
                   lp_id := none, lp_push := none, sent := sent ++ [body], log := log,
                   calls := calls + 1 }

/-- What a call of `workio_get_work` did: the return value, the work pushed to
the requesting thread, the globals, the request bodies sent, the messages of
`get_upstream_work` and of the retry loop, and the number of pauses slept. -/
structure WorkioResult where
  rc : Bool
  work : Option Work
  env : GbtEnv
  sent : List RpcBody
  log : List String
  sleeps : Nat
deriving DecidableEq

/-- Lines 791-819 of `workio_get_work`: `get_upstream_work` is called until it
returns true; after a failure the loop ends with false only when
`opt_retries >= 0` and the incremented `failures` exceeds it, otherwise it
sleeps and calls again.  The first argument bounds the number of calls;
`none` means that the loop did not end within it, or that a call did not
return or stopped the program.  The last argument is the content of
`ret_work`, which is allocated once (line 796, all zero: `zero_work`) and
handed to every call: what a failed call wrote into it is what the next call
starts from. -/
def workio_get_work (H : List Nat → List Nat) (hex2bin : String → Nat → Option (List Nat))
    (hex2bin_raw : String → Nat → List Nat → List Nat)
    (bin2hex : List Nat → String) (varint_encode : Nat → List Nat) (dfuel : Nat)
    (rpc : RpcBody → Nat → RpcReply) (have_stratum : Bool) (spare : List Nat)
    (opt_retries : Int) :
    Nat → GbtEnv → Nat → Nat → List RpcBody → List String → Nat → Work →
      Option WorkioResult
  | 0, _, _, _, _, _, _, _ => none
  | fuel + 1, env, calls, failures, sent, log, sleeps, ret_work =>
    match get_upstream_work H hex2bin hex2bin_raw bin2hex varint_encode dfuel rpc
        have_stratum spare 2 env calls sent log ret_work with
    | none => none
    | some r =>
      match r.outcome with
      | none => none
      | some true =>
        some { rc := true, work := r.work, env := r.env, sent := r.sent, log := r.log,
               sleeps := sleeps }
      | some false =>
        if 0 ≤ opt_retries ∧ opt_retries < (failures : Int) + 1 then
          some { rc := false, work := none, env := r.env, sent := r.sent,
                 log := r.log ++ ["json_rpc_call failed, terminating workio thread"],
                 sleeps := sleeps }
        else
          workio_get_work H hex2bin hex2bin_raw bin2hex varint_encode dfuel rpc have_stratum
            spare opt_retries fuel r.env r.calls
            (if 0 ≤ opt_retries then failures + 1 else failures) r.sent
            (r.log ++ ["json_rpc_call failed, retry after %d seconds"]) (sleeps + 1) r.left

/-- A stand-in for the parameter `hex2bin_raw` used to evaluate the model on
concrete inputs: the buffer is left as it was. -/
def toy_hex2bin_raw (_ : String) (_ : Nat) (buf : List Nat) : List Nat := buf

/-- A getwork reply whose `data` and `target` strings decode. -/
def sample_getwork : Template :=
  { rules := none, mutable_flags := none, height := none, version := none,
    previousblockhash := none, curtime := none, bits := none, transactions := none,
    coinbasetxn := none, coinbasevalue := none, coinbaseaux := none, target := some "tt",
    workid := none, longpollid := none, longpolluri := none, data := some "d" }

/-- A server without getblocktemplate: every such call is answered with HTTP
404 (no value, no transport error); getwork calls are answered. -/
def sample_rpc_404 : RpcBody → Nat → RpcReply
  | RpcBody.gbt_req, _ => { val := none, err := 0 }
  | RpcBody.getwork_req, _ => { val := some sample_getwork, err := 0 }

/-- A server that answers getblocktemplate with the sample template, with a
template that has no `height`, or with a transport error (code 7),
depending on the call number. -/
def sample_rpc_gbt : RpcBody → Nat → RpcReply
  | RpcBody.gbt_req, 0 => { val := some sample_template, err := 0 }
  | RpcBody.gbt_req, 1 => { val := some { sample_template with height := none }, err := 0 }
  | _, _ => { val := none, err := 7 }

/-- A stand-in for `hex2bin` under which every string decodes to `len` zero
bytes, except that byte 41 is 90: a supplied `coinbasetxn` of 60 bytes then
is `sample_short_cbtx`. -/
def sample_short_hex2bin (_ : String) (len : Nat) : Option (List Nat) :=
  some ((List.replicate len 0).set 41 90)

/-- The sample template with a `coinbasetxn` whose `data` string has 120
characters (60 bytes). -/
def sample_short_template : Template :=
  { sample_template with coinbasetxn := some (some (String.join (List.replicate 60 "00"))) }

/-- The sample template with one transaction whose `data` string has an odd
number of characters. -/
def sample_odd_template : Template :=
  { sample_template with
    transactions := some [{ data := some "000", txid := some "t", hash := some "a" }] }

/-- A server whose first reply to getblocktemplate is the sample template
without its `version` member, and which answers every later
getblocktemplate call with HTTP 404; getwork calls are answered. -/
def sample_rpc_retry : RpcBody → Nat → RpcReply
  | RpcBody.gbt_req, 0 => { val := some { sample_template with version := none }, err := 0 }
  | RpcBody.gbt_req, _ => { val := none, err := 0 }
  | RpcBody.getwork_req, _ => { val := some sample_getwork, err := 0 }

/-- The sample globals with getwork disallowed (`--no-getwork`). -/
def sample_env_no_getwork : GbtEnv := { sample_env with allow_getwork := false }

/-! ## The shared job slot, its lock and the restart flags -/

/-- The steps of the three tasks that touch the slot `g_work`, its lock
`g_work_lock`, the time stamp `g_work_time` and the flags
`work_restart[k].restart`. -/
inductive SlotStep where
  | lock
  | unlock
  | write_slot
  | write_time
  | set_restart (k : Nat)
  | clear_restart (k : Nat)
deriving DecidableEq

/-- The part of the shared state that the steps act on: whether
`g_work_lock` is held, the `opt_n_threads` flags `work_restart[k].restart`,
and how many times `g_work` was written. -/
structure SlotState where
  locked : Bool
  restart : List Bool
  writes : Nat
deriving DecidableEq

/-- The effect of one step. -/
def slot_step (s : SlotState) : SlotStep → SlotState
  | SlotStep.lock => { s with locked := true }
  | SlotStep.unlock => { s with locked := false }
  | SlotStep.write_slot => { s with writes := s.writes + 1 }
  | SlotStep.write_time => s
  | SlotStep.set_restart k => { s with restart := s.restart.set k true }
  | SlotStep.clear_restart k => { s with restart := s.restart.set k false }

/-- The state after a sequence of steps. -/
def slot_run (steps : List SlotStep) (s : SlotState) : SlotState :=
  steps.foldl slot_step s

/-- The steps of an operation that come before its first release of the
lock. -/
def before_unlock : List SlotStep → List SlotStep
  | [] => []
  | SlotStep.unlock :: _ => []
  | x :: rest => x :: before_unlock rest

/-- Lines 1155-1161 of `restart_threads`: `work_restart[i].restart = 1` for
every `i < opt_n_threads`. -/
def restart_threads (opt_n_threads : Nat) : List SlotStep :=
  (List.range opt_n_threads).map SlotStep.set_restart

/-- Lines 1229-1240 of `longpoll_thread`, a pushed reply: the lock is taken,
`work_free(&g_work)` and the decoder write the slot, and only when the
decoder returned true (`rc`) the time is stored and `restart_threads` runs;
then the lock is released. -/
def longpoll_push (opt_n_threads : Nat) (rc : Bool) : List SlotStep :=
  [SlotStep.lock, SlotStep.write_slot] ++
  (if rc then SlotStep.write_time :: restart_threads opt_n_threads else []) ++
  [SlotStep.unlock]

/-- Lines 1332-1342 of `stratum_thread`, a new job: the lock is taken,
`stratum_gen_work` writes the slot, the time is stored, the lock is released;
after that `restart_threads` runs when the job has `clean` set. -/
def stratum_notify (opt_n_threads : Nat) (clean : Bool) : List SlotStep :=
  [SlotStep.lock, SlotStep.write_slot, SlotStep.write_time, SlotStep.unlock] ++
  (if clean then restart_threads opt_n_threads else [])

/-- Lines 1039-1044 and 1065-1073 of `miner_thread` in Stratum mode: under the
lock the worker regenerates the slot with `stratum_gen_work` when its range is
used up on the current work (`regen`), copies the slot or advances its nonce,
releases the lock and clears its own flag. -/
def miner_refresh_stratum (thr_id : Nat) (regen : Bool) : List SlotStep :=
  [SlotStep.lock] ++ (if regen then [SlotStep.write_slot] else []) ++
  [SlotStep.unlock, SlotStep.clear_restart thr_id]

/-- Lines 1045-1073 of `miner_thread` without Stratum: under the lock, when
the scan time is over or the range is used up (`fetch`), the worker frees the
slot and fills it with `get_work`; when that fails (`ok` false) it releases
the lock and leaves its loop, otherwise it stores the time; then it copies the
slot or advances its nonce, releases the lock and clears its own flag. -/
def miner_refresh_getwork (thr_id : Nat) (fetch ok : Bool) : List SlotStep :=
  if fetch then
    if ok then
      [SlotStep.lock, SlotStep.write_slot, SlotStep.write_time, SlotStep.unlock,
        SlotStep.clear_restart thr_id]
    else [SlotStep.lock, SlotStep.write_slot, SlotStep.unlock]
  else [SlotStep.lock, SlotStep.unlock, SlotStep.clear_restart thr_id]

/-- The shared state while `n` workers scan: the lock is free and no flag is
set. -/
def scanning_state (n : Nat) : SlotState :=
  { locked := false, restart := List.replicate n false, writes := 0 }


/-! ## gbt_work_decode: the coinbase in its 256-byte buffer -/

/-- The buffer `cbtx` of line 366 (256 bytes from `malloc`) with the running
`cbtx_size`. -/
structure CbtxBuf where
  bytes : List Nat
  size : Nat
deriving DecidableEq

/-- How a run over the buffer ended: with the buffer built, with a store
outside the allocated bytes, with the template rejected (`goto out`), or
without having ended within the given number of loop passes. -/
inductive BufRun where
  | built (c : CbtxBuf)
  | overflow
  | rejected
  | timeout
deriving DecidableEq

/-- Sequencing: the next step runs on the buffer that the previous one
left. -/
def BufRun.andThen (r : BufRun) (f : CbtxBuf → BufRun) : BufRun :=
  match r with
  | BufRun.built c => f c
  | BufRun.overflow => BufRun.overflow
  | BufRun.rejected => BufRun.rejected
  | BufRun.timeout => BufRun.timeout

/-- The memory `B` after the bytes `bs` were written from index `i` on. -/
def bytes_store (B : List Nat) (i : Nat) (bs : List Nat) : List Nat :=
  B.take i ++ bs ++ B.drop (i + bs.length)

/-- A store of the bytes `bs` at `cbtx + i` (a byte store, `le32enc`, `memset`,
`memcpy`, `memmove` or `sha256d`): every index written must lie inside the
allocated bytes. -/
def cbtx_store (c : CbtxBuf) (i : Nat) (bs : List Nat) : BufRun :=
  if i + bs.length ≤ c.bytes.length then
    BufRun.built { c with bytes := bytes_store c.bytes i bs }
  else BufRun.overflow

/-- A store at `cbtx + cbtx_size` followed by the advance of `cbtx_size`. -/
def cbtx_push (c : CbtxBuf) (bs : List Nat) : BufRun :=
  (cbtx_store c c.size bs).andThen
    (fun c1 => BufRun.built { c1 with size := c.size + bs.length })

/-- The loop of lines 376-380 on the buffer: `cbtx[cbtx_size++] = n & 0xff`,
and `cbtx[cbtx_size++] = 0` when `0x80 ≤ n < 0x100`, until `n` is 0. -/
def bip34_buf : Nat → Int → CbtxBuf → BufRun
  | 0, _, _ => BufRun.timeout
  | fuel + 1, n, c =>
    if n = 0 then BufRun.built c
    else
      (cbtx_push c [(n % 256).toNat]).andThen (fun c1 =>
        if n < 0x100 ∧ n ≥ 0x80 then
          (cbtx_push c1 [0]).andThen (fun c2 => bip34_buf fuel (n >>> 8) c2)
        else bip34_buf fuel (n >>> 8) c1)

/-- Lines 366-374: the zeroed buffer with the version, the in-counter, the
previous output hash and index stored, and `cbtx_size = 43`. -/
def gbt_cbtx_head : BufRun :=
  (cbtx_store { bytes := List.replicate 256 0, size := 0 } 0 (le32enc 1)).andThen (fun c1 =>
  (cbtx_store c1 4 [1]).andThen (fun c2 =>
  (cbtx_store c2 5 (List.replicate 32 0)).andThen (fun c3 =>
  (cbtx_store c3 37 (le32enc 0xffffffff)).andThen (fun c4 =>
  BufRun.built { c4 with size := 43 }))))

/-- Lines 392-425 on the buffer: under SegWit the second output is stored, a
zero value, the script length 38, the six header bytes, and after the witness
tree the 32 bytes that `sha256d` writes; a transaction without a decodable
`hash` rejects the template. -/
def gbt_witness_buf (H : List Nat → List Nat)
    (hex2bin : String → Nat → Option (List Nat)) (fuel : Nat) (segwit : Bool)
    (txs : List TemplateTx) (c : CbtxBuf) : BufRun :=
  if segwit then
    (cbtx_push c (List.replicate 8 0)).andThen (fun c1 =>
    (cbtx_push c1 [38]).andThen (fun c2 =>
    (cbtx_push c2 [0x6a]).andThen (fun c3 =>
    (cbtx_push c3 [0x24]).andThen (fun c4 =>
    (cbtx_push c4 [0xaa]).andThen (fun c5 =>
    (cbtx_push c5 [0x21]).andThen (fun c6 =>
    (cbtx_push c6 [0xa9]).andThen (fun c7 =>
    (cbtx_push c7 [0xed]).andThen (fun c8 =>
      match gbt_witness_leaves hex2bin txs with
      | none => BufRun.rejected
      | some _ =>
        match gbt_witness_commitment H hex2bin fuel txs with
        | none => BufRun.timeout
        | some cm => cbtx_push c8 cm))))))))
  else BufRun.built c

/-- Lines 366-427 on the buffer, for a template without `coinbasetxn`, with
a payout script and with the integer `coinbasevalue`. -/
def gbt_coinbase_buf (H : List Nat → List Nat)
    (hex2bin : String → Nat → Option (List Nat)) (fuel : Nat)
    (height cbvalue : Int) (pk_script : List Nat) (segwit : Bool)
    (txs : List TemplateTx) : BufRun :=
  gbt_cbtx_head.andThen (fun c0 =>
  (bip34_buf fuel height c0).andThen (fun c1 =>
  (cbtx_store c1 42 [(c1.size - 43) % 256]).andThen (fun c2 =>
  (cbtx_store c2 41 [(c2.size - 42) % 256]).andThen (fun c3 =>
  (cbtx_push c3 (le32enc 0xffffffff)).andThen (fun c4 =>
  (cbtx_push c4 [if segwit then 2 else 1]).andThen (fun c5 =>
  (cbtx_store c5 c5.size (le32enc (cbvalue % 2 ^ 32).toNat)).andThen (fun c6 =>
  (cbtx_store c6 (c6.size + 4) (le32enc ((cbvalue >>> 32) % 2 ^ 32).toNat)).andThen (fun c7 =>
  (cbtx_push { c7 with size := c7.size + 8 } [pk_script.length % 256]).andThen (fun c8 =>
  (cbtx_push c8 pk_script).andThen (fun c9 =>
  (gbt_witness_buf H hex2bin fuel segwit txs c9).andThen (fun c10 =>
  cbtx_push c10 (le32enc 0))))))))))))

/-- Lines 430-476 on the buffer, with `coinbase_append` set: the collected
`xsig` is inserted at `ssig_end = cbtx + 42 + cbtx[41]`.  `memmove` stores the
`cbtx_size - 42 - cbtx[41]` bytes from `ssig_end` at `ssig_end + n`; a
negative count is a huge `size_t` and takes the copy past the buffer.  Then
`cbtx[41]`, the push bytes and `xsig` are stored and `cbtx_size` grows by
`n`. -/
def gbt_append_buf (hex2bin : String → Nat → Option (List Nat)) (coinbase_sig : List Nat)
    (coinbaseaux : Option (List (Option String))) (c : CbtxBuf) : BufRun :=
  let len41 := c.bytes.getD 41 0
  let xsig := gbt_xsig hex2bin len41 coinbase_sig coinbaseaux
  if xsig.length = 0 then BufRun.built c
  else if c.size < 42 + len41 then BufRun.overflow
  else
    let ssig_end := 42 + len41
    let push_len :=
      if len41 + xsig.length < 76 then 1
      else if len41 + 2 + xsig.length > 100 then 0 else 2
    let n := xsig.length + push_len
    (cbtx_store c (ssig_end + n)
      ((c.bytes.drop ssig_end).take (c.size - 42 - len41))).andThen (fun c1 =>
    (cbtx_store c1 41 [(len41 + n) % 256]).andThen (fun c2 =>
    (if push_len = 2 then cbtx_store c2 ssig_end [0x4c] else BufRun.built c2).andThen (fun c3 =>
    (if push_len ≠ 0 then
      cbtx_store c3 (ssig_end + (if push_len = 2 then 1 else 0)) [xsig.length % 256]
     else BufRun.built c3).andThen (fun c4 =>
    (cbtx_store c4 (ssig_end + push_len) xsig).andThen (fun c5 =>
    BufRun.built { c5 with size := c.size + n })))))

/-- Lines 366-476 on the buffer: the coinbase is built and the signature is
appended. -/
def gbt_coinbase_final_buf (H : List Nat → List Nat)
    (hex2bin : String → Nat → Option (List Nat)) (fuel : Nat)
    (height cbvalue : Int) (pk_script : List Nat) (segwit : Bool)
    (txs : List TemplateTx) (coinbase_sig : List Nat)
    (coinbaseaux : Option (List (Option String))) : BufRun :=
  (gbt_coinbase_buf H hex2bin fuel height cbvalue pk_script segwit txs).andThen
    (gbt_append_buf hex2bin coinbase_sig coinbaseaux)

/-- The bytes `cbtx[0 .. cbtx_size)` of a finished run. -/
def BufRun.content : BufRun → Option (List Nat)
  | BufRun.built c => some (c.bytes.take c.size)
  | _ => none

/-- The buffer has its 256 bytes and `content` is what lies in
`cbtx[0 .. cbtx_size)`. -/
def CbtxBuf.holds (c : CbtxBuf) (content : List Nat) : Prop :=
  c.bytes.length = 256 ∧ c.size = content.length ∧ c.bytes.take c.size = content

/-! ## workio_submit_work -/

/-- Lines 821-839 of `workio_submit_work`: `submit_upstream_work` is called on
the same `struct work` until it returns true; after a failure the loop ends
with false only when `opt_retries >= 0` and the incremented `failures`
exceeds it.  `transport k` tells whether the transport of the k-th call
succeeds; the result lists the requests of all calls and holds the work as
the last call left it.  The first argument bounds the number of calls; `none`
means that the loop did not end within it. -/
def workio_submit_work (env : SubmitEnv) (opt_retries : Int) (transport : Nat → Bool) :
    Nat → Nat → Nat → Work → List WireRequest → Option SubmitResult
  | 0, _, _, _, _ => none
  | fuel + 1, k, failures, work, sent =>
    if (submit_upstream_work env (transport k) work).rc then
      some { rc := true, sent := sent ++ (submit_upstream_work env (transport k) work).sent,
             work := (submit_upstream_work env (transport k) work).work }
    else if 0 ≤ opt_retries ∧ opt_retries < (failures : Int) + 1 then
      some { rc := false, sent := sent ++ (submit_upstream_work env (transport k) work).sent,
             work := (submit_upstream_work env (transport k) work).work }
    else
      workio_submit_work env opt_retries transport fuel (k + 1)
        (if 0 ≤ opt_retries then failures + 1 else failures)
        (submit_upstream_work env (transport k) work).work
        (sent ++ (submit_upstream_work env (transport k) work).sent)

/-- A GBT work whose header words are not byte palindromes, with the nonce 7
and a transaction list. -/
def sample_retry_work : Work :=
  { zero_work with
    data := [2] ++ List.replicate 8 0x01020304 ++ List.replicate 8 0x0a0b0c0d ++
      [0x11223344, 0x1d00ffff, 7, 0x80000000] ++ List.replicate 10 0 ++ [0x280]
    txs := some "01" }

/-- The globals of a GBT miner on a little-endian host whose shared slot
holds the template of `sample_retry_work`, with `submit_old` off. -/
def sample_retry_env : SubmitEnv :=
  { submit_old := false, have_stratum := false, rpc_user := "u",
    g_work := sample_retry_work, host_le := true }

/-- A transport whose first call fails and whose later calls succeed. -/
def sample_transport : Nat → Bool
  | 0 => false
  | _ => true
/-! ## Theorems: nonce partition -/

theorem quot_mul_succ_le (N i : Nat) (hi : i < N) :
    0xffffffff / N * (i + 1) ≤ 0xffffffff :=
  le_trans (Nat.mul_le_mul_left _ hi) (Nat.div_mul_le_self _ _)

theorem start_nonce_eq (N i : Nat) (hi : i < N) :
    start_nonce N i = 0xffffffff / N * i := by
  have h1 := quot_mul_succ_le N i hi
  have h2 : 0xffffffff / N * i ≤ 0xffffffff / N * (i + 1) :=
    Nat.mul_le_mul_left _ (Nat.le_succ i)
  unfold start_nonce u32
  exact Nat.mod_eq_of_lt (by omega)

theorem end_nonce_eq (N i : Nat) (hi : i < N) (hq : 0x20 ≤ 0xffffffff / N) :
    end_nonce N i = 0xffffffff / N * (i + 1) - 0x20 := by
  have h1 := quot_mul_succ_le N i hi
  have h2 : 0xffffffff / N * (i + 1) = 0xffffffff / N * i + 0xffffffff / N := by ring
  unfold end_nonce sub32 u32
  have h3 : 0xffffffff / N * (i + 1) % 2 ^ 32 = 0xffffffff / N * (i + 1) :=
    Nat.mod_eq_of_lt (by omega)
  rw [h3, h3]
  omega

theorem quot_ge_of_le (N M : Nat) (hN1 : 1 ≤ N) (hN : N ≤ M) :
    0xffffffff / M ≤ 0xffffffff / N :=
  Nat.div_le_div_left hN hN1

/-- C1: for 1 ≤ N ≤ 9999 and worker indices j < k < N the ranges
`[start_i, end_i)` computed by `miner_thread` are pairwise disjoint
(`end_j ≤ start_k`), every range is non-empty, and neither the start nor the
end wraps around `2^32`: the start is the exact product, the end plus `0x20`
is the exact product, and that product is below `2^32`. -/
theorem miner_thread_ranges_disjoint (N j k : Nat) (hN1 : 1 ≤ N) (hN : N ≤ 9999)
    (hjk : j < k) (hk : k < N) :
    end_nonce N j ≤ start_nonce N k ∧
    (∀ i, i < N →
      start_nonce N i < end_nonce N i ∧
      start_nonce N i = 0xffffffff / N * i ∧
      end_nonce N i + 0x20 = 0xffffffff / N * (i + 1) ∧
      0xffffffff / N * (i + 1) < 2 ^ 32) := by
  have hq : 0xffffffff / 9999 ≤ 0xffffffff / N := quot_ge_of_le N 9999 hN1 hN
  have hq9 : (0xffffffff : Nat) / 9999 = 429539 := by norm_num
  have hq32 : 0x20 ≤ 0xffffffff / N := by omega
  constructor
  · rw [end_nonce_eq N j (lt_trans hjk hk) hq32, start_nonce_eq N k hk]
    have : 0xffffffff / N * (j + 1) ≤ 0xffffffff / N * k :=
      Nat.mul_le_mul_left _ hjk
    omega
  · intro i hi
    have h1 := quot_mul_succ_le N i hi
    have h2 : 0xffffffff / N * (i + 1) = 0xffffffff / N * i + 0xffffffff / N := by ring
    rw [end_nonce_eq N i hi hq32, start_nonce_eq N i hi]
    refine ⟨by omega, rfl, by omega, by omega⟩

/-- Witness for C1 at N = 4, workers 1 and 3. -/
theorem miner_thread_ranges_disjoint_witness :
    end_nonce 4 1 ≤ start_nonce 4 3 ∧
    (∀ i, i < 4 →
      start_nonce 4 i < end_nonce 4 i ∧
      start_nonce 4 i = 0xffffffff / 4 * i ∧
      end_nonce 4 i + 0x20 = 0xffffffff / 4 * (i + 1) ∧
      0xffffffff / 4 * (i + 1) < 2 ^ 32) :=
  miner_thread_ranges_disjoint 4 1 3 (by decide) (by decide) (by decide) (by decide)

/-- C2 (as stated) fails at N = 2: the nonce `0x7fffffe0` lies in
`[0, 0xffffffff - 0x20 * 2]` but in no worker range, even when the range end
is counted as included; and the nonce `0xffffffc0` lies in the range of
worker 1 but above `0xffffffff - 0x20 * 2`. -/
theorem nonce_union_counterexample :
    (0x7fffffe0 ≤ 0xffffffff - 0x20 * 2 ∧
      ∀ k, k < 2 → ¬ (start_nonce 2 k ≤ 0x7fffffe0 ∧ 0x7fffffe0 ≤ end_nonce 2 k)) ∧
    (start_nonce 2 1 ≤ 0xffffffc0 ∧ 0xffffffc0 < end_nonce 2 1 ∧
      ¬ 0xffffffc0 ≤ 0xffffffff - 0x20 * 2) := by
  have s0 : start_nonce 2 0 = 0 := by decide
  have s1 : start_nonce 2 1 = 0x7fffffff := by decide
  have e0 : end_nonce 2 0 = 0x7fffffdf := by decide
  have e1 : end_nonce 2 1 = 0xffffffde := by decide
  refine ⟨⟨by decide, ?_⟩, ?_⟩
  · intro k hk
    have hk2 : k = 0 ∨ k = 1 := by omega
    rcases hk2 with rfl | rfl
    · rw [s0, e0]; omega
    · rw [s1, e1]; omega
  · rw [s1, e1]; omega

/-- C2 (amended): for 1 ≤ N ≤ 0x7ffffff, with q = 0xffffffff / N, a nonce is
in the union of the worker ranges `[start_k, end_k)`, k < N, exactly when it
is below `q * N` and its remainder modulo `q` is below `q - 0x20`; every such
nonce is below `0xffffffff - 0x20`; and for N = 1 the union is the interval
`[0, 0xffffffff - 0x20 * N)`. -/
theorem nonce_union_characterised (N : Nat) (hN1 : 1 ≤ N) (hN : N ≤ 0x7ffffff) :
    (∀ x, covered N x ↔
      (x < 0xffffffff / N * N ∧ x % (0xffffffff / N) < 0xffffffff / N - 0x20)) ∧
    (∀ x, covered N x → x < 0xffffffff - 0x20) ∧
    (N = 1 → ∀ x, covered N x ↔ x < 0xffffffff - 0x20 * N) := by
  have hq : 0xffffffff / 0x7ffffff ≤ 0xffffffff / N := quot_ge_of_le N 0x7ffffff hN1 hN
  have hq9 : (0xffffffff : Nat) / 0x7ffffff = 32 := by norm_num
  have hq32 : 0x20 ≤ 0xffffffff / N := by omega
  have hqN : 0xffffffff / N * N ≤ 0xffffffff := Nat.div_mul_le_self _ _
  have key : ∀ x, covered N x ↔
      (x < 0xffffffff / N * N ∧ x % (0xffffffff / N) < 0xffffffff / N - 0x20) := by
    intro x
    generalize hqdef : 0xffffffff / N = q at *
    constructor
    · rintro ⟨k, hk, hs, he⟩
      have hs2 := start_nonce_eq N k hk
      have he2 := end_nonce_eq N k hk (by rw [hqdef]; exact hq32)
      rw [hqdef] at hs2 he2
      rw [hs2] at hs
      rw [he2] at he
      have h2 : q * (k + 1) = q * k + q := by ring
      have h3 : q * (k + 1) ≤ q * N := Nat.mul_le_mul_left _ hk
      have h4 : q * N = q * N := rfl
      have hx : x = q * k + (x - q * k) := by omega
      have hr : x - q * k < q := by omega
      have hmod : x % q = x - q * k := by
        rw [hx, Nat.mul_add_mod, Nat.mod_eq_of_lt hr]
        omega
      constructor
      · omega
      · rw [hmod]; omega
    · rintro ⟨hlt, hr⟩
      have hqpos : 0 < q := by omega
      have hk : x / q < N := Nat.div_lt_of_lt_mul hlt
      refine ⟨x / q, hk, ?_, ?_⟩
      · have hs2 := start_nonce_eq N (x / q) hk
        rw [hqdef] at hs2
        rw [hs2]
        exact Nat.mul_div_le x q
      · have he2 := end_nonce_eq N (x / q) hk (by rw [hqdef]; exact hq32)
        rw [hqdef] at he2
        rw [he2]
        have hdm := Nat.div_add_mod x q
        have h2 : q * (x / q + 1) = q * (x / q) + q := by ring
        omega
  refine ⟨key, ?_, ?_⟩
  · intro x hx
    obtain ⟨h1, h2⟩ := (key x).1 hx
    generalize hqdef : 0xffffffff / N = q at *
    have hqpos : 0 < q := by omega
    have hk : x / q < N := Nat.div_lt_of_lt_mul h1
    have hdm := Nat.div_add_mod x q
    have h3 : q * (x / q + 1) ≤ q * N := Nat.mul_le_mul_left _ hk
    have h4 : q * (x / q + 1) = q * (x / q) + q := by ring
    omega
  · intro h1 x
    subst h1
    rw [key x]
    have hq1 : (0xffffffff : Nat) / 1 = 0xffffffff := by norm_num
    rw [hq1]
    constructor
    · rintro ⟨_, h⟩
      have := Nat.mod_eq_of_lt (show x < 0xffffffff by omega)
      omega
    · intro h
      have := Nat.mod_eq_of_lt (show x < 0xffffffff by omega)
      omega

/-- Witness for the amended C2 at N = 2. -/
theorem nonce_union_characterised_witness :
    (∀ x, covered 2 x ↔
      (x < 0xffffffff / 2 * 2 ∧ x % (0xffffffff / 2) < 0xffffffff / 2 - 0x20)) ∧
    (∀ x, covered 2 x → x < 0xffffffff - 0x20) ∧
    (2 = 1 → ∀ x, covered 2 x ↔ x < 0xffffffff - 0x20 * 2) :=
  nonce_union_characterised 2 (by decide) (by decide)

/-- C3 (as stated) fails: with four threads, worker 3 starts at `0xbffffffd`,
not `0xbfffffe0`, and its partition ends at `0xffffffdc`, not `0xffffffe0`. -/
theorem worker3_nonce_counterexample :
    start_nonce 4 3 ≠ 0xbfffffe0 ∧ end_nonce 4 3 ≠ 0xffffffe0 := by
  constructor <;> decide

/-- C3 (amended): with N = 4 threads, worker 3 resets `data[19]` to
`0xbffffffd` when the slot differs from its private work in the first 19
words, its partition end is `0xffffffdc`, and `max_nonce` never exceeds that
end for a non-negative scan budget and equals it once the budget reaches
past the end. -/
theorem worker3_nonce_bounds (work g_work : Work)
    (hlen : g_work.data.length = 32)
    (hnew : work.data.take 19 ≠ g_work.data.take 19) :
    (miner_thread_refresh 4 3 work g_work).data.getD 19 0 = 0xbffffffd ∧
    end_nonce 4 3 = 0xffffffdc ∧
    (∀ (nonce : Nat) (max64 : Int), 0 ≤ max64 →
      max_nonce nonce max64 (end_nonce 4 3) ≤ 0xffffffdc) ∧
    (∀ (nonce : Nat) (max64 : Int), (nonce : Int) + max64 > 0xffffffdc →
      max_nonce nonce max64 (end_nonce 4 3) = 0xffffffdc) := by
  have he : end_nonce 4 3 = 0xffffffdc := by decide
  have hs : start_nonce 4 3 = 0xbffffffd := by decide
  refine ⟨?_, he, ?_, ?_⟩
  · unfold miner_thread_refresh
    rw [if_pos hnew, hs]
    simp [List.getD_eq_getElem?_getD, List.getElem?_set, hlen]
  · intro nonce max64 h0
    rw [he]
    unfold max_nonce
    split
    · exact le_refl _
    · rename_i h
      have h1 : (0 : Int) ≤ (nonce : Int) + max64 := by omega
      have h2 : ((nonce : Int) + max64) % 2 ^ 32 = (nonce : Int) + max64 :=
        Int.emod_eq_of_lt h1 (by push_cast at h ⊢; omega)
      rw [h2]
      push_cast at h
      omega
  · intro nonce max64 h
    rw [he]
    unfold max_nonce
    rw [if_pos (by push_cast; exact h)]


/-- Witness for the amended C3: a worker holding zeroed work meets the
benchmark work in the slot. -/
theorem worker3_nonce_bounds_witness :
    (miner_thread_refresh 4 3 zero_work benchmark_work).data.getD 19 0 = 0xbffffffd ∧
    end_nonce 4 3 = 0xffffffdc ∧
    (∀ (nonce : Nat) (max64 : Int), 0 ≤ max64 →
      max_nonce nonce max64 (end_nonce 4 3) ≤ 0xffffffdc) ∧
    (∀ (nonce : Nat) (max64 : Int), (nonce : Int) + max64 > 0xffffffdc →
      max_nonce nonce max64 (end_nonce 4 3) = 0xffffffdc) :=
  worker3_nonce_bounds zero_work benchmark_work (by decide) (by decide)

/-! ## Theorems: BIP-34 height encoding -/

theorem bip34_loop_nat (f : Nat) : ∀ (fuel m : Nat) (out : List Nat), 2 * m < 256 ^ f →
    f < fuel →
    ∃ enc, bip34_loop fuel (m : Int) out = some (out ++ enc) ∧ le_val enc = m ∧
      (∀ b ∈ enc, b < 256) ∧ (∀ t, enc.getLast? = some t → t < 128) ∧
      enc.length ≤ f ∧ (0 < m → 0 < enc.length) ∧ (m = 0 → enc = []) := by
  induction f with
  | zero =>
    intro fuel m out hm hfuel
    obtain ⟨g, rfl⟩ : ∃ g, fuel = g + 1 := ⟨fuel - 1, by omega⟩
    have h0 : m = 0 := by simpa using hm
    subst h0
    exact ⟨[], by simp [bip34_loop], rfl, by simp, by simp, by simp, by simp, by simp⟩
  | succ f ih =>
    intro fuel m out hm hfuel
    obtain ⟨g, rfl⟩ : ∃ g, fuel = g + 1 := ⟨fuel - 1, by omega⟩
    by_cases h0 : m = 0
    · subst h0
      exact ⟨[], by simp [bip34_loop], rfl, by simp, by simp, by simp, by simp, by simp⟩
    · have hpow : 256 ^ (f + 1) = 256 * 256 ^ f := by ring
      have hdiv : 2 * (m / 256) < 256 ^ f := by
        have := Nat.div_add_mod m 256
        omega
      have hshift : ((m : Int) >>> 8) = ((m / 256 : Nat) : Int) := by
        show Int.shiftRight (Int.ofNat m) 8 = _
        simp [Int.shiftRight, Nat.shiftRight_eq_div_pow]
      have hmod : ((m : Int) % 256).toNat = m % 256 := by
        have : ((m : Int) % 256) = ((m % 256 : Nat) : Int) := by push_cast; rfl
        rw [this]; exact Int.toNat_natCast _
      have hne : ¬ ((m : Int) = 0) := by exact_mod_cast h0
      by_cases hx : m < 256 ∧ 128 ≤ m
      · have hxi : (m : Int) < 0x100 ∧ (m : Int) ≥ 0x80 := by
          constructor
          · exact_mod_cast hx.1
          · exact_mod_cast hx.2
        obtain ⟨enc, he, hv, hb, hl, hlen, hpos, hnil⟩ :=
          ih g (m / 256) ((out ++ [m % 256]) ++ [0]) hdiv (by omega)
        have hz : m / 256 = 0 := by omega
        have hnil2 := hnil hz
        subst hnil2
        have hf : 1 ≤ f := by
          rcases f with _ | f
          · simp at hdiv ⊢; omega
          · omega
        refine ⟨[m % 256, 0], ?_, ?_, ?_, ?_, ?_, ?_, ?_⟩
        · rw [bip34_loop, if_neg hne]
          simp only [hmod, hshift, if_pos hxi]
          rw [he]; simp
        · simp [le_val]; omega
        · intro b hb2
          simp at hb2
          rcases hb2 with rfl | rfl <;> omega
        · intro t ht; simp at ht; omega
        · simp; omega
        · intro _; simp
        · intro h; exact absurd h h0
      · have hxi : ¬ ((m : Int) < 0x100 ∧ (m : Int) ≥ 0x80) := by
          intro h
          apply hx
          constructor
          · exact_mod_cast h.1
          · exact_mod_cast h.2
        obtain ⟨enc, he, hv, hb, hl, hlen, hpos, hnil⟩ :=
          ih g (m / 256) (out ++ [m % 256]) hdiv (by omega)
        refine ⟨m % 256 :: enc, ?_, ?_, ?_, ?_, ?_, ?_, ?_⟩
        · rw [bip34_loop, if_neg hne]
          simp only [hmod, hshift, if_neg hxi]
          rw [he]; simp
        · simp only [le_val, hv]
          have := Nat.div_add_mod m 256
          omega
        · intro b hb2
          simp at hb2
          rcases hb2 with rfl | hb2
          · exact Nat.mod_lt _ (by decide)
          · exact hb b hb2
        · intro t ht
          by_cases hz : m / 256 = 0
          · have hnil2 := hnil hz
            subst hnil2
            simp at ht
            omega
          · have hp := hpos (Nat.pos_of_ne_zero hz)
            have hne2 : enc ≠ [] := by
              intro h; rw [h] at hp; simp at hp
            cases enc with
            | nil => exact absurd rfl hne2
            | cons a t2 =>
              rw [List.getLast?_cons_cons] at ht
              exact hl t ht
        · simp; omega
        · intro _; simp
        · intro h; exact absurd h h0

theorem bip34_loop_fuel (fuel : Nat) (m : Nat) (hfuel : 5 ≤ fuel) (hm : m < 2 ^ 31) :
    ∃ enc, bip34_loop fuel (m : Int) [] = some enc ∧ le_val enc = m ∧
      (∀ b ∈ enc, b < 256) ∧ (∀ t, enc.getLast? = some t → t < 128) ∧
      enc.length ≤ 4 ∧ (0 < m → 0 < enc.length) := by
  obtain ⟨enc, he, hv, hb, hl, hlen, hpos, _⟩ :=
    bip34_loop_nat 4 fuel m [] (by norm_num; omega) (by omega)
  exact ⟨enc, by simpa using he, hv, hb, hl, hlen, hpos⟩

theorem gbt_coinbase_eq (H : List Nat → List Nat)
    (hex2bin : String → Nat → Option (List Nat)) (fuel : Nat)
    (height cbvalue : Int) (pk_script : List Nat) (segwit : Bool)
    (txs : List TemplateTx) (cb : List Nat)
    (h : gbt_coinbase H hex2bin fuel height cbvalue pk_script segwit txs = some cb) :
    ∃ push out2, bip34_push fuel height = some push ∧
      gbt_witness_output H hex2bin fuel segwit txs = some out2 ∧
      cb = le32enc 1 ++ [1] ++ List.replicate 32 0 ++ le32enc 0xffffffff ++
        [push.length % 256] ++ push ++ le32enc 0xffffffff ++
        [if segwit then 2 else 1] ++
        le32enc (cbvalue % 2 ^ 32).toNat ++ le32enc ((cbvalue >>> 32) % 2 ^ 32).toNat ++
        [pk_script.length % 256] ++ pk_script ++ out2 ++ le32enc 0 := by
  unfold gbt_coinbase at h
  split at h
  · exact absurd h (by simp)
  · cases hp : bip34_push fuel height with
    | none => simp [hp] at h
    | some push =>
      cases ho : gbt_witness_output H hex2bin fuel segwit txs with
      | none => simp [hp, ho] at h
      | some out2 =>
        simp only [hp, ho, Option.some.injEq] at h
        exact ⟨push, out2, rfl, rfl, h.symm⟩

theorem gbt_coinbase_height_bytes (H : List Nat → List Nat)
    (hex2bin : String → Nat → Option (List Nat)) (fuel : Nat)
    (height cbvalue : Int) (pk_script : List Nat) (segwit : Bool)
    (txs : List TemplateTx) (cb : List Nat) (k : Nat) (bs : List Nat)
    (hk : k = bs.length)
    (hpush : bip34_push fuel height = some (k :: bs))
    (h : gbt_coinbase H hex2bin fuel height cbvalue pk_script segwit txs = some cb) :
    cb.getD 41 0 = (k + 1) % 256 ∧ cb.getD 42 0 = k ∧ (cb.drop 43).take k = bs := by
  obtain ⟨push, out2, hp, -, hcb⟩ :=
    gbt_coinbase_eq H hex2bin fuel height cbvalue pk_script segwit txs cb h
  rw [hpush] at hp
  injection hp with hp
  subst hp
  subst hk
  rw [hcb]
  simp [le32enc, List.take_append]

theorem getD_41_of_length (l rest : List Nat) (k : Nat) (hl : l.length = 41) :
    (l ++ [k] ++ rest).getD 41 0 = k := by
  simp only [List.getD_eq_getElem?_getD, List.append_assoc]
  rw [List.getElem?_append_right (by omega), hl]
  simp

theorem gbt_coinbase_append_wf (cbtx xsig : List Nat)
    (hwf : 42 + cbtx.getD 41 0 ≤ cbtx.length) :
    gbt_coinbase_append cbtx xsig = some (gbt_append_insert cbtx xsig) := by
  unfold gbt_coinbase_append
  rw [if_neg (by omega)]

theorem gbt_coinbase_append_empty (cbtx xsig : List Nat) (hx : xsig = []) :
    gbt_coinbase_append cbtx xsig = some cbtx := by
  subst hx
  rfl

theorem gbt_coinbase_append_some (cbtx xsig r : List Nat)
    (h : gbt_coinbase_append cbtx xsig = some r) : r = gbt_append_insert cbtx xsig := by
  unfold gbt_coinbase_append at h
  split at h
  · exact absurd h (by simp)
  · exact (Option.some.inj h).symm

theorem gbt_coinbase_append_none (cbtx xsig : List Nat) :
    gbt_coinbase_append cbtx xsig = none ↔
      xsig ≠ [] ∧ cbtx.length < 42 + cbtx.getD 41 0 := by
  unfold gbt_coinbase_append
  have hx : xsig.length ≠ 0 ↔ xsig ≠ [] := by
    rw [Ne, List.length_eq_zero]
  split
  · rename_i h
    exact ⟨fun _ => ⟨hx.mp h.1, h.2⟩, fun _ => rfl⟩
  · rename_i h
    constructor
    · intro h2
      exact absurd h2 (by simp)
    · intro h2
      exact absurd ⟨hx.mpr h2.1, h2.2⟩ h

theorem gbt_coinbase_wf (H : List Nat → List Nat)
    (hex2bin : String → Nat → Option (List Nat)) (fuel : Nat)
    (height cbvalue : Int) (pk_script : List Nat) (segwit : Bool)
    (txs : List TemplateTx) (cb : List Nat)
    (h : gbt_coinbase H hex2bin fuel height cbvalue pk_script segwit txs = some cb) :
    42 + cb.getD 41 0 ≤ cb.length := by
  obtain ⟨push, out2, -, -, hcb⟩ :=
    gbt_coinbase_eq H hex2bin fuel height cbvalue pk_script segwit txs cb h
  have h41 : (le32enc 1 ++ [1] ++ List.replicate 32 0 ++ le32enc 0xffffffff).length = 41 :=
    rfl
  have hsplit : cb = (le32enc 1 ++ [1] ++ List.replicate 32 0 ++ le32enc 0xffffffff) ++
      [push.length % 256] ++ (push ++ le32enc 0xffffffff ++
      [if segwit then 2 else 1] ++
      le32enc (cbvalue % 2 ^ 32).toNat ++ le32enc ((cbvalue >>> 32) % 2 ^ 32).toNat ++
      [pk_script.length % 256] ++ pk_script ++ out2 ++ le32enc 0) := by
    rw [hcb]
    simp only [List.append_assoc]
  have hg : cb.getD 41 0 = push.length % 256 := by
    rw [hsplit]
    exact getD_41_of_length _ _ _ h41
  have hlen : 42 + push.length ≤ cb.length := by
    rw [hsplit]
    simp only [List.length_append, h41, List.length_singleton]
    omega
  have := Nat.mod_le push.length 256
  omega

theorem gbt_coinbase_final_map (H : List Nat → List Nat)
    (hex2bin : String → Nat → Option (List Nat)) (fuel : Nat)
    (height cbvalue : Int) (pk_script : List Nat) (segwit : Bool)
    (txs : List TemplateTx) (coinbase_sig : List Nat)
    (coinbaseaux : Option (List (Option String))) :
    gbt_coinbase_final H hex2bin fuel height cbvalue pk_script segwit txs
        coinbase_sig coinbaseaux =
      (gbt_coinbase H hex2bin fuel height cbvalue pk_script segwit txs).map
        (fun cbtx =>
          gbt_append_insert cbtx
            (gbt_xsig hex2bin (cbtx.getD 41 0) coinbase_sig coinbaseaux)) := by
  unfold gbt_coinbase_final
  cases hc : gbt_coinbase H hex2bin fuel height cbvalue pk_script segwit txs with
  | none => rfl
  | some cb =>
    rw [Option.some_bind, Option.map_some']
    exact gbt_coinbase_append_wf cb _
      (gbt_coinbase_wf H hex2bin fuel height cbvalue pk_script segwit txs cb hc)

theorem gbt_append_insert_shape (pre tail xsig : List Nat)
    (hpre : pre.length = 42 + pre.getD 41 0) :
    ∃ v ins, gbt_append_insert (pre ++ tail) xsig = pre.set 41 v ++ ins ++ tail := by
  have h41 : (pre ++ tail).getD 41 0 = pre.getD 41 0 := by
    simp only [List.getD_eq_getElem?_getD]
    rw [List.getElem?_append_left (by omega)]
  have htake : (pre ++ tail).take (42 + pre.getD 41 0) = pre := List.take_left' hpre
  have hdrop : (pre ++ tail).drop (42 + pre.getD 41 0) = tail := List.drop_left' hpre
  unfold gbt_append_insert
  by_cases hx : xsig.length = 0
  · rw [if_pos hx]
    refine ⟨pre.getD 41 0, [], ?_⟩
    have : pre.set 41 (pre.getD 41 0) = pre := by
      apply List.ext_getElem?
      intro i
      rw [List.getElem?_set]
      split
      · rename_i h
        subst h
        rw [if_pos (by omega), List.getD_eq_getElem?_getD]
        have h2 : 41 < pre.length := by omega
        rw [List.getElem?_eq_getElem h2]
        rfl
      · rfl
    rw [this, List.append_nil]
  · rw [if_neg hx]
    simp only [h41, htake, hdrop]
    exact ⟨(pre.getD 41 0 + (xsig.length +
        if pre.getD 41 0 + xsig.length < 76 then 1
        else if pre.getD 41 0 + 2 + xsig.length > 100 then 0 else 2)) % 256,
      (if (if pre.getD 41 0 + xsig.length < 76 then 1
          else if pre.getD 41 0 + 2 + xsig.length > 100 then 0 else 2) = 2 then [0x4c]
        else []) ++
      (if (if pre.getD 41 0 + xsig.length < 76 then 1
          else if pre.getD 41 0 + 2 + xsig.length > 100 then 0 else 2) ≠ 0 then
          [xsig.length % 256]
        else []) ++ xsig, by simp only [List.append_assoc]⟩

theorem gbt_coinbase_final_height_bytes (H : List Nat → List Nat)
    (hex2bin : String → Nat → Option (List Nat)) (fuel : Nat)
    (height cbvalue : Int) (pk_script : List Nat) (segwit : Bool)
    (txs : List TemplateTx) (coinbase_sig : List Nat)
    (coinbaseaux : Option (List (Option String))) (cb : List Nat) (bs : List Nat)
    (hk : bs.length ≤ 4)
    (hpush : bip34_push fuel height = some (bs.length :: bs))
    (h : gbt_coinbase_final H hex2bin fuel height cbvalue pk_script segwit txs
      coinbase_sig coinbaseaux = some cb) :
    cb.getD 42 0 = bs.length ∧ (cb.drop 43).take bs.length = bs := by
  rw [gbt_coinbase_final_map] at h
  cases hc : gbt_coinbase H hex2bin fuel height cbvalue pk_script segwit txs with
  | none => simp [hc] at h
  | some cb0 =>
    obtain ⟨push, out2, hp, -, hcb⟩ :=
      gbt_coinbase_eq H hex2bin fuel height cbvalue pk_script segwit txs cb0 hc
    rw [hpush] at hp
    injection hp with hp
    subst hp
    have h41 : (le32enc 1 ++ [1] ++ List.replicate 32 0 ++ le32enc 0xffffffff).length = 41 :=
      rfl
    have hmod : (bs.length + 1) % 256 = bs.length + 1 := Nat.mod_eq_of_lt (by omega)
    have hsplit : cb0 = ((le32enc 1 ++ [1] ++ List.replicate 32 0 ++ le32enc 0xffffffff) ++
        [(bs.length + 1) % 256] ++ (bs.length :: bs)) ++
        (le32enc 0xffffffff ++ [if segwit then 2 else 1] ++
        le32enc (cbvalue % 2 ^ 32).toNat ++ le32enc ((cbvalue >>> 32) % 2 ^ 32).toNat ++
        [pk_script.length % 256] ++ pk_script ++ out2 ++ le32enc 0) := by
      rw [hcb]
      simp only [List.append_assoc, List.length_cons]
    have hpre : ((le32enc 1 ++ [1] ++ List.replicate 32 0 ++ le32enc 0xffffffff) ++
        [(bs.length + 1) % 256] ++ (bs.length :: bs)).length = 42 +
        ((le32enc 1 ++ [1] ++ List.replicate 32 0 ++ le32enc 0xffffffff) ++
        [(bs.length + 1) % 256] ++ (bs.length :: bs)).getD 41 0 := by
      rw [getD_41_of_length _ _ _ h41, List.length_append, List.length_append, h41, hmod]
      simp only [List.length_singleton, List.length_cons, List.length_nil]
    rw [hc, Option.map_some', Option.some.injEq, hsplit] at h
    obtain ⟨v, ins, hshape⟩ := gbt_append_insert_shape _
      (le32enc 0xffffffff ++ [if segwit then 2 else 1] ++
        le32enc (cbvalue % 2 ^ 32).toNat ++ le32enc ((cbvalue >>> 32) % 2 ^ 32).toNat ++
        [pk_script.length % 256] ++ pk_script ++ out2 ++ le32enc 0)
      (gbt_xsig hex2bin
        ((((le32enc 1 ++ [1] ++ List.replicate 32 0 ++ le32enc 0xffffffff) ++
        [(bs.length + 1) % 256] ++ (bs.length :: bs)) ++
        (le32enc 0xffffffff ++ [if segwit then 2 else 1] ++
        le32enc (cbvalue % 2 ^ 32).toNat ++ le32enc ((cbvalue >>> 32) % 2 ^ 32).toNat ++
        [pk_script.length % 256] ++ pk_script ++ out2 ++ le32enc 0)).getD 41 0)
        coinbase_sig coinbaseaux) hpre
    rw [hshape] at h
    have hset : ((le32enc 1 ++ [1] ++ List.replicate 32 0 ++ le32enc 0xffffffff) ++
        [(bs.length + 1) % 256] ++ (bs.length :: bs)).set 41 v =
        (le32enc 1 ++ [1] ++ List.replicate 32 0 ++ le32enc 0xffffffff) ++ [v] ++
          (bs.length :: bs) := by
      rw [List.append_assoc, List.set_append_right _ _ (by rw [h41]), h41]
      simp
    rw [hset] at h
    rw [← h]
    constructor
    · simp [le32enc]
    · simp [le32enc, List.take_append]

/-- C4: for every height h with 17 ≤ h ≤ 2^31 - 1 and every pass bound of at
least 5, the BIP-34 encoder of `gbt_work_decode` returns a push-length byte k
followed by k bytes (1 ≤ k ≤ 4, each below 256) whose little-endian value is
h and whose last byte has its top bit clear; parsing the push as a script
number returns h; two heights of the range with the same byte string are
equal; every coinbase built for h carries k in `cbtx[42]`, k + 1 in
`cbtx[41]` and the k bytes from offset 43 on; and the push is still there
after the signature append. -/
theorem bip34_height_roundtrip (fuel : Nat) (h : Int) (hfuel : 5 ≤ fuel)
    (h17 : 17 ≤ h) (hmax : h ≤ 2 ^ 31 - 1) :
    ∃ bs, bip34_push fuel h = some (bs.length :: bs) ∧
      1 ≤ bs.length ∧ bs.length ≤ 4 ∧ (∀ b ∈ bs, b < 256) ∧
      (le_val bs : Int) = h ∧ (∀ t, bs.getLast? = some t → t < 128) ∧
      script_push_parse (bs.length :: bs) = some h ∧
      (∀ h2 : Int, 17 ≤ h2 → h2 ≤ 2 ^ 31 - 1 →
        bip34_push fuel h2 = bip34_push fuel h → h2 = h) ∧
      (∀ (H : List Nat → List Nat) (hex2bin : String → Nat → Option (List Nat))
        (cbvalue : Int) (pk_script : List Nat) (segwit : Bool) (txs : List TemplateTx)
        (cb : List Nat),
        gbt_coinbase H hex2bin fuel h cbvalue pk_script segwit txs = some cb →
        cb.getD 41 0 = bs.length + 1 ∧ cb.getD 42 0 = bs.length ∧
        (cb.drop 43).take bs.length = bs) ∧
      (∀ (H : List Nat → List Nat) (hex2bin : String → Nat → Option (List Nat))
        (cbvalue : Int) (pk_script : List Nat) (segwit : Bool) (txs : List TemplateTx)
        (coinbase_sig : List Nat) (coinbaseaux : Option (List (Option String)))
        (cb : List Nat),
        gbt_coinbase_final H hex2bin fuel h cbvalue pk_script segwit txs
          coinbase_sig coinbaseaux = some cb →
        cb.getD 42 0 = bs.length ∧ (cb.drop 43).take bs.length = bs) := by
  have key : ∀ x : Int, 17 ≤ x → x ≤ 2 ^ 31 - 1 →
      ∃ bs, bip34_push fuel x = some (bs.length :: bs) ∧
        1 ≤ bs.length ∧ bs.length ≤ 4 ∧ (∀ b ∈ bs, b < 256) ∧
        (le_val bs : Int) = x ∧ (∀ t, bs.getLast? = some t → t < 128) := by
    intro x hx1 hx2
    obtain ⟨m, rfl⟩ : ∃ m : Nat, x = (m : Int) := ⟨x.toNat, by omega⟩
    have hm : m < 2 ^ 31 := by omega
    obtain ⟨enc, he, hv, hb, hl, hlen, hpos⟩ := bip34_loop_fuel fuel m hfuel hm
    have hp := hpos (by omega)
    refine ⟨enc, ?_, hp, hlen, hb, by rw [hv], hl⟩
    unfold bip34_push
    rw [he]
    simp only [Option.map_some']
    rw [Nat.mod_eq_of_lt (by omega)]
  obtain ⟨bs, hpush, h1, h4, hb, hv, hl⟩ := key h h17 hmax
  refine ⟨bs, hpush, h1, h4, hb, hv, hl, ?_, ?_, ?_, ?_⟩
  · unfold script_push_parse
    simp only [le_refl, if_true, List.take_length]
    unfold script_num_decode
    cases hlast : bs.getLast? with
    | none =>
      have : bs = [] := List.getLast?_eq_none_iff.1 hlast
      rw [this] at h1
      simp at h1
    | some t =>
      simp only [if_pos (hl t hlast), hv]
  · intro h2 h217 h2max heq
    obtain ⟨bs2, hpush2, -, -, -, hv2, -⟩ := key h2 h217 h2max
    rw [hpush, hpush2] at heq
    injection heq with heq
    injection heq with _ heq
    rw [← hv, ← hv2, heq]
  · intro H hex2bin cbvalue pk_script segwit txs cb hcb
    have := gbt_coinbase_height_bytes H hex2bin fuel h cbvalue pk_script segwit txs cb
      bs.length bs rfl hpush hcb
    rw [Nat.mod_eq_of_lt (by omega)] at this
    exact this
  · intro H hex2bin cbvalue pk_script segwit txs coinbase_sig coinbaseaux cb hcb
    exact gbt_coinbase_final_height_bytes H hex2bin fuel h cbvalue pk_script segwit txs
      coinbase_sig coinbaseaux cb bs h4 hpush hcb

/-- Witness for C4 at height 700000 with a two-byte payout script. -/
theorem bip34_height_roundtrip_witness :
    ∃ bs, bip34_push 5 700000 = some (bs.length :: bs) ∧
      1 ≤ bs.length ∧ bs.length ≤ 4 ∧ (∀ b ∈ bs, b < 256) ∧
      (le_val bs : Int) = 700000 ∧ (∀ t, bs.getLast? = some t → t < 128) ∧
      script_push_parse (bs.length :: bs) = some 700000 ∧
      (∀ h2 : Int, 17 ≤ h2 → h2 ≤ 2 ^ 31 - 1 →
        bip34_push 5 h2 = bip34_push 5 700000 → h2 = 700000) ∧
      (∀ (H : List Nat → List Nat) (hex2bin : String → Nat → Option (List Nat))
        (cbvalue : Int) (pk_script : List Nat) (segwit : Bool) (txs : List TemplateTx)
        (cb : List Nat),
        gbt_coinbase H hex2bin 5 700000 cbvalue pk_script segwit txs = some cb →
        cb.getD 41 0 = bs.length + 1 ∧ cb.getD 42 0 = bs.length ∧
        (cb.drop 43).take bs.length = bs) ∧
      (∀ (H : List Nat → List Nat) (hex2bin : String → Nat → Option (List Nat))
        (cbvalue : Int) (pk_script : List Nat) (segwit : Bool) (txs : List TemplateTx)
        (coinbase_sig : List Nat) (coinbaseaux : Option (List (Option String)))
        (cb : List Nat),
        gbt_coinbase_final H hex2bin 5 700000 cbvalue pk_script segwit txs
          coinbase_sig coinbaseaux = some cb →
        cb.getD 42 0 = bs.length ∧ (cb.drop 43).take bs.length = bs) :=
  bip34_height_roundtrip 5 700000 (by decide) (by decide) (by decide)


/-! ## Theorems: the in-place Merkle folds -/

theorem getD_set_rows (l : List (List Nat)) (i j : Nat) (a : List Nat) :
    (l.set i a).getD j [] = if i = j ∧ i < l.length then a else l.getD j [] := by
  simp only [List.getD_eq_getElem?_getD, List.getElem?_set]
  by_cases h : i = j
  · subst h
    by_cases h2 : i < l.length
    · simp [h2]
    · simp [h2, List.getElem?_eq_none (Nat.le_of_not_lt h2)]
  · simp [h]

theorem rows_ext (l1 l2 : List (List Nat)) (hlen : l1.length = l2.length)
    (h : ∀ j, j < l1.length → l1.getD j [] = l2.getD j []) : l1 = l2 := by
  apply List.ext_getElem hlen
  intro j h1 h2
  have := h j h1
  rw [List.getD_eq_getElem _ _ h1, List.getD_eq_getElem _ _ h2] at this
  exact this

theorem hash_level_length (H : List Nat → List Nat) :
    ∀ (k i : Nat) (tree : List (List Nat)), (hash_level H k i tree).length = tree.length := by
  intro k
  induction k with
  | zero => intro i tree; rfl
  | succ k ih =>
    intro i tree
    rw [hash_level, ih, List.length_set]

theorem hash_level_getD (H : List Nat → List Nat) :
    ∀ (k i : Nat) (tree : List (List Nat)) (j : Nat),
      (hash_level H k i tree).getD j [] =
        if i ≤ j ∧ j < i + k ∧ j < tree.length then
          H (tree.getD (2 * j) [] ++ tree.getD (2 * j + 1) [])
        else tree.getD j [] := by
  intro k
  induction k with
  | zero =>
    intro i tree j
    have : ¬ (i ≤ j ∧ j < i + 0 ∧ j < tree.length) := by omega
    rw [if_neg this]; rfl
  | succ k ih =>
    intro i tree j
    rw [hash_level, ih, List.length_set]
    by_cases hj : i + 1 ≤ j ∧ j < i + 1 + k ∧ j < tree.length
    · rw [if_pos hj, if_pos (by omega), getD_set_rows, getD_set_rows,
        if_neg (by omega), if_neg (by omega)]
    · rw [if_neg hj, getD_set_rows]
      by_cases hij : i = j ∧ i < tree.length
      · rw [if_pos hij, if_pos (by omega)]
        obtain ⟨rfl, _⟩ := hij
        rfl
      · rw [if_neg hij, if_neg (by omega)]

theorem merkle_pairs_length (H : List Nat → List Nat) :
    ∀ (n : Nat) (l : List (List Nat)), l.length ≤ n →
      (merkle_pairs H l).length = (l.length + 1) / 2 := by
  intro n
  induction n with
  | zero =>
    intro l h
    cases l with
    | nil => rfl
    | cons a t => simp at h
  | succ n ih =>
    intro l h
    cases l with
    | nil => rfl
    | cons a t =>
      cases t with
      | nil => simp [merkle_pairs]
      | cons b t =>
        have h2 := ih t (by simp at h; omega)
        simp only [merkle_pairs, List.length_cons, h2]
        omega

theorem merkle_pairs_getD (H : List Nat → List Nat) :
    ∀ (n : Nat) (l : List (List Nat)) (j : Nat), l.length ≤ n → j < (l.length + 1) / 2 →
      (merkle_pairs H l).getD j [] =
        H (l.getD (2 * j) [] ++ l.getD (if 2 * j + 1 < l.length then 2 * j + 1 else 2 * j) []) := by
  intro n
  induction n with
  | zero =>
    intro l j h hj
    cases l with
    | nil => simp at hj
    | cons a t => simp at h
  | succ n ih =>
    intro l j h hj
    cases l with
    | nil => simp at hj
    | cons a t =>
      cases t with
      | nil =>
        have : j = 0 := by simp at hj; omega
        subst this
        simp [merkle_pairs]
      | cons b t =>
        cases j with
        | zero => simp [merkle_pairs]
        | succ j =>
          have h2 := ih t j (by simp at h; omega) (by simp at hj; omega)
          have e1 : 2 * (j + 1) = (2 * j + 1) + 1 := by ring
          have e2 : 2 * (j + 1) + 1 = (2 * j + 1 + 1) + 1 := by ring
          simp only [merkle_pairs, List.getD_cons_succ, h2, List.length_cons, e1]
          by_cases hc : 2 * j + 1 < t.length
          · rw [if_pos hc, if_pos (by omega)]
            simp only [List.getD_cons_succ]
          · rw [if_neg hc, if_neg (by omega)]
            simp only [List.getD_cons_succ]

theorem merkle_root_ref_pairs (H : List Nat → List Nat) (l : List (List Nat))
    (h : 2 ≤ l.length) : merkle_root_ref H l = merkle_root_ref H (merkle_pairs H l) := by
  cases l with
  | nil => simp at h
  | cons a t =>
    cases t with
    | nil => simp at h
    | cons b t => rw [merkle_root_ref]

theorem getD_take_rows (l : List (List Nat)) (n j : Nat) (h : j < n) :
    (l.take n).getD j [] = l.getD j [] := by
  simp only [List.getD_eq_getElem?_getD, List.getElem?_take, if_pos h]

theorem merkle_level_step (H : List Nat → List Nat) (n : Nat) (tree : List (List Nat))
    (hn : 2 ≤ n) (hcap : n + n % 2 ≤ tree.length) :
    (hash_level H ((n + 1) / 2) 0
      (if n % 2 = 1 then tree.set n (tree.getD (n - 1) []) else tree)).take ((n + 1) / 2) =
      merkle_pairs H (tree.take n) := by
  have hlen1 : (if n % 2 = 1 then tree.set n (tree.getD (n - 1) []) else tree).length =
      tree.length := by
    split <;> simp
  have htake : (tree.take n).length = n := by
    rw [List.length_take]; omega
  apply rows_ext
  · rw [List.length_take, hash_level_length, hlen1,
      merkle_pairs_length H _ _ (le_refl _), htake]
    omega
  · intro j hj
    rw [List.length_take, hash_level_length, hlen1] at hj
    have hj2 : j < (n + 1) / 2 := by omega
    rw [getD_take_rows _ _ _ hj2, hash_level_getD, hlen1,
      if_pos (by omega),
      merkle_pairs_getD H _ _ j (le_refl _) (by rw [htake]; exact hj2), htake]
    have h2j : 2 * j < n := by omega
    rw [getD_take_rows _ _ _ h2j]
    by_cases hodd : n % 2 = 1
    · rw [if_pos hodd, getD_set_rows, getD_set_rows, if_neg (by omega)]
      by_cases hc : 2 * j + 1 < n
      · rw [if_neg (by omega), if_pos hc, getD_take_rows _ _ _ hc]
      · have he : n = 2 * j + 1 := by omega
        rw [if_pos (by omega), if_neg hc, getD_take_rows _ _ _ h2j]
        have : n - 1 = 2 * j := by omega
        rw [this]
    · rw [if_neg hodd]
      have hc : 2 * j + 1 < n := by omega
      rw [if_pos hc, getD_take_rows _ _ _ hc]

theorem merkle_loop_root (H : List Nat → List Nat) :
    ∀ (fuel n : Nat) (tree : List (List Nat)), 1 ≤ n → n ≤ fuel →
      n + n % 2 ≤ tree.length →
      ∃ t, merkle_loop H fuel n tree = some t ∧ t.length = tree.length ∧
        t.getD 0 [] = merkle_root_ref H (tree.take n) := by
  intro fuel
  induction fuel with
  | zero => intro n tree h1 h2; omega
  | succ f ih =>
    intro n tree h1 hf hcap
    by_cases hn : n > 1
    · have hn2 : (if n % 2 = 1 then n + 1 else n) / 2 = (n + 1) / 2 := by
        split <;> omega
      rw [merkle_loop, if_pos hn]
      simp only [hn2]
      have hlen1 : (if n % 2 = 1 then tree.set n (tree.getD (n - 1) []) else tree).length =
          tree.length := by
        split <;> simp
      obtain ⟨t, ht, htl, hroot⟩ := ih ((n + 1) / 2)
        (hash_level H ((n + 1) / 2) 0
          (if n % 2 = 1 then tree.set n (tree.getD (n - 1) []) else tree))
        (by omega) (by omega) (by rw [hash_level_length, hlen1]; omega)
      refine ⟨t, ht, by rw [htl, hash_level_length, hlen1], ?_⟩
      rw [hroot, merkle_level_step H n tree (by omega) hcap]
      rw [← merkle_root_ref_pairs H (tree.take n) (by rw [List.length_take]; omega)]
    · have h1n : n = 1 := by omega
      subst h1n
      rw [merkle_loop, if_neg hn]
      refine ⟨tree, rfl, rfl, ?_⟩
      cases tree with
      | nil => simp at hcap
      | cons a t => simp [merkle_root_ref]

theorem wtree_loop_eq (H : List Nat → List Nat) :
    ∀ (fuel n : Nat) (tree : List (List Nat)),
      wtree_loop H fuel n tree = merkle_loop H fuel n tree := by
  intro fuel
  induction fuel with
  | zero => intro n tree; rfl
  | succ f ih =>
    intro n tree
    have hn2 : (if n % 2 = 1 then n + 1 else n) / 2 = (n + 1) / 2 := by
      split <;> omega
    rw [wtree_loop, merkle_loop]
    simp only [hn2, ih]

theorem gbt_leaves_spec (H : List Nat → List Nat)
    (hex2bin : String → Nat → Option (List Nat)) (segwit : Bool) :
    ∀ (txs : List TemplateTx) (leaves : List (List Nat)),
      gbt_leaves H hex2bin segwit txs = some leaves →
      leaves.length = txs.length ∧
      ∀ (i : Nat) (tx : TemplateTx), txs[i]? = some tx →
        gbt_leaf H hex2bin segwit tx = leaves[i]? := by
  intro txs
  induction txs with
  | nil =>
    intro leaves h
    simp only [gbt_leaves, Option.some.injEq] at h
    subst h
    simp
  | cons tx rest ih =>
    intro leaves h
    rw [gbt_leaves] at h
    cases hl : gbt_leaf H hex2bin segwit tx with
    | none => simp [hl] at h
    | some leaf =>
      cases hr : gbt_leaves H hex2bin segwit rest with
      | none => simp [hl, hr] at h
      | some ls =>
        simp only [hl, hr, Option.map_some', Option.some.injEq] at h
        subst h
        obtain ⟨h1, h2⟩ := ih ls hr
        refine ⟨by simp [h1], ?_⟩
        intro i tx2 hi
        cases i with
        | zero =>
          simp only [List.getElem?_cons_zero, Option.some.injEq] at hi
          subst hi
          simp [hl]
        | succ i =>
          simp only [List.getElem?_cons_succ] at hi ⊢
          exact h2 i tx2 hi

/-- C5: whenever every transaction yields a leaf and the pass bound covers
the `1 + tx_count` rows, the in-place fold of `gbt_work_decode` returns, and
row 0 of `merkle_tree` is the reference Merkle root (pairwise `sha256d`, last
node duplicated on an odd count) of `[sha256d(coinbase), leaf_1, ...]`
whatever the spare row held; words 9 to 16 of the header are the eight
big-endian words of that root; and each leaf is the reversed decoded `txid`
under SegWit and `sha256d` of the decoded `data` otherwise. -/
theorem gbt_merkle_root_refines (H : List Nat → List Nat)
    (hex2bin : String → Nat → Option (List Nat)) (fuel : Nat) (segwit : Bool)
    (cbtx : List Nat) (txs : List TemplateTx) (spare : List Nat)
    (leaves : List (List Nat))
    (hfuel : 1 + txs.length ≤ fuel)
    (hleaves : gbt_leaves H hex2bin segwit txs = some leaves) :
    ∃ tree, gbt_merkle_tree H hex2bin fuel segwit cbtx txs spare = some tree ∧
      tree.getD 0 [] = merkle_root_ref H (H cbtx :: leaves) ∧
      (∀ (version curtime : Int) (prevhash bits : List Nat),
        ((gbt_header version curtime prevhash bits (tree.getD 0 [])).drop 9).take 8 =
          merkle_words (merkle_root_ref H (H cbtx :: leaves))) ∧
      leaves.length = txs.length ∧
      (∀ (i : Nat) (tx : TemplateTx), txs[i]? = some tx →
        leaves[i]? =
          if segwit then (tx.txid.bind (fun s => hex2bin s 32)).map List.reverse
          else (tx.data.bind (fun s => hex2bin s (s.utf8ByteSize / 2))).map H) := by
  obtain ⟨hlen, hleaf⟩ := gbt_leaves_spec H hex2bin segwit txs leaves hleaves
  obtain ⟨t, ht, -, hroot⟩ := merkle_loop_root H fuel (1 + txs.length)
    (H cbtx :: leaves ++ (if (1 + txs.length) % 2 = 1 then [spare] else []))
    (by omega) hfuel (by
      split
      · simp [hlen]; omega
      · simp [hlen]; omega)
  have htake : (H cbtx :: leaves ++ (if (1 + txs.length) % 2 = 1 then [spare] else [])).take
      (1 + txs.length) = H cbtx :: leaves := by
    have : 1 + txs.length = (H cbtx :: leaves).length := by simp [hlen]; omega
    rw [this, List.take_left]
  rw [htake] at hroot
  refine ⟨t, ?_, hroot, ?_, hlen, ?_⟩
  · unfold gbt_merkle_tree
    rw [hleaves]
    exact ht
  · intro version curtime prevhash bits
    rw [hroot]
    simp [gbt_header, merkle_words]
  · intro i tx hi
    rw [← hleaf i tx hi]
    unfold gbt_leaf
    cases segwit with
    | true =>
      cases tx.txid with
      | none => simp
      | some s => simp
    | false =>
      cases tx.data with
      | none => simp
      | some s => simp

/-- Witness for C5: three SegWit transactions under the stand-in hash. -/
theorem gbt_merkle_root_refines_witness :
    ∃ tree, gbt_merkle_tree toy_hash toy_hex2bin 4 true [1, 2, 3] sample_txs [] = some tree ∧
      tree.getD 0 [] = merkle_root_ref toy_hash (toy_hash [1, 2, 3] ::
        [List.replicate 32 1, List.replicate 32 2, List.replicate 32 3]) ∧
      (∀ (version curtime : Int) (prevhash bits : List Nat),
        ((gbt_header version curtime prevhash bits (tree.getD 0 [])).drop 9).take 8 =
          merkle_words (merkle_root_ref toy_hash (toy_hash [1, 2, 3] ::
            [List.replicate 32 1, List.replicate 32 2, List.replicate 32 3]))) ∧
      [List.replicate 32 1, List.replicate 32 2, List.replicate 32 3].length =
        sample_txs.length ∧
      (∀ (i : Nat) (tx : TemplateTx), sample_txs[i]? = some tx →
        [List.replicate 32 1, List.replicate 32 2, List.replicate 32 3][i]? =
          if true then (tx.txid.bind (fun s => toy_hex2bin s 32)).map List.reverse
          else (tx.data.bind (fun s => toy_hex2bin s (s.utf8ByteSize / 2))).map toy_hash) :=
  gbt_merkle_root_refines toy_hash toy_hex2bin 4 true [1, 2, 3] sample_txs []
    [List.replicate 32 1, List.replicate 32 2, List.replicate 32 3] (by decide) (by decide)

/-! ## Theorems: the SegWit commitment -/

theorem gbt_witness_leaves_spec (hex2bin : String → Nat → Option (List Nat)) :
    ∀ (txs : List TemplateTx) (leaves : List (List Nat)),
      gbt_witness_leaves hex2bin txs = some leaves →
      leaves.length = txs.length ∧
      ∀ (i : Nat) (tx : TemplateTx), txs[i]? = some tx →
        leaves[i]? = (tx.hash.bind (fun s => hex2bin s 32)).map List.reverse := by
  intro txs
  induction txs with
  | nil =>
    intro leaves h
    simp only [gbt_witness_leaves, Option.some.injEq] at h
    subst h
    simp
  | cons tx rest ih =>
    intro leaves h
    rw [gbt_witness_leaves] at h
    cases hh : tx.hash with
    | none => simp [hh] at h
    | some s =>
      cases hb : hex2bin s 32 with
      | none => simp [hh, hb] at h
      | some bs =>
        cases hr : gbt_witness_leaves hex2bin rest with
        | none => simp [hh, hb, hr] at h
        | some ls =>
          simp only [hh, hb, hr, Option.map_some', Option.some.injEq] at h
          subst h
          obtain ⟨h1, h2⟩ := ih ls hr
          refine ⟨by simp [h1], ?_⟩
          intro i tx2 hi
          cases i with
          | zero =>
            simp only [List.getElem?_cons_zero, Option.some.injEq] at hi
            subst hi
            simp [hh, hb]
          | succ i =>
            simp only [List.getElem?_cons_succ] at hi ⊢
            exact h2 i tx2 hi

theorem gbt_witness_commitment_eq (H : List Nat → List Nat)
    (hex2bin : String → Nat → Option (List Nat)) (fuel : Nat)
    (txs : List TemplateTx) (leaves : List (List Nat))
    (hfuel : txs.length + 1 ≤ fuel)
    (hl : gbt_witness_leaves hex2bin txs = some leaves) :
    gbt_witness_commitment H hex2bin fuel txs =
      some (H (merkle_root_ref H (List.replicate 32 0 :: leaves) ++ List.replicate 32 0)) := by
  obtain ⟨hlen, -⟩ := gbt_witness_leaves_spec hex2bin txs leaves hl
  obtain ⟨t, ht, htl, hroot⟩ := merkle_loop_root H fuel (txs.length + 1)
    (List.replicate 32 0 :: leaves ++ [List.replicate 32 0])
    (by omega) hfuel (by simp [hlen]; omega)
  have htake : (List.replicate 32 0 :: leaves ++ [List.replicate 32 0]).take
      (txs.length + 1) = List.replicate 32 0 :: leaves := by
    have : txs.length + 1 = (List.replicate 32 0 :: leaves).length := by simp [hlen]
    rw [this, List.take_left]
  rw [htake] at hroot
  have ht1 : 1 < t.length := by rw [htl]; simp
  unfold gbt_witness_commitment
  rw [hl]
  simp only [wtree_loop_eq, ht]
  rw [getD_set_rows, getD_set_rows, if_neg (by omega), if_pos ⟨rfl, ht1⟩, hroot]

theorem bip34_push_some (fuel : Nat) (height : Int) (hfuel : 5 ≤ fuel)
    (h0 : 0 ≤ height) (h1 : height < 2 ^ 31) :
    ∃ push, bip34_push fuel height = some push ∧ push.length ≤ 5 := by
  obtain ⟨m, rfl⟩ : ∃ m : Nat, height = (m : Int) := ⟨height.toNat, by omega⟩
  obtain ⟨enc, he, -, -, -, hlen, -⟩ := bip34_loop_fuel fuel m hfuel (by omega)
  exact ⟨_, by unfold bip34_push; rw [he]; rfl, by simp; omega⟩

theorem gbt_append_insert_tail (pre tail xsig : List Nat)
    (hpre : pre.length = 42 + pre.getD 41 0) :
    ∃ head, gbt_append_insert (pre ++ tail) xsig = head ++ tail ∧
      head.take 41 = pre.take 41 := by
  have h41 : (pre ++ tail).getD 41 0 = pre.getD 41 0 := by
    simp only [List.getD_eq_getElem?_getD]
    rw [List.getElem?_append_left (by omega)]
  have htake : (pre ++ tail).take (42 + pre.getD 41 0) = pre := List.take_left' hpre
  have hdrop : (pre ++ tail).drop (42 + pre.getD 41 0) = tail := List.drop_left' hpre
  unfold gbt_append_insert
  by_cases hx : xsig.length = 0
  · rw [if_pos hx]
    exact ⟨pre, rfl, rfl⟩
  · rw [if_neg hx]
    simp only [h41, htake, hdrop]
    refine ⟨_, rfl, ?_⟩
    simp only [List.append_assoc]
    rw [List.take_append_of_le_length (by rw [List.length_set, hpre]; omega)]
    apply List.ext_getElem?
    intro i
    rw [List.getElem?_take, List.getElem?_take]
    split
    · rw [List.getElem?_set_ne (by omega)]
    · rfl

theorem gbt_coinbase_segwit (H : List Nat → List Nat)
    (hex2bin : String → Nat → Option (List Nat)) (fuel : Nat)
    (height cbvalue : Int) (pk_script : List Nat)
    (txs : List TemplateTx) (leaves : List (List Nat))
    (hfuel5 : 5 ≤ fuel) (hfuel : txs.length + 1 ≤ fuel)
    (h0 : 0 ≤ height) (h1 : height < 2 ^ 31) (hpk : pk_script ≠ [])
    (hl : gbt_witness_leaves hex2bin txs = some leaves) :
    ∃ push, bip34_push fuel height = some push ∧
      gbt_coinbase H hex2bin fuel height cbvalue pk_script true txs = some (
        (le32enc 1 ++ [1] ++ List.replicate 32 0 ++ le32enc 0xffffffff ++
          [push.length % 256] ++ push ++ le32enc 0xffffffff) ++ [2] ++
        (le32enc (cbvalue % 2 ^ 32).toNat ++ le32enc ((cbvalue >>> 32) % 2 ^ 32).toNat ++
          [pk_script.length % 256] ++ pk_script) ++
        (List.replicate 8 0 ++ [38] ++ [0x6a, 0x24, 0xaa, 0x21, 0xa9, 0xed] ++
          H (merkle_root_ref H (List.replicate 32 0 :: leaves) ++ List.replicate 32 0)) ++
        le32enc 0) := by
  obtain ⟨push, hp, -⟩ := bip34_push_some fuel height hfuel5 h0 h1
  refine ⟨push, hp, ?_⟩
  have hpk2 : ¬ pk_script.length = 0 := by
    intro h; exact hpk (List.length_eq_zero.1 h)
  unfold gbt_coinbase gbt_witness_output
  rw [if_neg hpk2, hp, gbt_witness_commitment_eq H hex2bin fuel txs leaves hfuel hl]
  simp only [if_true, Option.map_some', List.append_assoc, List.cons_append, List.nil_append]

theorem gbt_coinbase_final_of_eq (H : List Nat → List Nat)
    (hex2bin : String → Nat → Option (List Nat)) (fuel : Nat)
    (height cbvalue : Int) (pk_script : List Nat) (segwit : Bool)
    (txs : List TemplateTx)
    (coinbase_sig : List Nat) (coinbaseaux : Option (List (Option String)))
    (pre tail : List Nat)
    (hcb : gbt_coinbase H hex2bin fuel height cbvalue pk_script segwit txs =
      some (pre ++ tail))
    (hpre : pre.length = 42 + pre.getD 41 0) :
    ∃ head, gbt_coinbase_final H hex2bin fuel height cbvalue pk_script segwit txs
        coinbase_sig coinbaseaux = some (head ++ tail) ∧
      head.take 41 = pre.take 41 := by
  obtain ⟨head, hhead, htake⟩ := gbt_append_insert_tail pre tail
    (gbt_xsig hex2bin ((pre ++ tail).getD 41 0) coinbase_sig coinbaseaux) hpre
  refine ⟨head, ?_, htake⟩
  rw [gbt_coinbase_final_map, hcb, Option.map_some', hhead]

theorem gbt_coinbase_final_segwit (H : List Nat → List Nat)
    (hex2bin : String → Nat → Option (List Nat)) (fuel : Nat)
    (height cbvalue : Int) (pk_script : List Nat)
    (txs : List TemplateTx) (leaves : List (List Nat))
    (coinbase_sig : List Nat) (coinbaseaux : Option (List (Option String)))
    (hfuel5 : 5 ≤ fuel) (hfuel : txs.length + 1 ≤ fuel)
    (h0 : 0 ≤ height) (h1 : height < 2 ^ 31) (hpk : pk_script ≠ [])
    (hl : gbt_witness_leaves hex2bin txs = some leaves) :
    ∃ head, gbt_coinbase_final H hex2bin fuel height cbvalue pk_script true txs
        coinbase_sig coinbaseaux = some (head ++
        (le32enc 0xffffffff ++ [2] ++
        (le32enc (cbvalue % 2 ^ 32).toNat ++ le32enc ((cbvalue >>> 32) % 2 ^ 32).toNat ++
          [pk_script.length % 256] ++ pk_script) ++
        (List.replicate 8 0 ++ [38] ++ [0x6a, 0x24, 0xaa, 0x21, 0xa9, 0xed] ++
          H (merkle_root_ref H (List.replicate 32 0 :: leaves) ++ List.replicate 32 0)) ++
        le32enc 0)) ∧
      head.take 41 = le32enc 1 ++ [1] ++ List.replicate 32 0 ++ le32enc 0xffffffff := by
  obtain ⟨push, hp, hcb⟩ := gbt_coinbase_segwit H hex2bin fuel height cbvalue pk_script
    txs leaves hfuel5 hfuel h0 h1 hpk hl
  obtain ⟨push2, hp2, hlen⟩ := bip34_push_some fuel height hfuel5 h0 h1
  rw [hp] at hp2
  injection hp2 with hp2
  subst hp2
  have hmod : push.length % 256 = push.length := Nat.mod_eq_of_lt (by omega)
  have h41 : (le32enc 1 ++ [1] ++ List.replicate 32 0 ++ le32enc 0xffffffff).length = 41 := rfl
  have hpre : (le32enc 1 ++ [1] ++ List.replicate 32 0 ++ le32enc 0xffffffff ++
      [push.length % 256] ++ push).length = 42 +
      (le32enc 1 ++ [1] ++ List.replicate 32 0 ++ le32enc 0xffffffff ++
      [push.length % 256] ++ push).getD 41 0 := by
    rw [getD_41_of_length _ _ _ h41, List.length_append, List.length_append, h41, hmod]
    simp only [List.length_singleton]
  have hcb2 : gbt_coinbase H hex2bin fuel height cbvalue pk_script true txs =
      some ((le32enc 1 ++ [1] ++ List.replicate 32 0 ++ le32enc 0xffffffff ++
        [push.length % 256] ++ push) ++
        (le32enc 0xffffffff ++ [2] ++
        (le32enc (cbvalue % 2 ^ 32).toNat ++ le32enc ((cbvalue >>> 32) % 2 ^ 32).toNat ++
          [pk_script.length % 256] ++ pk_script) ++
        (List.replicate 8 0 ++ [38] ++ [0x6a, 0x24, 0xaa, 0x21, 0xa9, 0xed] ++
          H (merkle_root_ref H (List.replicate 32 0 :: leaves) ++ List.replicate 32 0)) ++
        le32enc 0)) := by
    rw [hcb]
    simp only [List.append_assoc]
  obtain ⟨head, hhead, htake⟩ := gbt_coinbase_final_of_eq H hex2bin fuel height cbvalue
    pk_script true txs coinbase_sig coinbaseaux _ _ hcb2 hpre
  refine ⟨head, hhead, ?_⟩
  rw [htake, List.append_assoc, List.take_left' h41]

theorem gbt_segwit_of_rule (rules : List (Option String))
    (h : some "segwit" ∈ rules ∨ some "!segwit" ∈ rules) :
    gbt_segwit (some rules) = true := by
  unfold gbt_segwit
  simp only [List.any_eq_true]
  rcases h with h | h
  · exact ⟨_, h, by simp⟩
  · exact ⟨_, h, by simp⟩

/-- C6: for a template whose `rules` hold `segwit` or `!segwit`, with no
`coinbasetxn`, a height in `0 .. 2^31 - 1`, a non-empty payout script and
decodable `hash` members, the coinbase is built (given enough passes) and is:
the input part, the output count 2, the first output, then the second output
made of 8 zero value bytes, the script length 38, the bytes 6a 24 aa 21 a9 ed
and `sha256d(W || 0^32)`, then the lock time; W is the reference Merkle root
of `[0^32, reverse(hash_1), ...]`, which is `0^32` when there is no
transaction.  The coinbase after the signature append, for every
`coinbase_sig` and `coinbaseaux`, still ends with the sequence field, the
output count 2, the same two outputs and the lock time. -/
theorem gbt_segwit_coinbase_commitment (H : List Nat → List Nat)
    (hex2bin : String → Nat → Option (List Nat)) (fuel : Nat)
    (height cbvalue : Int) (pk_script : List Nat) (rules : List (Option String))
    (txs : List TemplateTx) (leaves : List (List Nat))
    (hrule : some "segwit" ∈ rules ∨ some "!segwit" ∈ rules)
    (hfuel5 : 5 ≤ fuel) (hfuel : txs.length + 1 ≤ fuel)
    (h0 : 0 ≤ height) (h1 : height < 2 ^ 31) (hpk : pk_script ≠ [])
    (hl : gbt_witness_leaves hex2bin txs = some leaves) :
    (∃ push, bip34_push fuel height = some push ∧
      gbt_coinbase H hex2bin fuel height cbvalue pk_script (gbt_segwit (some rules)) txs =
        some (
        (le32enc 1 ++ [1] ++ List.replicate 32 0 ++ le32enc 0xffffffff ++
          [push.length % 256] ++ push ++ le32enc 0xffffffff) ++ [2] ++
        (le32enc (cbvalue % 2 ^ 32).toNat ++ le32enc ((cbvalue >>> 32) % 2 ^ 32).toNat ++
          [pk_script.length % 256] ++ pk_script) ++
        (List.replicate 8 0 ++ [38] ++ [0x6a, 0x24, 0xaa, 0x21, 0xa9, 0xed] ++
          H (merkle_root_ref H (List.replicate 32 0 :: leaves) ++ List.replicate 32 0)) ++
        le32enc 0)) ∧
    leaves.length = txs.length ∧
    (∀ (i : Nat) (tx : TemplateTx), txs[i]? = some tx →
      leaves[i]? = (tx.hash.bind (fun s => hex2bin s 32)).map List.reverse) ∧
    (txs = [] → merkle_root_ref H (List.replicate 32 0 :: leaves) = List.replicate 32 0) ∧
    (∀ (coinbase_sig : List Nat) (coinbaseaux : Option (List (Option String))),
      ∃ head, gbt_coinbase_final H hex2bin fuel height cbvalue pk_script
          (gbt_segwit (some rules)) txs coinbase_sig coinbaseaux = some (head ++
          (le32enc 0xffffffff ++ [2] ++
          (le32enc (cbvalue % 2 ^ 32).toNat ++ le32enc ((cbvalue >>> 32) % 2 ^ 32).toNat ++
            [pk_script.length % 256] ++ pk_script) ++
          (List.replicate 8 0 ++ [38] ++ [0x6a, 0x24, 0xaa, 0x21, 0xa9, 0xed] ++
            H (merkle_root_ref H (List.replicate 32 0 :: leaves) ++ List.replicate 32 0)) ++
          le32enc 0)) ∧
        head.take 41 = le32enc 1 ++ [1] ++ List.replicate 32 0 ++ le32enc 0xffffffff) := by
  obtain ⟨hlen, hleaf⟩ := gbt_witness_leaves_spec hex2bin txs leaves hl
  rw [gbt_segwit_of_rule rules hrule]
  refine ⟨gbt_coinbase_segwit H hex2bin fuel height cbvalue pk_script txs leaves
    hfuel5 hfuel h0 h1 hpk hl, hlen, hleaf, ?_, fun coinbase_sig coinbaseaux =>
    gbt_coinbase_final_segwit H hex2bin fuel height cbvalue pk_script txs leaves
      coinbase_sig coinbaseaux hfuel5 hfuel h0 h1 hpk hl⟩
  intro htx
  subst htx
  have : leaves = [] := List.length_eq_zero.1 (by simpa using hlen)
  subst this
  rw [merkle_root_ref]

/-- Witness for C6: three transactions under the stand-in hash. -/
theorem gbt_segwit_coinbase_commitment_witness :
    (∃ push, bip34_push 5 700000 = some push ∧
      gbt_coinbase toy_hash toy_hex2bin 5 700000 5000000000 [0x51]
        (gbt_segwit (some [some "segwit"])) sample_txs =
        some (
        (le32enc 1 ++ [1] ++ List.replicate 32 0 ++ le32enc 0xffffffff ++
          [push.length % 256] ++ push ++ le32enc 0xffffffff) ++ [2] ++
        (le32enc ((5000000000 : Int) % 2 ^ 32).toNat ++
          le32enc (((5000000000 : Int) >>> 32) % 2 ^ 32).toNat ++
          [[0x51].length % 256] ++ [0x51]) ++
        (List.replicate 8 0 ++ [38] ++ [0x6a, 0x24, 0xaa, 0x21, 0xa9, 0xed] ++
          toy_hash (merkle_root_ref toy_hash (List.replicate 32 0 ::
            [List.replicate 32 1, List.replicate 32 2, List.replicate 32 3]) ++
            List.replicate 32 0)) ++
        le32enc 0)) ∧
    [List.replicate 32 1, List.replicate 32 2, List.replicate 32 3].length =
      sample_txs.length ∧
    (∀ (i : Nat) (tx : TemplateTx), sample_txs[i]? = some tx →
      [List.replicate 32 1, List.replicate 32 2, List.replicate 32 3][i]? =
        (tx.hash.bind (fun s => toy_hex2bin s 32)).map List.reverse) ∧
    (sample_txs = [] → merkle_root_ref toy_hash (List.replicate 32 0 ::
      [List.replicate 32 1, List.replicate 32 2, List.replicate 32 3]) =
        List.replicate 32 0) ∧
    (∀ (coinbase_sig : List Nat) (coinbaseaux : Option (List (Option String))),
      ∃ head, gbt_coinbase_final toy_hash toy_hex2bin 5 700000 5000000000 [0x51]
          (gbt_segwit (some [some "segwit"])) sample_txs coinbase_sig coinbaseaux =
          some (head ++
          (le32enc 0xffffffff ++ [2] ++
          (le32enc ((5000000000 : Int) % 2 ^ 32).toNat ++
            le32enc (((5000000000 : Int) >>> 32) % 2 ^ 32).toNat ++
            [[0x51].length % 256] ++ [0x51]) ++
          (List.replicate 8 0 ++ [38] ++ [0x6a, 0x24, 0xaa, 0x21, 0xa9, 0xed] ++
            toy_hash (merkle_root_ref toy_hash (List.replicate 32 0 ::
              [List.replicate 32 1, List.replicate 32 2, List.replicate 32 3]) ++
              List.replicate 32 0)) ++
          le32enc 0)) ∧
        head.take 41 = le32enc 1 ++ [1] ++ List.replicate 32 0 ++ le32enc 0xffffffff) :=
  gbt_segwit_coinbase_commitment toy_hash toy_hex2bin 5 700000 5000000000 [0x51]
    [some "segwit"] sample_txs
    [List.replicate 32 1, List.replicate 32 2, List.replicate 32 3]
    (by simp) (by decide) (by decide) (by decide) (by decide) (by decide) (by decide)

/-- C7 (as stated) fails: under the stand-in hash, with rules `["segwit"]`
and three transactions, the coinbase has two outputs, its second output
starts with a zero value and the script length 38, the script starts with
6a 24 aa 21 a9 ed, but the 38 script bytes are not that header followed by
`SHA256d(SHA256d(0^32 || r1) || SHA256d(r2 || r3))`; the same holds for the
coinbase after the append of the two-byte signature `41 42`, where the
second output lies three bytes further on. -/
theorem segwit_three_tx_counterexample :
    (gbt_coinbase toy_hash toy_hex2bin 5 700000 5000000000 [0x51]
        (gbt_segwit (some [some "segwit"])) sample_txs).map
      (fun cb => (cb.getD 50 0, (cb.drop 61).take 9, (cb.drop 70).take 6, cb.length)) =
      some (2, List.replicate 8 0 ++ [38], [0x6a, 0x24, 0xaa, 0x21, 0xa9, 0xed], 112) ∧
    (gbt_coinbase toy_hash toy_hex2bin 5 700000 5000000000 [0x51]
        (gbt_segwit (some [some "segwit"])) sample_txs).map
      (fun cb => (cb.drop 70).take 38) ≠
      some ([0x6a, 0x24, 0xaa, 0x21, 0xa9, 0xed] ++
        toy_hash (toy_hash (List.replicate 32 0 ++ (List.replicate 32 1).reverse) ++
          toy_hash ((List.replicate 32 2).reverse ++ (List.replicate 32 3).reverse))) ∧
    (gbt_coinbase_final toy_hash toy_hex2bin 5 700000 5000000000 [0x51]
        (gbt_segwit (some [some "segwit"])) sample_txs [0x41, 0x42] none).map
      (fun cb => (cb.getD 53 0, (cb.drop 64).take 9, (cb.drop 73).take 6, cb.length)) =
      some (2, List.replicate 8 0 ++ [38], [0x6a, 0x24, 0xaa, 0x21, 0xa9, 0xed], 115) ∧
    (gbt_coinbase_final toy_hash toy_hex2bin 5 700000 5000000000 [0x51]
        (gbt_segwit (some [some "segwit"])) sample_txs [0x41, 0x42] none).map
      (fun cb => (cb.drop 73).take 38) ≠
      some ([0x6a, 0x24, 0xaa, 0x21, 0xa9, 0xed] ++
        toy_hash (toy_hash (List.replicate 32 0 ++ (List.replicate 32 1).reverse) ++
          toy_hash ((List.replicate 32 2).reverse ++ (List.replicate 32 3).reverse))) := by
  refine ⟨?_, ?_, ?_, ?_⟩ <;> decide

/-- C7 (amended): for rules `["segwit"]` and exactly three transactions whose
decoded witness hashes are h1, h2, h3 (height in `0 .. 2^31 - 1`, non-empty
payout script, at least 5 passes), the coinbase is built and its second
output script is 6a 24 aa 21 a9 ed followed by
`SHA256d(SHA256d(SHA256d(0^32 || r1) || SHA256d(r2 || r3)) || 0^32)` with
r_i the reversal of h_i; the coinbase after the signature append still ends
with the sequence field, the output count 2 and the same two outputs. -/
theorem gbt_segwit_three_tx (H : List Nat → List Nat)
    (hex2bin : String → Nat → Option (List Nat)) (fuel : Nat)
    (height cbvalue : Int) (pk_script : List Nat)
    (tx1 tx2 tx3 : TemplateTx) (s1 s2 s3 : String) (h1 h2 h3 : List Nat)
    (hfuel5 : 5 ≤ fuel) (hh0 : 0 ≤ height) (hh1 : height < 2 ^ 31) (hpk : pk_script ≠ [])
    (e1 : tx1.hash = some s1) (d1 : hex2bin s1 32 = some h1)
    (e2 : tx2.hash = some s2) (d2 : hex2bin s2 32 = some h2)
    (e3 : tx3.hash = some s3) (d3 : hex2bin s3 32 = some h3) :
    ∃ push, bip34_push fuel height = some push ∧
      gbt_coinbase H hex2bin fuel height cbvalue pk_script
        (gbt_segwit (some [some "segwit"])) [tx1, tx2, tx3] =
        some (
        (le32enc 1 ++ [1] ++ List.replicate 32 0 ++ le32enc 0xffffffff ++
          [push.length % 256] ++ push ++ le32enc 0xffffffff) ++ [2] ++
        (le32enc (cbvalue % 2 ^ 32).toNat ++ le32enc ((cbvalue >>> 32) % 2 ^ 32).toNat ++
          [pk_script.length % 256] ++ pk_script) ++
        (List.replicate 8 0 ++ [38] ++ ([0x6a, 0x24, 0xaa, 0x21, 0xa9, 0xed] ++
          H (H (H (List.replicate 32 0 ++ h1.reverse) ++ H (h2.reverse ++ h3.reverse)) ++
            List.replicate 32 0))) ++
        le32enc 0) ∧
      ∀ (coinbase_sig : List Nat) (coinbaseaux : Option (List (Option String))),
        ∃ head, gbt_coinbase_final H hex2bin fuel height cbvalue pk_script
            (gbt_segwit (some [some "segwit"])) [tx1, tx2, tx3] coinbase_sig coinbaseaux =
            some (head ++
            (le32enc 0xffffffff ++ [2] ++
            (le32enc (cbvalue % 2 ^ 32).toNat ++ le32enc ((cbvalue >>> 32) % 2 ^ 32).toNat ++
              [pk_script.length % 256] ++ pk_script) ++
            (List.replicate 8 0 ++ [38] ++ [0x6a, 0x24, 0xaa, 0x21, 0xa9, 0xed] ++
              H (H (H (List.replicate 32 0 ++ h1.reverse) ++ H (h2.reverse ++ h3.reverse)) ++
                List.replicate 32 0)) ++
            le32enc 0)) ∧
          head.take 41 = le32enc 1 ++ [1] ++ List.replicate 32 0 ++ le32enc 0xffffffff := by
  have hl : gbt_witness_leaves hex2bin [tx1, tx2, tx3] =
      some [h1.reverse, h2.reverse, h3.reverse] := by
    simp [gbt_witness_leaves, e1, d1, e2, d2, e3, d3]
  have hroot : merkle_root_ref H (List.replicate 32 0 :: [h1.reverse, h2.reverse, h3.reverse]) =
      H (H (List.replicate 32 0 ++ h1.reverse) ++ H (h2.reverse ++ h3.reverse)) := by
    rw [merkle_root_ref, merkle_pairs, merkle_pairs, merkle_pairs, merkle_root_ref,
      merkle_pairs, merkle_pairs, merkle_root_ref]
  obtain ⟨push, hp, hcb⟩ := gbt_coinbase_segwit H hex2bin fuel height cbvalue pk_script
    [tx1, tx2, tx3] _ hfuel5 (by simp; omega) hh0 hh1 hpk hl
  refine ⟨push, hp, ?_, ?_⟩
  · rw [gbt_segwit_of_rule [some "segwit"] (by simp), hcb, hroot]
    simp only [List.append_assoc]
  · intro coinbase_sig coinbaseaux
    have hfin := gbt_coinbase_final_segwit H hex2bin fuel height cbvalue pk_script
      [tx1, tx2, tx3] _ coinbase_sig coinbaseaux hfuel5 (by simp; omega) hh0 hh1 hpk hl
    rw [hroot] at hfin
    rw [gbt_segwit_of_rule [some "segwit"] (by simp)]
    exact hfin

/-- Witness for the amended C7: the sample transactions under the stand-in
hash. -/
theorem gbt_segwit_three_tx_witness :
    ∃ push, bip34_push 5 700000 = some push ∧
      gbt_coinbase toy_hash toy_hex2bin 5 700000 5000000000 [0x51]
        (gbt_segwit (some [some "segwit"]))
        [{ data := some "00", txid := some "t", hash := some "a" },
         { data := some "00", txid := some "tt", hash := some "bb" },
         { data := some "00", txid := some "ttt", hash := some "ccc" }] =
        some (
        (le32enc 1 ++ [1] ++ List.replicate 32 0 ++ le32enc 0xffffffff ++
          [push.length % 256] ++ push ++ le32enc 0xffffffff) ++ [2] ++
        (le32enc ((5000000000 : Int) % 2 ^ 32).toNat ++
          le32enc (((5000000000 : Int) >>> 32) % 2 ^ 32).toNat ++
          [[0x51].length % 256] ++ [0x51]) ++
        (List.replicate 8 0 ++ [38] ++ ([0x6a, 0x24, 0xaa, 0x21, 0xa9, 0xed] ++
          toy_hash (toy_hash (toy_hash (List.replicate 32 0 ++ (List.replicate 32 1).reverse) ++
            toy_hash ((List.replicate 32 2).reverse ++ (List.replicate 32 3).reverse)) ++
            List.replicate 32 0))) ++
        le32enc 0) ∧
      ∀ (coinbase_sig : List Nat) (coinbaseaux : Option (List (Option String))),
        ∃ head, gbt_coinbase_final toy_hash toy_hex2bin 5 700000 5000000000 [0x51]
            (gbt_segwit (some [some "segwit"]))
            [{ data := some "00", txid := some "t", hash := some "a" },
             { data := some "00", txid := some "tt", hash := some "bb" },
             { data := some "00", txid := some "ttt", hash := some "ccc" }]
            coinbase_sig coinbaseaux =
            some (head ++
            (le32enc 0xffffffff ++ [2] ++
            (le32enc ((5000000000 : Int) % 2 ^ 32).toNat ++
              le32enc (((5000000000 : Int) >>> 32) % 2 ^ 32).toNat ++
              [[0x51].length % 256] ++ [0x51]) ++
            (List.replicate 8 0 ++ [38] ++ [0x6a, 0x24, 0xaa, 0x21, 0xa9, 0xed] ++
              toy_hash (toy_hash (toy_hash (List.replicate 32 0 ++
                (List.replicate 32 1).reverse) ++
                toy_hash ((List.replicate 32 2).reverse ++ (List.replicate 32 3).reverse)) ++
                List.replicate 32 0)) ++
            le32enc 0)) ∧
          head.take 41 = le32enc 1 ++ [1] ++ List.replicate 32 0 ++ le32enc 0xffffffff :=
  gbt_segwit_three_tx toy_hash toy_hex2bin 5 700000 5000000000 [0x51]
    { data := some "00", txid := some "t", hash := some "a" }
    { data := some "00", txid := some "tt", hash := some "bb" }
    { data := some "00", txid := some "ttt", hash := some "ccc" }
    "a" "bb" "ccc" (List.replicate 32 1) (List.replicate 32 2) (List.replicate 32 3)
    (by decide) (by decide) (by decide) (by decide) rfl (by decide) rfl (by decide)
    rfl (by decide)

/-! ## Theorems: stratum_gen_work -/

theorem stratum_fold_invariant (H : List Nat → List Nat) (hH : ∀ l, (H l).length = 32) :
    ∀ (merkle : List (List Nat)) (buf : List Nat), buf.length = 64 →
      (∀ b ∈ merkle, b.length = 32) →
      (merkle.foldl
        (fun buf b => buf_write (buf_write buf 32 (b.take 32)) 0
          (H ((buf_write buf 32 (b.take 32)).take 64))) buf).length = 64 ∧
      (merkle.foldl
        (fun buf b => buf_write (buf_write buf 32 (b.take 32)) 0
          (H ((buf_write buf 32 (b.take 32)).take 64))) buf).take 32 =
        merkle.foldl (fun r b => H (r ++ b)) (buf.take 32) := by
  intro merkle
  induction merkle with
  | nil => intro buf hlen _; exact ⟨hlen, rfl⟩
  | cons b rest ih =>
    intro buf hlen hb
    have hb32 : b.length = 32 := hb b (List.mem_cons_self _ _)
    have hrest : ∀ x ∈ rest, x.length = 32 := fun x hx => hb x (List.mem_cons_of_mem _ hx)
    have h1 : buf_write buf 32 (b.take 32) = buf.take 32 ++ b := by
      unfold buf_write
      rw [List.take_of_length_le (le_of_eq hb32), hb32,
        List.drop_of_length_le (by omega), List.append_nil]
    have h1len : (buf.take 32 ++ b).length = 64 := by
      rw [List.length_append, List.length_take, hb32]; omega
    have h2 : buf_write (buf.take 32 ++ b) 0 (H ((buf.take 32 ++ b).take 64)) =
        H (buf.take 32 ++ b) ++ b := by
      unfold buf_write
      rw [List.take_of_length_le (le_of_eq h1len), hH, List.take_zero, List.nil_append,
        Nat.zero_add]
      congr 1
      exact List.drop_left' (by rw [List.length_take]; omega)
    have h2len : (H (buf.take 32 ++ b) ++ b).length = 64 := by
      rw [List.length_append, hH, hb32]
    have h2take : (H (buf.take 32 ++ b) ++ b).take 32 = H (buf.take 32 ++ b) := by
      exact List.take_left' (hH _)
    simp only [List.foldl_cons, h1, h2]
    have := ih (H (buf.take 32 ++ b) ++ b) h2len hrest
    rw [h2take] at this
    exact this

theorem stratum_merkle_root_eq (H : List Nat → List Nat) (hH : ∀ l, (H l).length = 32)
    (coinbase : List Nat) (merkle : List (List Nat)) (hb : ∀ b ∈ merkle, b.length = 32) :
    (stratum_merkle_root H coinbase merkle).length = 64 ∧
    (stratum_merkle_root H coinbase merkle).take 32 =
      merkle.foldl (fun r b => H (r ++ b)) (H coinbase) := by
  have h0 : buf_write (List.replicate 64 0) 0 (H coinbase) =
      H coinbase ++ List.replicate 32 0 := by
    unfold buf_write
    rw [hH, List.take_zero, List.nil_append]
    simp
  have h0len : (H coinbase ++ List.replicate 32 0).length = 64 := by
    rw [List.length_append, hH]; simp
  have h0take : (H coinbase ++ List.replicate 32 0).take 32 = H coinbase := by
    exact List.take_left' (hH _)
  have := stratum_fold_invariant H hH merkle _ h0len hb
  rw [h0take] at this
  unfold stratum_merkle_root
  rw [h0]
  exact this

theorem merkle_words_take (buf : List Nat) :
    merkle_words (buf.take 32) = merkle_words buf := by
  simp [merkle_words, be32dec, List.range, List.range.loop,
    List.getD_eq_getElem?_getD, List.getElem?_drop, List.getElem?_take]

/-- C8: when the hash returns 32 bytes and every branch element has 32
bytes, the first 32 bytes of the buffer `merkle_root` after the loop of
`stratum_gen_work` are the left fold `root_0 = sha256d(cb)`,
`root_i = sha256d(root_(i-1) || b_i)` over the branch (no duplication),
words 9 to 16 of the produced work are the eight big-endian words of that
root, and for a branch `[b1, b2]` the root is
`sha256d(sha256d(sha256d(cb) || b1) || b2)`. -/
theorem stratum_merkle_fold (H : List Nat → List Nat) (diff_to_target : Rat → List Nat)
    (scrypt : Bool) (job : StratumJob) (work : Work)
    (hH : ∀ l, (H l).length = 32) (hb : ∀ b ∈ job.merkle, b.length = 32) :
    (stratum_merkle_root H job.coinbase job.merkle).take 32 =
      job.merkle.foldl (fun r b => H (r ++ b)) (H job.coinbase) ∧
    ((stratum_gen_work H diff_to_target scrypt job work).2.data.drop 9).take 8 =
      merkle_words (job.merkle.foldl (fun r b => H (r ++ b)) (H job.coinbase)) ∧
    (∀ b1 b2, job.merkle = [b1, b2] →
      (stratum_merkle_root H job.coinbase job.merkle).take 32 =
        H (H (H job.coinbase ++ b1) ++ b2)) := by
  obtain ⟨-, hroot⟩ := stratum_merkle_root_eq H hH job.coinbase job.merkle hb
  refine ⟨hroot, ?_, ?_⟩
  · rw [← hroot, merkle_words_take]
    simp [stratum_gen_work, merkle_words]
  · intro b1 b2 hm
    rw [hroot, hm]
    rfl

/-- Witness for C8: the sample job under the stand-in hash. -/
theorem stratum_merkle_fold_witness :
    (stratum_merkle_root toy_hash sample_job.coinbase sample_job.merkle).take 32 =
      sample_job.merkle.foldl (fun r b => toy_hash (r ++ b)) (toy_hash sample_job.coinbase) ∧
    ((stratum_gen_work toy_hash (fun _ => []) false sample_job zero_work).2.data.drop 9).take 8 =
      merkle_words (sample_job.merkle.foldl (fun r b => toy_hash (r ++ b))
        (toy_hash sample_job.coinbase)) ∧
    (∀ b1 b2, sample_job.merkle = [b1, b2] →
      (stratum_merkle_root toy_hash sample_job.coinbase sample_job.merkle).take 32 =
        toy_hash (toy_hash (toy_hash sample_job.coinbase ++ b1) ++ b2)) :=
  stratum_merkle_fold toy_hash (fun _ => []) false sample_job zero_work
    (fun l => by simp [toy_hash]) (by decide)

theorem le_val_lt (xs : List Nat) (hb : ∀ b ∈ xs, b < 256) : le_val xs < 256 ^ xs.length := by
  induction xs with
  | nil => simp [le_val]
  | cons b rest ih =>
    have h1 := hb b (List.mem_cons_self _ _)
    have h2 := ih (fun x hx => hb x (List.mem_cons_of_mem _ hx))
    simp only [le_val, List.length_cons, pow_succ]
    omega

theorem xnonce2_increment_spec (xs : List Nat) (hb : ∀ b ∈ xs, b < 256) :
    le_val (xnonce2_increment xs) = (le_val xs + 1) % 256 ^ xs.length ∧
    (xnonce2_increment xs).length = xs.length ∧
    (∀ b ∈ xnonce2_increment xs, b < 256) := by
  induction xs with
  | nil => simp [xnonce2_increment, le_val]
  | cons b rest ih =>
    have h1 := hb b (List.mem_cons_self _ _)
    have hrest : ∀ x ∈ rest, x < 256 := fun x hx => hb x (List.mem_cons_of_mem _ hx)
    obtain ⟨iv, il, ib⟩ := ih hrest
    have hlt := le_val_lt rest hrest
    rw [xnonce2_increment]
    by_cases hc : (b + 1) % 256 = 0
    · rw [if_pos hc]
      have hb255 : b = 255 := by omega
      refine ⟨?_, by simp [il], ?_⟩
      · simp only [le_val, iv, List.length_cons, pow_succ]
        have : b + 256 * le_val rest + 1 = (le_val rest + 1) * 256 := by omega
        rw [this, Nat.mul_mod_mul_right]
        omega
      · intro x hx
        simp at hx
        rcases hx with rfl | hx
        · decide
        · exact ib x hx
    · rw [if_neg hc]
      have hb255 : b < 255 := by omega
      refine ⟨?_, by simp, ?_⟩
      · simp only [le_val, List.length_cons, pow_succ]
        rw [Nat.mod_eq_of_lt (by omega), Nat.mod_eq_of_lt (by omega)]
        omega
      · intro x hx
        simp at hx
        rcases hx with rfl | hx
        · exact Nat.mod_lt _ (by decide)
        · exact hrest x hx

theorem xnonce2_increment_wrap (n : Nat) :
    xnonce2_increment (List.replicate n 255) = List.replicate n 0 := by
  induction n with
  | zero => rfl
  | succ n ih => simp [List.replicate_succ, xnonce2_increment, ih]

/-- C9: for every counter of bytes below 256, of any width s, one call of
`stratum_gen_work` leaves a job whose `xnonce2`, read little-endian, is
`(v + 1) mod 2^(8 s)` where v is the value before the call; the width and the
byte range are kept, the all-`0xff` counter wraps to all zeros, and the work
produced carries the bytes from before the increment. -/
theorem stratum_xnonce2_counter (H : List Nat → List Nat) (diff_to_target : Rat → List Nat)
    (scrypt : Bool) (job : StratumJob) (work : Work)
    (hb : ∀ b ∈ job.xnonce2, b < 256) :
    le_val (stratum_gen_work H diff_to_target scrypt job work).1.xnonce2 =
      (le_val job.xnonce2 + 1) % 2 ^ (8 * job.xnonce2.length) ∧
    (stratum_gen_work H diff_to_target scrypt job work).1.xnonce2.length =
      job.xnonce2.length ∧
    (∀ b ∈ (stratum_gen_work H diff_to_target scrypt job work).1.xnonce2, b < 256) ∧
    (job.xnonce2 = List.replicate job.xnonce2.length 255 →
      (stratum_gen_work H diff_to_target scrypt job work).1.xnonce2 =
        List.replicate job.xnonce2.length 0) ∧
    (stratum_gen_work H diff_to_target scrypt job work).2.xnonce2 = job.xnonce2 := by
  obtain ⟨hv, hl, hbb⟩ := xnonce2_increment_spec job.xnonce2 hb
  have hpow : (2 : Nat) ^ (8 * job.xnonce2.length) = 256 ^ job.xnonce2.length := by
    rw [pow_mul]; norm_num
  refine ⟨?_, hl, hbb, ?_, rfl⟩
  · rw [hpow]; exact hv
  · intro h
    show xnonce2_increment job.xnonce2 = _
    rw [h, xnonce2_increment_wrap]
    simp

/-- Witness for C9: the sample job, whose counter `ff 00` becomes `00 01`. -/
theorem stratum_xnonce2_counter_witness :
    le_val (stratum_gen_work toy_hash (fun _ => []) false sample_job zero_work).1.xnonce2 =
      (le_val sample_job.xnonce2 + 1) % 2 ^ (8 * sample_job.xnonce2.length) ∧
    (stratum_gen_work toy_hash (fun _ => []) false sample_job zero_work).1.xnonce2.length =
      sample_job.xnonce2.length ∧
    (∀ b ∈ (stratum_gen_work toy_hash (fun _ => []) false sample_job zero_work).1.xnonce2,
      b < 256) ∧
    (sample_job.xnonce2 = List.replicate sample_job.xnonce2.length 255 →
      (stratum_gen_work toy_hash (fun _ => []) false sample_job zero_work).1.xnonce2 =
        List.replicate sample_job.xnonce2.length 0) ∧
    (stratum_gen_work toy_hash (fun _ => []) false sample_job zero_work).2.xnonce2 =
      sample_job.xnonce2 :=
  stratum_xnonce2_counter toy_hash (fun _ => []) false sample_job zero_work (by decide)


/-! ## Theorems: submit_upstream_work -/

/-- C10: for every solution and every slot, when `submit_old` is false and
words 1 to 8 of the solution differ from words 1 to 8 of `g_work`,
`submit_upstream_work` hands no request to any transport, returns true and
leaves the work as it was; when `submit_old` is true it hands exactly one
request to the transport of the active mode (the Stratum line, else
`submitblock` when the work carries `txs`, else `getwork`), carrying the
solution's own fields, and returns whether the transport succeeded. -/
theorem stale_share_gate (env : SubmitEnv) (transport_ok : Bool) (work : Work) :
    (env.submit_old = false →
      (work.data.drop 1).take 8 ≠ (env.g_work.data.drop 1).take 8 →
      submit_upstream_work env transport_ok work =
        { rc := true, sent := [], work := work }) ∧
    (env.submit_old = true →
      (submit_upstream_work env transport_ok work).rc = transport_ok ∧
      (env.have_stratum = true →
        (submit_upstream_work env transport_ok work).sent =
          [WireRequest.stratum_submit env.rpc_user work.job_id work.xnonce2
            (le32enc (work.data.getD 17 0)) (le32enc (work.data.getD 19 0))]) ∧
      (env.have_stratum = false → ∀ txs, work.txs = some txs →
        (submit_upstream_work env transport_ok work).sent =
          [WireRequest.submitblock ((work.data.take 20).flatMap be32enc) txs work.workid]) ∧
      (env.have_stratum = false → work.txs = none →
        (submit_upstream_work env transport_ok work).sent =
          [WireRequest.getwork_submit (work.data.flatMap le32enc)])) := by
  constructor
  · intro hold hdiff
    unfold submit_upstream_work
    rw [if_pos (by
      rw [hold]
      simp only [Bool.not_false, Bool.true_and, bne_iff_ne]
      exact hdiff)]
  · intro hold
    have hgate : ¬ ((!env.submit_old && (work.data.drop 1).take 8 !=
        (env.g_work.data.drop 1).take 8) = true) := by
      simp [hold]
    refine ⟨?_, ?_, ?_, ?_⟩
    · unfold submit_upstream_work
      rw [if_neg hgate]
      split
      · rfl
      · split <;> rfl
    · intro hs
      unfold submit_upstream_work
      rw [if_neg hgate, if_pos hs]
    · intro hs txs htxs
      unfold submit_upstream_work
      rw [if_neg hgate, if_neg (by simp [hs]), htxs]
    · intro hs htxs
      unfold submit_upstream_work
      rw [if_neg hgate, if_neg (by simp [hs]), htxs]

/-- Witness for C10: a solution for `other_work` while the slot holds
`benchmark_work`, in GBT mode, with `submit_old` false and then true. -/
theorem stale_share_gate_witness :
    submit_upstream_work
        { submit_old := false, have_stratum := false, rpc_user := "u",
          g_work := benchmark_work, host_le := true } true other_work =
      { rc := true, sent := [], work := other_work } ∧
    (submit_upstream_work
        { submit_old := true, have_stratum := false, rpc_user := "u",
          g_work := benchmark_work, host_le := true } true other_work).sent =
      [WireRequest.submitblock ((other_work.data.take 20).flatMap be32enc) "01"
        other_work.workid] :=
  ⟨(stale_share_gate
      { submit_old := false, have_stratum := false, rpc_user := "u",
        g_work := benchmark_work, host_le := true } true other_work).1 rfl (by decide),
   ((stale_share_gate
      { submit_old := true, have_stratum := false, rpc_user := "u",
        g_work := benchmark_work, host_le := true } true other_work).2 rfl).2.2.1 rfl
      "01" rfl⟩

/-! ## Theorems: the coinbase signature append -/

theorem gbt_append_insert_eq (cbtx xsig : List Nat) (hx : xsig ≠ []) :
    gbt_append_insert cbtx xsig =
      (cbtx.take (42 + cbtx.getD 41 0)).set 41
        ((cbtx.getD 41 0 + (xsig.length + gbt_push_len (cbtx.getD 41 0) xsig.length)) % 256) ++
      (gbt_push_bytes (cbtx.getD 41 0) xsig.length ++ xsig) ++
      cbtx.drop (42 + cbtx.getD 41 0) := by
  have hx0 : ¬ xsig.length = 0 := fun h => hx (List.length_eq_zero.1 h)
  unfold gbt_append_insert gbt_push_bytes gbt_push_len
  rw [if_neg hx0]
  simp only [List.append_assoc]

theorem gbt_push_len_le (L x : Nat) : gbt_push_len L x ≤ 2 := by
  unfold gbt_push_len
  split
  · omega
  · split <;> omega

theorem gbt_push_bytes_length (L x : Nat) :
    (gbt_push_bytes L x).length = gbt_push_len L x := by
  unfold gbt_push_bytes gbt_push_len
  by_cases h1 : L + x < 76
  · simp [h1]
  · by_cases h2 : L + 2 + x > 100
    · simp [h1, h2]
    · simp [h1, h2]

/-- C15 (as stated) fails: the coinbase built for height 700000 has script
length 4 and is well-formed; a `coinbase_sig` of 95 bytes is accepted under
the 100-byte limit (4 + 95 = 99, which is at least 76), and the append step
inserts the 95 bytes with no `OP_PUSHDATA1` and no length byte before
them. -/
theorem append_pushdata_counterexample :
    gbt_coinbase toy_hash toy_hex2bin 5 700000 5000000000 [0x51, 0x52] false [] =
      some sample_cbtx ∧
    sample_cbtx.getD 41 0 = 4 ∧ 42 + sample_cbtx.getD 41 0 ≤ sample_cbtx.length ∧
    gbt_xsig toy_hex2bin (sample_cbtx.getD 41 0) (List.replicate 95 0x41) none =
      List.replicate 95 0x41 ∧
    gbt_coinbase_append sample_cbtx (List.replicate 95 0x41) =
      some ((sample_cbtx.take 46).set 41 99 ++ List.replicate 95 0x41 ++
        sample_cbtx.drop 46) ∧
    gbt_coinbase_append sample_cbtx (List.replicate 95 0x41) ≠
      some ((sample_cbtx.take 46).set 41 101 ++ [0x4c, 95] ++ List.replicate 95 0x41 ++
        sample_cbtx.drop 46) := by
  refine ⟨?_, ?_, ?_, ?_, ?_, ?_⟩ <;> decide

theorem gbt_append_insert_cases (cbtx xsig : List Nat) (hx : xsig ≠ [])
    (hfit : cbtx.getD 41 0 + xsig.length ≤ 100) :
    (cbtx.getD 41 0 + xsig.length < 76 →
      gbt_append_insert cbtx xsig =
        (cbtx.take (42 + cbtx.getD 41 0)).set 41 (cbtx.getD 41 0 + xsig.length + 1) ++
        [xsig.length] ++ xsig ++ cbtx.drop (42 + cbtx.getD 41 0)) ∧
    (76 ≤ cbtx.getD 41 0 + xsig.length → cbtx.getD 41 0 + xsig.length ≤ 98 →
      gbt_append_insert cbtx xsig =
        (cbtx.take (42 + cbtx.getD 41 0)).set 41 (cbtx.getD 41 0 + xsig.length + 2) ++
        [0x4c, xsig.length] ++ xsig ++ cbtx.drop (42 + cbtx.getD 41 0)) ∧
    (99 ≤ cbtx.getD 41 0 + xsig.length →
      gbt_append_insert cbtx xsig =
        (cbtx.take (42 + cbtx.getD 41 0)).set 41 (cbtx.getD 41 0 + xsig.length) ++
        xsig ++ cbtx.drop (42 + cbtx.getD 41 0)) := by
  have hxm : xsig.length % 256 = xsig.length := Nat.mod_eq_of_lt (by omega)
  refine ⟨?_, ?_, ?_⟩
  · intro h
    rw [gbt_append_insert_eq cbtx xsig hx]
    unfold gbt_push_bytes gbt_push_len
    rw [if_pos h, hxm, Nat.mod_eq_of_lt (by omega)]
    simp [List.append_assoc, Nat.add_assoc]
  · intro h1 h2
    rw [gbt_append_insert_eq cbtx xsig hx]
    unfold gbt_push_bytes gbt_push_len
    rw [if_neg (by omega), if_neg (by omega), hxm, Nat.mod_eq_of_lt (by omega)]
    simp [List.append_assoc, Nat.add_assoc]
  · intro h
    rw [gbt_append_insert_eq cbtx xsig hx]
    unfold gbt_push_bytes gbt_push_len
    rw [if_neg (by omega), if_pos (by omega), Nat.mod_eq_of_lt (by omega)]
    simp [List.append_assoc]

/-- C15 (amended): for a well-formed coinbase (`42 + cbtx[41] ≤ cbtx_size`)
with script length L = `cbtx[41]` and a non-empty signature of x bytes with
L + x ≤ 100, the append step ends and inserts the x bytes at the end of the
scriptSig preceded by the single length byte x when L + x < 76, by
`OP_PUSHDATA1` and the length byte x when 76 ≤ L + x ≤ 98, and by nothing
when L + x is 99 or 100; `cbtx[41]` becomes L plus the number of inserted
bytes. -/
theorem gbt_append_push_cases (cbtx xsig : List Nat) (hx : xsig ≠ [])
    (hwf : 42 + cbtx.getD 41 0 ≤ cbtx.length)
    (hfit : cbtx.getD 41 0 + xsig.length ≤ 100) :
    (cbtx.getD 41 0 + xsig.length < 76 →
      gbt_coinbase_append cbtx xsig = some
        ((cbtx.take (42 + cbtx.getD 41 0)).set 41 (cbtx.getD 41 0 + xsig.length + 1) ++
        [xsig.length] ++ xsig ++ cbtx.drop (42 + cbtx.getD 41 0))) ∧
    (76 ≤ cbtx.getD 41 0 + xsig.length → cbtx.getD 41 0 + xsig.length ≤ 98 →
      gbt_coinbase_append cbtx xsig = some
        ((cbtx.take (42 + cbtx.getD 41 0)).set 41 (cbtx.getD 41 0 + xsig.length + 2) ++
        [0x4c, xsig.length] ++ xsig ++ cbtx.drop (42 + cbtx.getD 41 0))) ∧
    (99 ≤ cbtx.getD 41 0 + xsig.length →
      gbt_coinbase_append cbtx xsig = some
        ((cbtx.take (42 + cbtx.getD 41 0)).set 41 (cbtx.getD 41 0 + xsig.length) ++
        xsig ++ cbtx.drop (42 + cbtx.getD 41 0))) := by
  obtain ⟨h1, h2, h3⟩ := gbt_append_insert_cases cbtx xsig hx hfit
  rw [gbt_coinbase_append_wf cbtx xsig hwf]
  exact ⟨fun h => congrArg some (h1 h), fun ha hb => congrArg some (h2 ha hb),
    fun h => congrArg some (h3 h)⟩

/-- Witness for the amended C15: the sample coinbase with signatures of 3, 80
and 95 bytes, one for each of the three cases. -/
theorem gbt_append_push_cases_witness :
    gbt_coinbase_append sample_cbtx [0x41, 0x42, 0x43] = some
      ((sample_cbtx.take 46).set 41 8 ++ [3] ++ [0x41, 0x42, 0x43] ++ sample_cbtx.drop 46) ∧
    gbt_coinbase_append sample_cbtx (List.replicate 80 0x41) = some
      ((sample_cbtx.take 46).set 41 86 ++ [0x4c, 80] ++ List.replicate 80 0x41 ++
        sample_cbtx.drop 46) ∧
    gbt_coinbase_append sample_cbtx (List.replicate 95 0x41) = some
      ((sample_cbtx.take 46).set 41 99 ++ List.replicate 95 0x41 ++ sample_cbtx.drop 46) :=
  ⟨(gbt_append_push_cases sample_cbtx [0x41, 0x42, 0x43] (by decide) (by decide)
      (by decide)).1 (by decide),
    (gbt_append_push_cases sample_cbtx (List.replicate 80 0x41) (by decide) (by decide)
      (by decide)).2.1 (by decide) (by decide),
    (gbt_append_push_cases sample_cbtx (List.replicate 95 0x41) (by decide) (by decide)
      (by decide)).2.2 (by decide)⟩

theorem gbt_xsig_sig_bound (L : Nat) (coinbase_sig : List Nat) :
    gbt_xsig_sig L coinbase_sig = [] ∨ L + (gbt_xsig_sig L coinbase_sig).length ≤ 100 := by
  unfold gbt_xsig_sig
  split
  · rename_i h; right; omega
  · left; rfl

theorem aux_copy_length (bytes : List Nat) (n : Nat) (hn : n ≤ 100) :
    (((bytes ++ List.replicate 100 0).take 100).take n).length = n := by
  simp only [List.length_take, List.length_append, List.length_replicate]
  omega

theorem aux_copy_eq (bytes : List Nat) (n : Nat) (hn : n ≤ 100) (hb : bytes.length = n) :
    ((bytes ++ List.replicate 100 0).take 100).take n = bytes := by
  rw [List.take_take, Nat.min_eq_left hn]
  exact List.take_left' hb

theorem gbt_xsig_aux_bound (hex2bin : String → Nat → Option (List Nat)) (L : Nat) :
    ∀ (vals : List (Option String)) (xsig : List Nat),
      (xsig = [] ∨ L + xsig.length ≤ 100) →
      (gbt_xsig_aux hex2bin L vals xsig = [] ∨
        L + (gbt_xsig_aux hex2bin L vals xsig).length ≤ 100) := by
  intro vals
  induction vals with
  | nil => intro xsig h; exact h
  | cons v rest ih =>
    intro xsig h
    cases v with
    | none => exact h
    | some s =>
      rw [gbt_xsig_aux]
      split
      · exact h
      · rename_i hn
        cases hb : hex2bin s (s.utf8ByteSize / 2) with
        | none => exact h
        | some bytes =>
          simp only []
          apply ih
          split
          · rename_i hfit
            right
            rw [List.length_append, aux_copy_length _ _ (by omega)]
            omega
          · exact h

theorem gbt_xsig_bound (hex2bin : String → Nat → Option (List Nat)) (L : Nat)
    (coinbase_sig : List Nat) (coinbaseaux : Option (List (Option String))) :
    gbt_xsig hex2bin L coinbase_sig coinbaseaux = [] ∨
      L + (gbt_xsig hex2bin L coinbase_sig coinbaseaux).length ≤ 100 := by
  unfold gbt_xsig
  cases coinbaseaux with
  | none => exact gbt_xsig_sig_bound L coinbase_sig
  | some vals => exact gbt_xsig_aux_bound hex2bin L vals _ (gbt_xsig_sig_bound L coinbase_sig)

theorem gbt_xsig_aux_whole (hex2bin : String → Nat → Option (List Nat)) (L : Nat)
    (hhex : ∀ s n bs, hex2bin s n = some bs → bs.length = n) :
    ∀ (vals : List (Option String)) (xsig : List Nat),
      ∃ chosen : List (List Nat), chosen.Sublist (gbt_aux_values hex2bin vals) ∧
        gbt_xsig_aux hex2bin L vals xsig = xsig ++ chosen.flatten := by
  intro vals
  induction vals with
  | nil => intro xsig; exact ⟨[], List.nil_sublist _, by simp [gbt_xsig_aux]⟩
  | cons v rest ih =>
    intro xsig
    cases v with
    | none => exact ⟨[], List.nil_sublist _, by simp [gbt_xsig_aux]⟩
    | some s =>
      rw [gbt_xsig_aux]
      split
      · exact ⟨[], List.nil_sublist _, by simp⟩
      · rename_i hn
        cases hb : hex2bin s (s.utf8ByteSize / 2) with
        | none => exact ⟨[], List.nil_sublist _, by simp⟩
        | some bytes =>
          have hv : gbt_aux_values hex2bin (some s :: rest) =
              bytes :: gbt_aux_values hex2bin rest := by
            simp [gbt_aux_values, hb]
          simp only []
          rw [hv]
          split
          · rw [aux_copy_eq bytes _ (by omega) (hhex _ _ _ hb)]
            obtain ⟨chosen, hsub, heq⟩ := ih (xsig ++ bytes)
            exact ⟨bytes :: chosen, hsub.cons₂ _, by rw [heq]; simp⟩
          · obtain ⟨chosen, hsub, heq⟩ := ih xsig
            exact ⟨chosen, hsub.cons _, heq⟩

theorem gbt_xsig_whole (hex2bin : String → Nat → Option (List Nat)) (L : Nat)
    (coinbase_sig : List Nat) (coinbaseaux : Option (List (Option String)))
    (hhex : ∀ s n bs, hex2bin s n = some bs → bs.length = n) :
    ∃ chosen : List (List Nat),
      chosen.Sublist (coinbase_sig :: gbt_aux_values hex2bin (coinbaseaux.getD [])) ∧
      gbt_xsig hex2bin L coinbase_sig coinbaseaux = chosen.flatten := by
  have hsig : ∃ c0 : List (List Nat), c0.Sublist [coinbase_sig] ∧
      gbt_xsig_sig L coinbase_sig = c0.flatten := by
    unfold gbt_xsig_sig
    split
    · exact ⟨[coinbase_sig], List.Sublist.refl _, by simp⟩
    · exact ⟨[], List.nil_sublist _, by simp⟩
  obtain ⟨c0, hc0, he0⟩ := hsig
  unfold gbt_xsig
  cases coinbaseaux with
  | none =>
    refine ⟨c0, ?_, he0⟩
    have hnil : gbt_aux_values hex2bin ((none : Option (List (Option String))).getD []) = [] := rfl
    rw [hnil]
    exact hc0
  | some vals =>
    obtain ⟨chosen, hsub, heq⟩ := gbt_xsig_aux_whole hex2bin L hhex vals
      (gbt_xsig_sig L coinbase_sig)
    refine ⟨c0 ++ chosen, ?_, ?_⟩
    · have := List.Sublist.append hc0 hsub
      simpa using this
    · simp only []
      rw [heq, he0]
      simp

theorem gbt_append_insert_length (cbtx xsig : List Nat) (hx : xsig ≠ []) :
    (gbt_append_insert cbtx xsig).length =
      cbtx.length + (xsig.length + gbt_push_len (cbtx.getD 41 0) xsig.length) := by
  rw [gbt_append_insert_eq cbtx xsig hx]
  simp only [List.length_append, List.length_set, List.length_take, List.length_drop,
    gbt_push_bytes_length]
  omega

theorem getD_41_set (A rest : List Nat) (v : Nat) (h : 41 < A.length) :
    (A.set 41 v ++ rest).getD 41 0 = v := by
  simp only [List.getD_eq_getElem?_getD]
  rw [List.getElem?_append_left (by rw [List.length_set]; exact h), List.getElem?_set]
  simp [h]

theorem gbt_append_insert_nil (cbtx : List Nat) : gbt_append_insert cbtx [] = cbtx := by
  simp [gbt_append_insert]

theorem gbt_append_insert_getD41 (cbtx xsig : List Nat) (hx : xsig ≠ [])
    (hlen : 42 ≤ cbtx.length) :
    (gbt_append_insert cbtx xsig).getD 41 0 =
      (cbtx.getD 41 0 + (xsig.length + gbt_push_len (cbtx.getD 41 0) xsig.length)) % 256 := by
  rw [gbt_append_insert_eq cbtx xsig hx, List.append_assoc]
  exact getD_41_set _ _ _ (by rw [List.length_take]; omega)

theorem gbt_append_insert_bound (hex2bin : String → Nat → Option (List Nat))
    (cbtx coinbase_sig : List Nat) (coinbaseaux : Option (List (Option String)))
    (hL : cbtx.getD 41 0 ≤ 100) (hlen : 42 ≤ cbtx.length)
    (hhex : ∀ s n bs, hex2bin s n = some bs → bs.length = n) :
    (gbt_append_insert cbtx
      (gbt_xsig hex2bin (cbtx.getD 41 0) coinbase_sig coinbaseaux)).getD 41 0 ≤ 100 ∧
    (gbt_append_insert cbtx
      (gbt_xsig hex2bin (cbtx.getD 41 0) coinbase_sig coinbaseaux)).getD 41 0 =
      cbtx.getD 41 0 + ((gbt_append_insert cbtx
        (gbt_xsig hex2bin (cbtx.getD 41 0) coinbase_sig coinbaseaux)).length - cbtx.length) ∧
    (∃ chosen : List (List Nat),
      chosen.Sublist (coinbase_sig :: gbt_aux_values hex2bin (coinbaseaux.getD [])) ∧
      gbt_xsig hex2bin (cbtx.getD 41 0) coinbase_sig coinbaseaux = chosen.flatten) := by
  have hwhole := gbt_xsig_whole hex2bin (cbtx.getD 41 0) coinbase_sig coinbaseaux hhex
  have hbound := gbt_xsig_bound hex2bin (cbtx.getD 41 0) coinbase_sig coinbaseaux
  generalize gbt_xsig hex2bin (cbtx.getD 41 0) coinbase_sig coinbaseaux = xsig at *
  refine ⟨?_, ?_, hwhole⟩
  · by_cases hx : xsig = []
    · subst hx
      rw [gbt_append_insert_nil]
      exact hL
    · rcases hbound with h | h
      · exact absurd h hx
      · rw [gbt_append_insert_getD41 cbtx xsig hx hlen]
        have : cbtx.getD 41 0 + (xsig.length + gbt_push_len (cbtx.getD 41 0) xsig.length) ≤
            100 := by
          unfold gbt_push_len
          split
          · omega
          · split <;> omega
        rw [Nat.mod_eq_of_lt (by omega)]
        exact this
  · by_cases hx : xsig = []
    · subst hx
      rw [gbt_append_insert_nil]
      omega
    · rcases hbound with h | h
      · exact absurd h hx
      · rw [gbt_append_insert_getD41 cbtx xsig hx hlen,
          gbt_append_insert_length cbtx xsig hx]
        have : cbtx.getD 41 0 + (xsig.length + gbt_push_len (cbtx.getD 41 0) xsig.length) ≤
            100 := by
          unfold gbt_push_len
          split
          · omega
          · split <;> omega
        rw [Nat.mod_eq_of_lt (by omega)]
        omega

theorem toy_hex2bin_length (s : String) (n : Nat) (bs : List Nat)
    (h : toy_hex2bin s n = some bs) : bs.length = n := by
  unfold toy_hex2bin at h
  injection h with h
  rw [← h, List.length_replicate]

/-- C18: for a coinbase whose script length byte `cbtx[41]` is at most 100,
and for every `coinbase_sig` and `coinbaseaux`: the append step has no result
exactly when the collected signature is not empty and `42 + cbtx[41]` exceeds
`cbtx_size` (the `memmove` of line 467 then gets a negative count); whenever
it has a result, the byte `cbtx[41]` of the result is at most 100 and equals
the old value plus the number of bytes by which the coinbase grew (no 8-bit
wrap-around); and the collected signature is the concatenation of whole
values among `coinbase_sig` and the decoded `coinbaseaux` values, in order:
a value is copied entirely or not at all. -/
theorem gbt_append_script_length_bound (hex2bin : String → Nat → Option (List Nat))
    (cbtx coinbase_sig : List Nat) (coinbaseaux : Option (List (Option String)))
    (hL : cbtx.getD 41 0 ≤ 100)
    (hhex : ∀ s n bs, hex2bin s n = some bs → bs.length = n) :
    (gbt_coinbase_append cbtx
        (gbt_xsig hex2bin (cbtx.getD 41 0) coinbase_sig coinbaseaux) = none ↔
      gbt_xsig hex2bin (cbtx.getD 41 0) coinbase_sig coinbaseaux ≠ [] ∧
        cbtx.length < 42 + cbtx.getD 41 0) ∧
    (∀ r, gbt_coinbase_append cbtx
        (gbt_xsig hex2bin (cbtx.getD 41 0) coinbase_sig coinbaseaux) = some r →
      r.getD 41 0 ≤ 100 ∧ r.getD 41 0 = cbtx.getD 41 0 + (r.length - cbtx.length)) ∧
    (∃ chosen : List (List Nat),
      chosen.Sublist (coinbase_sig :: gbt_aux_values hex2bin (coinbaseaux.getD [])) ∧
      gbt_xsig hex2bin (cbtx.getD 41 0) coinbase_sig coinbaseaux = chosen.flatten) := by
  refine ⟨gbt_coinbase_append_none cbtx _, ?_,
    gbt_xsig_whole hex2bin (cbtx.getD 41 0) coinbase_sig coinbaseaux hhex⟩
  intro r hr
  by_cases hx : gbt_xsig hex2bin (cbtx.getD 41 0) coinbase_sig coinbaseaux = []
  · rw [hx] at hr
    have hrc : r = cbtx := by
      rw [gbt_coinbase_append_empty cbtx [] rfl] at hr
      exact (Option.some.inj hr).symm
    subst hrc
    exact ⟨hL, by omega⟩
  · have hlen : 42 ≤ cbtx.length := by
      by_contra hlt
      have hn := (gbt_coinbase_append_none cbtx
        (gbt_xsig hex2bin (cbtx.getD 41 0) coinbase_sig coinbaseaux)).2 ⟨hx, by omega⟩
      rw [hn] at hr
      exact absurd hr (by simp)
    have hb := gbt_append_insert_bound hex2bin cbtx coinbase_sig coinbaseaux hL hlen hhex
    rw [gbt_coinbase_append_some cbtx _ r hr]
    exact ⟨hb.1, hb.2.1⟩

/-- Witness for C18: a `coinbasetxn` of 60 bytes whose byte 41 is 90, with the
signature `41 42`.  The signature is collected (90 + 2 is within the limit),
and the append step has no result: the count of the `memmove` is
60 - 42 - 90. -/
theorem gbt_append_script_length_bound_witness :
    sample_short_cbtx.length = 60 ∧ sample_short_cbtx.getD 41 0 = 90 ∧
    gbt_xsig toy_hex2bin (sample_short_cbtx.getD 41 0) [0x41, 0x42] none = [0x41, 0x42] ∧
    gbt_coinbase_append sample_short_cbtx [0x41, 0x42] = none ∧
    ((gbt_coinbase_append sample_short_cbtx
        (gbt_xsig toy_hex2bin (sample_short_cbtx.getD 41 0) [0x41, 0x42] none) = none ↔
      gbt_xsig toy_hex2bin (sample_short_cbtx.getD 41 0) [0x41, 0x42] none ≠ [] ∧
        sample_short_cbtx.length < 42 + sample_short_cbtx.getD 41 0) ∧
    (∀ r, gbt_coinbase_append sample_short_cbtx
        (gbt_xsig toy_hex2bin (sample_short_cbtx.getD 41 0) [0x41, 0x42] none) = some r →
      r.getD 41 0 ≤ 100 ∧
        r.getD 41 0 = sample_short_cbtx.getD 41 0 + (r.length - sample_short_cbtx.length)) ∧
    (∃ chosen : List (List Nat),
      chosen.Sublist ([0x41, 0x42] ::
        gbt_aux_values toy_hex2bin ((none : Option (List (Option String))).getD [])) ∧
      gbt_xsig toy_hex2bin (sample_short_cbtx.getD 41 0) [0x41, 0x42] none =
        chosen.flatten)) :=
  ⟨by decide, by decide, by decide, by decide,
    gbt_append_script_length_bound toy_hex2bin sample_short_cbtx [0x41, 0x42] none
      (by decide) toy_hex2bin_length⟩

theorem gbt_append_insert_frame (cbtx xsig : List Nat) (hx : xsig ≠ [])
    (hwf : 42 + cbtx.getD 41 0 ≤ cbtx.length) :
    (gbt_append_insert cbtx xsig).take 41 = cbtx.take 41 ∧
    ((gbt_append_insert cbtx xsig).drop 42).take (cbtx.getD 41 0) =
      (cbtx.drop 42).take (cbtx.getD 41 0) ∧
    ((gbt_append_insert cbtx xsig).drop (42 + cbtx.getD 41 0)).take
        (xsig.length + gbt_push_len (cbtx.getD 41 0) xsig.length) =
      gbt_push_bytes (cbtx.getD 41 0) xsig.length ++ xsig ∧
    (gbt_append_insert cbtx xsig).drop
        (42 + cbtx.getD 41 0 + (xsig.length + gbt_push_len (cbtx.getD 41 0) xsig.length)) =
      cbtx.drop (42 + cbtx.getD 41 0) ∧
    (gbt_append_insert cbtx xsig).length =
      cbtx.length + (xsig.length + gbt_push_len (cbtx.getD 41 0) xsig.length) ∧
    (gbt_append_insert cbtx xsig).getD 41 0 =
      (cbtx.getD 41 0 + (xsig.length + gbt_push_len (cbtx.getD 41 0) xsig.length)) % 256 ∧
    (cbtx.getD 41 0 + xsig.length ≤ 100 →
      (gbt_append_insert cbtx xsig).getD 41 0 =
        cbtx.getD 41 0 + (xsig.length + gbt_push_len (cbtx.getD 41 0) xsig.length)) ∧
    (∀ (hex2bin : String → Nat → Option (List Nat)) (coinbase_sig : List Nat)
      (coinbaseaux : Option (List (Option String))),
      gbt_xsig hex2bin (cbtx.getD 41 0) coinbase_sig coinbaseaux ≠ [] →
      cbtx.getD 41 0 +
        (gbt_xsig hex2bin (cbtx.getD 41 0) coinbase_sig coinbaseaux).length ≤ 100) := by
  have hA : (cbtx.take (42 + cbtx.getD 41 0)).length = 42 + cbtx.getD 41 0 := by
    rw [List.length_take]; omega
  have hset : ∀ v, ((cbtx.take (42 + cbtx.getD 41 0)).set 41 v).length =
      42 + cbtx.getD 41 0 := by
    intro v; rw [List.length_set, hA]
  have hins : (gbt_push_bytes (cbtx.getD 41 0) xsig.length ++ xsig).length =
      xsig.length + gbt_push_len (cbtx.getD 41 0) xsig.length := by
    rw [List.length_append, gbt_push_bytes_length]; omega
  have h41 := gbt_append_insert_getD41 cbtx xsig hx (by omega)
  refine ⟨?_, ?_, ?_, ?_, gbt_append_insert_length cbtx xsig hx, h41, ?_, ?_⟩
  · rw [gbt_append_insert_eq cbtx xsig hx, List.append_assoc,
      List.take_append_of_le_length (by rw [hset]; omega)]
    apply List.ext_getElem?
    intro i
    rw [List.getElem?_take, List.getElem?_take]
    split
    · rw [List.getElem?_set_ne (by omega), List.getElem?_take, if_pos (by omega)]
    · rfl
  · rw [gbt_append_insert_eq cbtx xsig hx, List.append_assoc,
      List.drop_append_of_le_length (by rw [hset]; omega),
      List.take_append_of_le_length (by rw [List.length_drop, hset]; omega)]
    apply List.ext_getElem?
    intro i
    rw [List.getElem?_take, List.getElem?_take]
    split
    · rw [List.getElem?_drop, List.getElem?_drop, List.getElem?_set_ne (by omega),
        List.getElem?_take, if_pos (by omega)]
    · rfl
  · rw [gbt_append_insert_eq cbtx xsig hx, List.append_assoc,
      List.drop_left' (hset _), List.take_left' hins]
  · rw [gbt_append_insert_eq cbtx xsig hx]
    apply List.drop_left'
    rw [List.length_append, hset, hins]
  · intro hfit
    rw [h41]
    have := gbt_push_len_le (cbtx.getD 41 0) xsig.length
    exact Nat.mod_eq_of_lt (by omega)
  · intro hex2bin coinbase_sig coinbaseaux hne
    rcases gbt_xsig_bound hex2bin (cbtx.getD 41 0) coinbase_sig coinbaseaux with h | h
    · exact absurd h hne
    · exact h

/-- C19: for a well-formed coinbase (`42 + cbtx[41] ≤ cbtx_size`) and a
non-empty signature, with L = `cbtx[41]` and n = `xsig_len + push_len`, the
append step ends with a coinbase `r` that keeps bytes 0 to 40 and the L old
scriptSig bytes, stores the push bytes and the signature right after them,
lets the bytes that followed the scriptSig reappear unchanged right after
the n inserted bytes, makes `cbtx_size` grow by n, and stores
`(L + n) mod 256` in `cbtx[41]`, which is L + n for every signature within
the 100-byte limit; every non-empty signature that the collection step
produces is within that limit. -/
theorem gbt_coinbase_append_frame (cbtx xsig : List Nat) (hx : xsig ≠ [])
    (hwf : 42 + cbtx.getD 41 0 ≤ cbtx.length) :
    ∃ r, gbt_coinbase_append cbtx xsig = some r ∧
      r.take 41 = cbtx.take 41 ∧
      (r.drop 42).take (cbtx.getD 41 0) = (cbtx.drop 42).take (cbtx.getD 41 0) ∧
      (r.drop (42 + cbtx.getD 41 0)).take
          (xsig.length + gbt_push_len (cbtx.getD 41 0) xsig.length) =
        gbt_push_bytes (cbtx.getD 41 0) xsig.length ++ xsig ∧
      r.drop (42 + cbtx.getD 41 0 +
          (xsig.length + gbt_push_len (cbtx.getD 41 0) xsig.length)) =
        cbtx.drop (42 + cbtx.getD 41 0) ∧
      r.length = cbtx.length + (xsig.length + gbt_push_len (cbtx.getD 41 0) xsig.length) ∧
      r.getD 41 0 =
        (cbtx.getD 41 0 + (xsig.length + gbt_push_len (cbtx.getD 41 0) xsig.length)) % 256 ∧
      (cbtx.getD 41 0 + xsig.length ≤ 100 →
        r.getD 41 0 =
          cbtx.getD 41 0 + (xsig.length + gbt_push_len (cbtx.getD 41 0) xsig.length)) ∧
      (∀ (hex2bin : String → Nat → Option (List Nat)) (coinbase_sig : List Nat)
        (coinbaseaux : Option (List (Option String))),
        gbt_xsig hex2bin (cbtx.getD 41 0) coinbase_sig coinbaseaux ≠ [] →
        cbtx.getD 41 0 +
          (gbt_xsig hex2bin (cbtx.getD 41 0) coinbase_sig coinbaseaux).length ≤ 100) :=
  ⟨_, gbt_coinbase_append_wf cbtx xsig hwf, gbt_append_insert_frame cbtx xsig hx hwf⟩

/-- Witness for C19: the sample coinbase and a three-byte signature. -/
theorem gbt_coinbase_append_frame_witness :
    ∃ r, gbt_coinbase_append sample_cbtx [0x41, 0x42, 0x43] = some r ∧
      r.take 41 = sample_cbtx.take 41 ∧
      (r.drop 42).take (sample_cbtx.getD 41 0) =
        (sample_cbtx.drop 42).take (sample_cbtx.getD 41 0) ∧
      (r.drop (42 + sample_cbtx.getD 41 0)).take
          ([0x41, 0x42, 0x43].length +
            gbt_push_len (sample_cbtx.getD 41 0) [0x41, 0x42, 0x43].length) =
        gbt_push_bytes (sample_cbtx.getD 41 0) [0x41, 0x42, 0x43].length ++
          [0x41, 0x42, 0x43] ∧
      r.drop (42 + sample_cbtx.getD 41 0 + ([0x41, 0x42, 0x43].length +
            gbt_push_len (sample_cbtx.getD 41 0) [0x41, 0x42, 0x43].length)) =
        sample_cbtx.drop (42 + sample_cbtx.getD 41 0) ∧
      r.length = sample_cbtx.length + ([0x41, 0x42, 0x43].length +
          gbt_push_len (sample_cbtx.getD 41 0) [0x41, 0x42, 0x43].length) ∧
      r.getD 41 0 =
        (sample_cbtx.getD 41 0 + ([0x41, 0x42, 0x43].length +
          gbt_push_len (sample_cbtx.getD 41 0) [0x41, 0x42, 0x43].length)) % 256 ∧
      (sample_cbtx.getD 41 0 + [0x41, 0x42, 0x43].length ≤ 100 →
        r.getD 41 0 =
          sample_cbtx.getD 41 0 + ([0x41, 0x42, 0x43].length +
            gbt_push_len (sample_cbtx.getD 41 0) [0x41, 0x42, 0x43].length)) ∧
      (∀ (hex2bin : String → Nat → Option (List Nat)) (coinbase_sig : List Nat)
        (coinbaseaux : Option (List (Option String))),
        gbt_xsig hex2bin (sample_cbtx.getD 41 0) coinbase_sig coinbaseaux ≠ [] →
        sample_cbtx.getD 41 0 +
          (gbt_xsig hex2bin (sample_cbtx.getD 41 0) coinbase_sig coinbaseaux).length ≤
            100) :=
  gbt_coinbase_append_frame sample_cbtx [0x41, 0x42, 0x43] (by decide) (by decide)

/-! ## Theorems: header serialisation -/

theorem be32enc_be32dec (a b c d : Nat) (rest : List Nat)
    (ha : a < 256) (hb : b < 256) (hc : c < 256) (hd : d < 256) :
    be32enc (be32dec (a :: b :: c :: d :: rest)) = [a, b, c, d] := by
  simp only [be32enc, be32dec, List.getD_cons_zero, List.getD_cons_succ]
  have h1 : (a * 16777216 + b * 65536 + c * 256 + d) / 16777216 % 256 = a := by omega
  have h2 : (a * 16777216 + b * 65536 + c * 256 + d) / 65536 % 256 = b := by omega
  have h3 : (a * 16777216 + b * 65536 + c * 256 + d) / 256 % 256 = c := by omega
  have h4 : (a * 16777216 + b * 65536 + c * 256 + d) % 256 = d := by omega
  rw [h1, h2, h3, h4]

theorem be32enc_le32dec (a b c d : Nat) (rest : List Nat)
    (ha : a < 256) (hb : b < 256) (hc : c < 256) (hd : d < 256) :
    be32enc (le32dec (a :: b :: c :: d :: rest)) = [d, c, b, a] := by
  simp only [be32enc, le32dec, List.getD_cons_zero, List.getD_cons_succ]
  have h1 : (a + b * 256 + c * 65536 + d * 16777216) / 16777216 % 256 = d := by omega
  have h2 : (a + b * 256 + c * 65536 + d * 16777216) / 65536 % 256 = c := by omega
  have h3 : (a + b * 256 + c * 65536 + d * 16777216) / 256 % 256 = b := by omega
  have h4 : (a + b * 256 + c * 65536 + d * 16777216) % 256 = a := by omega
  rw [h1, h2, h3, h4]

theorem le32enc_le32dec (a b c d : Nat) (rest : List Nat)
    (ha : a < 256) (hb : b < 256) (hc : c < 256) (hd : d < 256) :
    le32enc (le32dec (a :: b :: c :: d :: rest)) = [a, b, c, d] := by
  simp only [le32enc, le32dec, List.getD_cons_zero, List.getD_cons_succ]
  have h1 : (a + b * 256 + c * 65536 + d * 16777216) / 16777216 % 256 = d := by omega
  have h2 : (a + b * 256 + c * 65536 + d * 16777216) / 65536 % 256 = c := by omega
  have h3 : (a + b * 256 + c * 65536 + d * 16777216) / 256 % 256 = b := by omega
  have h4 : (a + b * 256 + c * 65536 + d * 16777216) % 256 = a := by omega
  rw [h1, h2, h3, h4]

theorem be32enc_swab32 (x : Nat) : be32enc (swab32 x) = le32enc x := by
  unfold swab32
  have := be32enc_be32dec (x % 256) (x / 256 % 256) (x / 65536 % 256) (x / 16777216 % 256) []
    (Nat.mod_lt _ (by decide)) (Nat.mod_lt _ (by decide)) (Nat.mod_lt _ (by decide))
    (Nat.mod_lt _ (by decide))
  exact this

theorem range_succ_map {β : Type} (f : Nat → β) (k : Nat) :
    (List.range (k + 1)).map f = f 0 :: (List.range k).map (fun i => f (i + 1)) := by
  rw [List.range_succ_eq_map]
  simp [List.map_map, Function.comp_def]

theorem be_words_bytes : ∀ (k : Nat) (M : List Nat), M.length = 4 * k → (∀ b ∈ M, b < 256) →
    ((List.range k).map (fun i => be32dec (M.drop (4 * i)))).flatMap be32enc = M := by
  intro k
  induction k with
  | zero =>
    intro M hM _
    have : M = [] := List.length_eq_zero.1 (by omega)
    subst this
    rfl
  | succ k ih =>
    intro M hM hb
    match M, hM, hb with
    | a :: b :: c :: d :: M2, hM, hb =>
      have hM2 : M2.length = 4 * k := by simp at hM; omega
      have hb2 : ∀ x ∈ M2, x < 256 := fun x hx => hb x (by simp [hx])
      rw [range_succ_map]
      simp only [List.flatMap_cons, Nat.mul_zero, List.drop_zero]
      rw [be32enc_be32dec a b c d M2 (hb a (by simp)) (hb b (by simp)) (hb c (by simp))
        (hb d (by simp))]
      have hdrop : ∀ i, (a :: b :: c :: d :: M2).drop (4 * (i + 1)) = M2.drop (4 * i) := by
        intro i
        have : 4 * (i + 1) = 4 * i + 1 + 1 + 1 + 1 := by ring
        rw [this]
        simp only [List.drop_succ_cons]
      simp only [hdrop]
      rw [ih M2 hM2 hb2]
      rfl

theorem le_words_bytes_rev : ∀ (k : Nat) (P : List Nat), P.length = 4 * k →
    (∀ b ∈ P, b < 256) →
    (((List.range k).map (fun i => le32dec (P.drop (4 * i)))).reverse).flatMap be32enc =
      P.reverse := by
  intro k
  induction k with
  | zero =>
    intro P hP _
    have : P = [] := List.length_eq_zero.1 (by omega)
    subst this
    rfl
  | succ k ih =>
    intro P hP hb
    match P, hP, hb with
    | a :: b :: c :: d :: P2, hP, hb =>
      have hP2 : P2.length = 4 * k := by simp at hP; omega
      have hb2 : ∀ x ∈ P2, x < 256 := fun x hx => hb x (by simp [hx])
      rw [range_succ_map]
      have hdrop : ∀ i, (a :: b :: c :: d :: P2).drop (4 * (i + 1)) = P2.drop (4 * i) := by
        intro i
        have : 4 * (i + 1) = 4 * i + 1 + 1 + 1 + 1 := by ring
        rw [this]
        simp only [List.drop_succ_cons]
      simp only [hdrop, List.reverse_cons, List.flatMap_append, List.flatMap_cons,
        List.flatMap_nil, List.append_nil, Nat.mul_zero, List.drop_zero]
      rw [ih P2 hP2 hb2,
        be32enc_le32dec a b c d P2 (hb a (by simp)) (hb b (by simp)) (hb c (by simp))
          (hb d (by simp))]
      simp

theorem gbt_header_take20 (version curtime : Int) (prevhash bits root : List Nat) (n : Nat) :
    ((gbt_header version curtime prevhash bits root).set 19 n).take 20 =
      [swab32 (version % 2 ^ 32).toNat] ++
      ((List.range 8).map (fun i => le32dec (prevhash.drop (4 * i)))).reverse ++
      merkle_words root ++ [swab32 (curtime % 2 ^ 32).toNat, le32dec bits, n] := by
  have h1 : (((List.range 8).map (fun i => le32dec (prevhash.drop (4 * i)))).reverse).length =
      8 := by simp
  have h2 : (merkle_words root).length = 8 := by simp [merkle_words]
  generalize hA : ((List.range 8).map (fun i => le32dec (prevhash.drop (4 * i)))).reverse = A
    at h1 ⊢
  generalize hB : merkle_words root = B at h2 ⊢
  unfold gbt_header
  rw [hA, hB]
  match A, h1, B, h2 with
  | [a1, a2, a3, a4, a5, a6, a7, a8], _, [b1, b2, b3, b4, b5, b6, b7, b8], _ =>
    rfl

theorem gbt_header_submit_bytes (env : SubmitEnv) (transport_ok : Bool) (work : Work)
    (version curtime : Int) (P B M : List Nat) (n : Nat) (txs : String)
    (hP : P.length = 32) (hPb : ∀ b ∈ P, b < 256)
    (hB : B.length = 4) (hBb : ∀ b ∈ B, b < 256)
    (hM : M.length = 32) (hMb : ∀ b ∈ M, b < 256)
    (hdata : work.data = (gbt_header version curtime P B M).set 19 n)
    (htxs : work.txs = some txs) (hmode : env.have_stratum = false)
    (hgate : env.submit_old = true ∨
      (work.data.drop 1).take 8 = (env.g_work.data.drop 1).take 8) :
    (submit_upstream_work env transport_ok work).sent =
      [WireRequest.submitblock
        (le32enc (version % 2 ^ 32).toNat ++ P.reverse ++ M ++
          le32enc (curtime % 2 ^ 32).toNat ++ B.reverse ++ be32enc n) txs work.workid] ∧
    (le32enc (version % 2 ^ 32).toNat ++ P.reverse ++ M ++
      le32enc (curtime % 2 ^ 32).toNat ++ B.reverse ++ be32enc n).length = 80 := by
  have hg : ¬ ((!env.submit_old && (work.data.drop 1).take 8 !=
      (env.g_work.data.drop 1).take 8) = true) := by
    rcases hgate with h | h
    · simp [h]
    · rw [h]
      simp
  have hbits : be32enc (le32dec B) = B.reverse := by
    match B, hB, hBb with
    | [a, b, c, d], _, hBb =>
      rw [be32enc_le32dec a b c d [] (hBb a (by simp)) (hBb b (by simp)) (hBb c (by simp))
        (hBb d (by simp))]
      rfl
  have hbytes : (work.data.take 20).flatMap be32enc =
      le32enc (version % 2 ^ 32).toNat ++ P.reverse ++ M ++
        le32enc (curtime % 2 ^ 32).toNat ++ B.reverse ++ be32enc n := by
    rw [hdata, gbt_header_take20]
    simp only [List.flatMap_append, List.flatMap_cons, List.flatMap_nil, List.append_nil]
    rw [le_words_bytes_rev 8 P hP hPb, be32enc_swab32, be32enc_swab32, hbits]
    unfold merkle_words
    rw [be_words_bytes 8 M hM hMb]
    simp only [List.append_assoc]
  constructor
  · unfold submit_upstream_work
    rw [if_neg hg, if_neg (by simp [hmode]), htxs]
    simp only []
    rw [hbytes]
  · simp [le32enc, be32enc, hP, hM, hB]

/-! ## Theorems: the Stratum submission -/

theorem hex_digit_mem (n : Nat) (h : n < 16) :
    hex_digit n ∈ "0123456789abcdef".data := by
  interval_cases n <;> decide

theorem bin2hex_length (bs : List Nat) : (bin2hex bs).length = 2 * bs.length := by
  unfold bin2hex
  rw [String.length_mk]
  induction bs with
  | nil => rfl
  | cons b rest ih => simp only [List.flatMap_cons, List.length_append, ih, List.length_cons,
      List.length_nil]; omega

theorem bin2hex_lowercase (bs : List Nat) :
    ∀ c ∈ (bin2hex bs).data, c ∈ "0123456789abcdef".data := by
  unfold bin2hex
  intro c hc
  simp only [List.mem_flatMap, List.mem_cons, List.mem_singleton, List.not_mem_nil,
    or_false] at hc
  obtain ⟨b, _, hb⟩ := hc
  rcases hb with rfl | rfl
  · exact hex_digit_mem _ (Nat.mod_lt _ (by decide))
  · exact hex_digit_mem _ (by omega)

theorem stratum_gen_work_data (H : List Nat → List Nat) (diff_to_target : Rat → List Nat)
    (scrypt : Bool) (job : StratumJob) (work : Work) (n : Nat) :
    (((stratum_gen_work H diff_to_target scrypt job work).2.data.set 19 n).getD 17 0 =
      le32dec job.ntime) ∧
    (((stratum_gen_work H diff_to_target scrypt job work).2.data.set 19 n).getD 19 0 = n) := by
  have h1 : ((List.range 8).map (fun i => le32dec (job.prevhash.drop (4 * i)))).length = 8 := by
    simp
  have h2 : (merkle_words (stratum_merkle_root H job.coinbase job.merkle)).length = 8 := by
    simp [merkle_words]
  unfold stratum_gen_work
  simp only []
  generalize (List.range 8).map (fun i => le32dec (job.prevhash.drop (4 * i))) = A at h1 ⊢
  generalize merkle_words (stratum_merkle_root H job.coinbase job.merkle) = B at h2 ⊢
  match A, h1, B, h2 with
  | [a1, a2, a3, a4, a5, a6, a7, a8], _, [b1, b2, b3, b4, b5, b6, b7, b8], _ =>
    exact ⟨rfl, rfl⟩

/-- C14: in Stratum mode a submission that passes the stale gate (`submit_old`
set, or words 1 to 8 equal to those of the slot) carries the user, the work's
`job_id` and `xnonce2`, and as ntime and nonce the four little-endian bytes of
`data[17]` and `data[19]`, each rendered by `bin2hex` as 8 lowercase
hexadecimal digits; for a work produced by `stratum_gen_work` in which only
the nonce word was changed, the ntime bytes are exactly the four `ntime`
bytes of the job, and `job_id` and `xnonce2` are the job's values from before
the increment. -/
theorem stratum_submit_fields (H : List Nat → List Nat) (diff_to_target : Rat → List Nat)
    (scrypt : Bool) (job : StratumJob) (work0 : Work) (env : SubmitEnv)
    (transport_ok : Bool) (n : Nat)
    (hnt : job.ntime.length = 4) (hntb : ∀ b ∈ job.ntime, b < 256)
    (hmode : env.have_stratum = true)
    (hgate : env.submit_old = true ∨
      (((stratum_gen_work H diff_to_target scrypt job work0).2.data.set 19 n).drop 1).take 8 =
        (env.g_work.data.drop 1).take 8) :
    (∀ work : Work,
      (env.submit_old = true ∨
        (work.data.drop 1).take 8 = (env.g_work.data.drop 1).take 8) →
      (submit_upstream_work env transport_ok work).sent =
        [WireRequest.stratum_submit env.rpc_user work.job_id work.xnonce2
          (le32enc (work.data.getD 17 0)) (le32enc (work.data.getD 19 0))]) ∧
    (submit_upstream_work env transport_ok
      { (stratum_gen_work H diff_to_target scrypt job work0).2 with
        data := (stratum_gen_work H diff_to_target scrypt job work0).2.data.set 19 n }).sent =
      [WireRequest.stratum_submit env.rpc_user (some job.job_id) job.xnonce2 job.ntime
        (le32enc n)] ∧
    (∀ x : Nat, (bin2hex (le32enc x)).length = 8 ∧
      ∀ c ∈ (bin2hex (le32enc x)).data, c ∈ "0123456789abcdef".data) ∧
    (bin2hex job.ntime).length = 8 := by
  have hsent : ∀ work : Work,
      (env.submit_old = true ∨
        (work.data.drop 1).take 8 = (env.g_work.data.drop 1).take 8) →
      (submit_upstream_work env transport_ok work).sent =
      [WireRequest.stratum_submit env.rpc_user work.job_id work.xnonce2
        (le32enc (work.data.getD 17 0)) (le32enc (work.data.getD 19 0))] := by
    intro work hg
    have hg2 : ¬ ((!env.submit_old && (work.data.drop 1).take 8 !=
        (env.g_work.data.drop 1).take 8) = true) := by
      rcases hg with h | h
      · simp [h]
      · rw [h]
        simp
    unfold submit_upstream_work
    rw [if_neg hg2, if_pos hmode]
  have hnt2 : le32enc (le32dec job.ntime) = job.ntime := by
    match job.ntime, hnt, hntb with
    | [a, b, c, d], _, hb =>
      exact le32enc_le32dec a b c d [] (hb a (by simp)) (hb b (by simp)) (hb c (by simp))
        (hb d (by simp))
  refine ⟨hsent, ?_, ?_, ?_⟩
  · rw [hsent _ hgate]
    obtain ⟨h17, h19⟩ := stratum_gen_work_data H diff_to_target scrypt job work0 n
    simp only []
    rw [h17, h19, hnt2]
    rfl
  · intro x
    exact ⟨by rw [bin2hex_length]; rfl, bin2hex_lowercase _⟩
  · rw [bin2hex_length, hnt]

/-- Witness for C14: the slot holds the work generated from the sample job,
`submit_old` is false, and a worker submits it with nonce `0x12345678`. -/
theorem stratum_submit_fields_witness :
    (submit_upstream_work
      { submit_old := false, have_stratum := true, rpc_user := "u",
        g_work := (stratum_gen_work toy_hash (fun _ => []) false sample_job zero_work).2,
        host_le := true } true
      { (stratum_gen_work toy_hash (fun _ => []) false sample_job zero_work).2 with
        data := (stratum_gen_work toy_hash (fun _ => []) false sample_job
          zero_work).2.data.set 19 0x12345678 }).sent =
      [WireRequest.stratum_submit "u" (some "j1") [255, 0] [5, 6, 7, 8]
        [0x78, 0x56, 0x34, 0x12]] ∧
    bin2hex [5, 6, 7, 8] = "05060708" ∧
    bin2hex [0x78, 0x56, 0x34, 0x12] = "78563412" :=
  ⟨(stratum_submit_fields toy_hash (fun _ => []) false sample_job zero_work
      { submit_old := false, have_stratum := true, rpc_user := "u",
        g_work := (stratum_gen_work toy_hash (fun _ => []) false sample_job zero_work).2,
        host_le := true } true 0x12345678
      (by decide) (by decide) rfl (Or.inr (by decide))).2.1, by decide, by decide⟩

/-! ## Theorems: the Stratum target -/

theorem target_value_words : ∀ (k v : Nat),
    target_value ((List.range k).map (fun i => v / 2 ^ (32 * i) % 2 ^ 32)) =
      v % 2 ^ (32 * k) := by
  intro k
  induction k with
  | zero => intro v; simp [target_value, Nat.mod_one]
  | succ k ih =>
    intro v
    rw [range_succ_map]
    have hstep : ∀ i, v / 2 ^ (32 * (i + 1)) % 2 ^ 32 = v / 2 ^ 32 / 2 ^ (32 * i) % 2 ^ 32 := by
      intro i
      rw [Nat.div_div_eq_div_mul, ← pow_add]
      congr 3
      ring
    simp only [hstep, target_value, Nat.mul_zero, pow_zero, Nat.div_one]
    rw [ih (v / 2 ^ 32)]
    have hp : (2 : Nat) ^ (32 * (k + 1)) = 2 ^ 32 * 2 ^ (32 * k) := by
      rw [← pow_add]; congr 1; ring
    rw [hp, Nat.mod_mul]

theorem target_value_diff_to_target (d : Rat) (h : ⌊(2 : Rat) ^ 224 / d⌋₊ < 2 ^ 256) :
    target_value (diff_to_target d) = ⌊(2 : Rat) ^ 224 / d⌋₊ := by
  unfold diff_to_target
  rw [target_value_words 8]
  exact Nat.mod_eq_of_lt (by simpa using h)

/-- C17 (as stated) fails for scrypt: with the notified difficulty 1 the
target of the produced work is the conversion of `1 / 65536`, the integer
`2^240`, not the conversion of `1 * 65536`, the integer `2^208`. -/
theorem scrypt_target_counterexample :
    sample_job.diff = 1 ∧
    (stratum_gen_work toy_hash diff_to_target true sample_job zero_work).2.target =
      diff_to_target (1 / 65536) ∧
    target_value (stratum_gen_work toy_hash diff_to_target true sample_job zero_work).2.target =
      2 ^ 240 ∧
    target_value (diff_to_target (1 * 65536)) = 2 ^ 208 ∧
    (stratum_gen_work toy_hash diff_to_target true sample_job zero_work).2.target ≠
      diff_to_target (1 * 65536) := by
  have h1 : (stratum_gen_work toy_hash diff_to_target true sample_job zero_work).2.target =
      diff_to_target (1 / 65536) := rfl
  have f1 : ⌊(2 : Rat) ^ 224 / (1 / 65536)⌋₊ = 2 ^ 240 := by norm_num
  have f2 : ⌊(2 : Rat) ^ 224 / (1 * 65536)⌋₊ = 2 ^ 208 := by norm_num
  have v1 : target_value (diff_to_target (1 / 65536)) = 2 ^ 240 := by
    rw [target_value_diff_to_target _ (by rw [f1]; norm_num), f1]
  have v2 : target_value (diff_to_target (1 * 65536)) = 2 ^ 208 := by
    rw [target_value_diff_to_target _ (by rw [f2]; norm_num), f2]
  refine ⟨rfl, h1, by rw [h1, v1], v2, ?_⟩
  rw [h1]
  intro h
  have := congrArg target_value h
  rw [v1, v2] at this
  norm_num at this

/-- C17 (amended): with the target conversion `floor(2^224 / d)`, for every
notified difficulty diff > 0 `stratum_gen_work` sets the target to
`floor(2^224 / diff)` when the algorithm is SHA-256d and to
`floor(2^224 / (diff / 65536))`, which is `floor(2^240 / diff)`, when the
algorithm is scrypt: the difficulty handed to the conversion is diff for
SHA-256d and diff / 65536 for scrypt. -/
theorem stratum_target (H : List Nat → List Nat) (job : StratumJob) (work : Work)
    (hd : 0 < job.diff) :
    (stratum_gen_work H diff_to_target false job work).2.target = diff_to_target job.diff ∧
    (stratum_gen_work H diff_to_target true job work).2.target =
      diff_to_target (job.diff / 65536) ∧
    (⌊(2 : Rat) ^ 224 / job.diff⌋₊ < 2 ^ 256 →
      target_value (stratum_gen_work H diff_to_target false job work).2.target =
        ⌊(2 : Rat) ^ 224 / job.diff⌋₊) ∧
    (⌊(2 : Rat) ^ 240 / job.diff⌋₊ < 2 ^ 256 →
      target_value (stratum_gen_work H diff_to_target true job work).2.target =
        ⌊(2 : Rat) ^ 240 / job.diff⌋₊) := by
  have hne : job.diff ≠ 0 := ne_of_gt hd
  have heq : (2 : Rat) ^ 224 / (job.diff / 65536) = (2 : Rat) ^ 240 / job.diff := by
    field_simp
    norm_num
  have h1 : (stratum_gen_work H diff_to_target false job work).2.target =
      diff_to_target job.diff := rfl
  have h2 : (stratum_gen_work H diff_to_target true job work).2.target =
      diff_to_target (job.diff / 65536) := rfl
  refine ⟨h1, h2, ?_, ?_⟩
  · intro hlt
    rw [h1, target_value_diff_to_target _ hlt]
  · intro hlt
    rw [h2, target_value_diff_to_target _ (by rw [heq]; exact hlt), heq]

/-- Witness for the amended C17: the sample job, difficulty 1. -/
theorem stratum_target_witness :
    (stratum_gen_work toy_hash diff_to_target false sample_job zero_work).2.target =
      diff_to_target sample_job.diff ∧
    (stratum_gen_work toy_hash diff_to_target true sample_job zero_work).2.target =
      diff_to_target (sample_job.diff / 65536) ∧
    (⌊(2 : Rat) ^ 224 / sample_job.diff⌋₊ < 2 ^ 256 →
      target_value (stratum_gen_work toy_hash diff_to_target false sample_job
        zero_work).2.target = ⌊(2 : Rat) ^ 224 / sample_job.diff⌋₊) ∧
    (⌊(2 : Rat) ^ 240 / sample_job.diff⌋₊ < 2 ^ 256 →
      target_value (stratum_gen_work toy_hash diff_to_target true sample_job
        zero_work).2.target = ⌊(2 : Rat) ^ 240 / sample_job.diff⌋₊) :=
  stratum_target toy_hash sample_job zero_work (by
    show (0 : Rat) < 1
    norm_num)

/-! ## Theorems: the transaction list of an accepted template -/

theorem gbt_txs_loop_leaves (H : List Nat → List Nat)
    (hex2bin : String → Nat → Option (List Nat)) (segwit submit_coinbase : Bool)
    (size : Nat) :
    ∀ (txa : List TemplateTx) (s t : String) (b : Bool),
      gbt_txs_loop H hex2bin segwit submit_coinbase size txa s = some (t, b) →
      b = (gbt_leaves H hex2bin segwit txa).isSome := by
  intro txa
  induction txa with
  | nil =>
    intro s t b h
    simp only [gbt_txs_loop, Option.some.injEq, Prod.mk.injEq] at h
    rw [← h.2]
    rfl
  | cons tx rest ih =>
    intro s t b h
    rw [gbt_txs_loop] at h
    rw [gbt_leaves]
    cases hl : gbt_leaf H hex2bin segwit tx with
    | none =>
      rw [hl] at h
      simp only [Option.some.injEq, Prod.mk.injEq] at h
      rw [← h.2]
      rfl
    | some leaf =>
      rw [hl] at h
      simp only [] at h ⊢
      rw [Option.isSome_map']
      split at h
      · exact ih _ t b h
      · split at h
        · exact ih _ t b h
        · exact absurd h (by simp)

theorem gbt_work_decode_accepted (H : List Nat → List Nat)
    (hex2bin : String → Nat → Option (List Nat))
    (bin2hex : List Nat → String) (varint_encode : Nat → List Nat) (fuel : Nat)
    (env : GbtEnv) (spare : List Nat) (val : Template) (work : Work) (r : GbtResult)
    (hdec : gbt_work_decode H hex2bin bin2hex varint_encode fuel env spare val work = some r)
    (hrc : r.rc = true) :
    ∃ (height version curtime : Int) (prevhash bits target cbtx0 cbtx : List Nat)
      (txa : List TemplateTx) (txs : String) (tree : List (List Nat)),
      val.height = some height ∧ val.version = some version ∧
      val.previousblockhash.bind (fun s => hex2bin s 32) = some prevhash ∧
      val.curtime = some curtime ∧ val.bits.bind (fun s => hex2bin s 4) = some bits ∧
      val.transactions = some txa ∧ txa.any (fun tx => tx.data.isNone) = false ∧
      gbt_cbtx_stage H hex2bin fuel env val (int32_wrap height) (gbt_segwit val.rules) txa =
        some (some cbtx0, r.have_gbt) ∧
      gbt_cbtx_append hex2bin env val (gbt_mutable val.mutable_flags).1 cbtx0 = some cbtx ∧
      gbt_txs H hex2bin bin2hex varint_encode (gbt_segwit val.rules)
        (gbt_mutable val.mutable_flags).2 cbtx txa = some (txs, true) ∧
      gbt_merkle_tree H hex2bin fuel (gbt_segwit val.rules) cbtx txa spare = some tree ∧
      val.target.bind (fun s => hex2bin s 32) = some target ∧
      val.workid ≠ some none ∧
      r.work = some
        { work with
          height := int32_wrap height
          txs := some txs
          data := gbt_header version curtime prevhash bits (tree.getD 0 [])
          target := gbt_target target
          workid := match val.workid with
            | some (some id) => some id
            | _ => work.workid } ∧
      r.left =
        { work with
          height := int32_wrap height
          txs := some txs
          data := gbt_header version curtime prevhash bits (tree.getD 0 [])
          target := gbt_target target
          workid := match val.workid with
            | some (some id) => some id
            | _ => work.workid } := by
  have hrej : ∀ b w, some (gbt_reject env b w) = some r → False := by
    intro b w h
    injection h with h
    rw [← h] at hrc
    simp [gbt_reject] at hrc
  unfold gbt_work_decode at hdec
  cases h1 : val.height with
  | none => rw [h1] at hdec; exact (hrej _ _ hdec).elim
  | some height =>
  cases h2 : val.version with
  | none => rw [h1, h2] at hdec; exact (hrej _ _ hdec).elim
  | some version =>
  cases h3 : val.previousblockhash.bind (fun s => hex2bin s 32) with
  | none => rw [h1, h2, h3] at hdec; exact (hrej _ _ hdec).elim
  | some prevhash =>
  cases h4 : val.curtime with
  | none => rw [h1, h2, h3, h4] at hdec; exact (hrej _ _ hdec).elim
  | some curtime =>
  cases h5 : val.bits.bind (fun s => hex2bin s 4) with
  | none => rw [h1, h2, h3, h4, h5] at hdec; exact (hrej _ _ hdec).elim
  | some bits =>
  cases h6 : val.transactions with
  | none => rw [h1, h2, h3, h4, h5, h6] at hdec; exact (hrej _ _ hdec).elim
  | some txa =>
  rw [h1, h2, h3, h4, h5, h6] at hdec
  simp only [] at hdec
  cases h7 : txa.any (fun tx => tx.data.isNone) with
  | true => rw [h7] at hdec; simp only [if_true] at hdec; exact (hrej _ _ hdec).elim
  | false =>
  rw [h7] at hdec
  simp only [Bool.false_eq_true, if_false] at hdec
  cases h8 : gbt_cbtx_stage H hex2bin fuel env val (int32_wrap height)
      (gbt_segwit val.rules) txa with
  | none => rw [h8] at hdec; simp at hdec
  | some p =>
  obtain ⟨c, hg⟩ := p
  cases c with
  | none => rw [h8] at hdec; exact (hrej _ _ hdec).elim
  | some cbtx0 =>
  rw [h8] at hdec
  simp only [] at hdec
  cases h9 : gbt_cbtx_append hex2bin env val (gbt_mutable val.mutable_flags).1 cbtx0 with
  | none => rw [h9] at hdec; simp at hdec
  | some cbtx =>
  rw [h9] at hdec
  simp only [] at hdec
  cases h9b : gbt_txs H hex2bin bin2hex varint_encode (gbt_segwit val.rules)
      (gbt_mutable val.mutable_flags).2 cbtx txa with
  | none => rw [h9b] at hdec; simp at hdec
  | some q =>
  obtain ⟨txs, ok⟩ := q
  cases ok with
  | false => rw [h9b] at hdec; exact (hrej _ _ hdec).elim
  | true =>
  rw [h9b] at hdec
  simp only [] at hdec
  cases h10 : gbt_merkle_tree H hex2bin fuel (gbt_segwit val.rules) cbtx txa spare with
  | none => rw [h10] at hdec; simp at hdec
  | some tree =>
  rw [h10] at hdec
  simp only [] at hdec
  cases h11 : val.target.bind (fun s => hex2bin s 32) with
  | none => rw [h11] at hdec; exact (hrej _ _ hdec).elim
  | some target =>
  rw [h11] at hdec
  cases h12 : val.workid with
  | none =>
    rw [h12] at hdec
    simp only [] at hdec
    injection hdec with hdec
    subst hdec
    exact ⟨height, version, curtime, prevhash, bits, target, cbtx0, cbtx, txa, txs, tree,
      rfl, rfl, rfl, rfl, rfl, rfl, h7, h8, h9, h9b, h10, rfl, by simp, rfl, rfl⟩
  | some w =>
    cases w with
    | none => rw [h12] at hdec; exact (hrej _ _ hdec).elim
    | some id =>
      rw [h12] at hdec
      simp only [] at hdec
      injection hdec with hdec
      subst hdec
      exact ⟨height, version, curtime, prevhash, bits, target, cbtx0, cbtx, txa, txs, tree,
        rfl, rfl, rfl, rfl, rfl, rfl, h7, h8, h9, h9b, h10, rfl, by simp, rfl, rfl⟩

set_option maxRecDepth 1000000 in
/-- A supplied `coinbasetxn` of 60 bytes whose byte 41 is 90, with
`coinbase/append` mutable: with the signature `41 42` the call has no result
(the `memmove` count is negative); with nothing to append the same template
is accepted. -/
theorem gbt_work_decode_short_coinbasetxn :
    gbt_cbtx_stage toy_hash sample_short_hex2bin 100 sample_env sample_short_template 700000
      true sample_txs = some (some sample_short_cbtx, true) ∧
    gbt_work_decode toy_hash sample_short_hex2bin bin2hex varint_encode 100 sample_env []
      sample_short_template zero_work = none ∧
    (gbt_work_decode toy_hash sample_short_hex2bin bin2hex varint_encode 100
      { sample_env with coinbase_sig := [] } []
      { sample_short_template with coinbaseaux := none } zero_work).map (fun r => r.rc) =
      some true := by
  refine ⟨?_, ?_, ?_⟩ <;> decide

set_option maxRecDepth 1000000 in
/-- A `data` string of three characters counts as one byte in the size of
line 479, so the `strcat` of line 508 needs one byte more than the buffer
has: the call has no result.  With a string of four characters the template
is accepted. -/
theorem gbt_work_decode_odd_data :
    gbt_txs_size 1 120 [{ data := some "000", txid := some "t", hash := some "a" }] = 245 ∧
    gbt_txs_loop toy_hash toy_hex2bin true false 245
      [{ data := some "000", txid := some "t", hash := some "a" }]
      (String.join (List.replicate 121 "00")) = none ∧
    gbt_work_decode toy_hash toy_hex2bin bin2hex varint_encode 100 sample_env []
      sample_odd_template zero_work = none ∧
    (gbt_work_decode toy_hash toy_hex2bin bin2hex varint_encode 100 sample_env []
      { sample_template with
        transactions := some [{ data := some "0000", txid := some "t", hash := some "a" }] }
      zero_work).map (fun r => r.rc) = some true := by
  refine ⟨?_, ?_, ?_, ?_⟩ <;> decide

theorem merkle_loop_row0 (H : List Nat → List Nat) (P : List Nat → Prop)
    (hP : ∀ l, P (H l)) :
    ∀ (fuel n : Nat) (tree t : List (List Nat)), 0 < tree.length → P (tree.getD 0 []) →
      merkle_loop H fuel n tree = some t → P (t.getD 0 []) := by
  intro fuel
  induction fuel with
  | zero => intro n tree t _ _ h; simp [merkle_loop] at h
  | succ f ih =>
    intro n tree t hlen h0 h
    rw [merkle_loop] at h
    by_cases hn : n > 1
    · rw [if_pos hn] at h
      simp only [] at h
      have hl1 : (if n % 2 = 1 then tree.set n (tree.getD (n - 1) []) else tree).length =
          tree.length := by
        split <;> simp
      have hn2 : 0 < (if n % 2 = 1 then n + 1 else n) / 2 := by
        split <;> omega
      refine ih _ _ t ?_ ?_ h
      · rw [hash_level_length, hl1]; exact hlen
      · rw [hash_level_getD, if_pos ⟨le_refl _, by omega, by rw [hl1]; exact hlen⟩]
        exact hP _
    · rw [if_neg hn] at h
      injection h with h
      rw [← h]; exact h0

theorem gbt_merkle_tree_root (H : List Nat → List Nat)
    (hex2bin : String → Nat → Option (List Nat)) (fuel : Nat) (segwit : Bool)
    (cbtx : List Nat) (txs : List TemplateTx) (spare : List Nat) (tree : List (List Nat))
    (hH : ∀ l, (H l).length = 32 ∧ ∀ b ∈ H l, b < 256)
    (ht : gbt_merkle_tree H hex2bin fuel segwit cbtx txs spare = some tree) :
    (tree.getD 0 []).length = 32 ∧ ∀ b ∈ tree.getD 0 [], b < 256 := by
  unfold gbt_merkle_tree at ht
  cases hl : gbt_leaves H hex2bin segwit txs with
  | none => rw [hl] at ht; simp at ht
  | some leaves =>
    rw [hl] at ht
    simp only [] at ht
    exact merkle_loop_row0 H (fun x => x.length = 32 ∧ ∀ b ∈ x, b < 256) hH _ _ _ tree
      (by simp) (by simpa using hH cbtx) ht

/-- C13: for every work that `gbt_work_decode` produced from version v, the
32 decoded `previousblockhash` bytes P, curtime t, the 4 decoded `bits` bytes
B and the Merkle root M (row 0 of the folded tree), once a nonce word n is
stored in `data[19]`, the first call of `submit_upstream_work` in GBT mode
that passes the stale gate sends `submitblock` with exactly the 80 header
bytes `LE32(v) || reverse(P) || M || LE32(t) || reverse(B) || BE32(n)`
followed by the work's `txs`.  `hex2bin` and the hash are taken to return
bytes: `len` of them, and 32. -/
theorem gbt_submit_header_bytes (H : List Nat → List Nat)
    (hex2bin : String → Nat → Option (List Nat))
    (bin2hex : List Nat → String) (varint_encode : Nat → List Nat) (fuel : Nat)
    (genv : GbtEnv) (spare : List Nat) (val : Template) (work0 : Work) (r : GbtResult)
    (w work : Work) (n : Nat) (env : SubmitEnv) (transport_ok : Bool)
    (hhex : ∀ s k l, hex2bin s k = some l → l.length = k ∧ ∀ b ∈ l, b < 256)
    (hH : ∀ l, (H l).length = 32 ∧ ∀ b ∈ H l, b < 256)
    (hdec : gbt_work_decode H hex2bin bin2hex varint_encode fuel genv spare val work0 = some r)
    (hrc : r.rc = true) (hw : r.work = some w)
    (hdata : work.data = w.data.set 19 n) (htxs : work.txs = w.txs)
    (hmode : env.have_stratum = false)
    (hgate : env.submit_old = true ∨
      (work.data.drop 1).take 8 = (env.g_work.data.drop 1).take 8) :
    ∃ (v t : Int) (P B M : List Nat) (txs : String),
      val.version = some v ∧ val.curtime = some t ∧
      val.previousblockhash.bind (fun s => hex2bin s 32) = some P ∧
      val.bits.bind (fun s => hex2bin s 4) = some B ∧
      (∃ (txa : List TemplateTx) (cbtx : List Nat) (tree : List (List Nat)),
        val.transactions = some txa ∧
        gbt_merkle_tree H hex2bin fuel (gbt_segwit val.rules) cbtx txa spare = some tree ∧
        M = tree.getD 0 []) ∧
      (submit_upstream_work env transport_ok work).sent =
        [WireRequest.submitblock
          (le32enc (v % 2 ^ 32).toNat ++ P.reverse ++ M ++
            le32enc (t % 2 ^ 32).toNat ++ B.reverse ++ be32enc n) txs work.workid] ∧
      (le32enc (v % 2 ^ 32).toNat ++ P.reverse ++ M ++
        le32enc (t % 2 ^ 32).toNat ++ B.reverse ++ be32enc n).length = 80 := by
  obtain ⟨height, version, curtime, prevhash, bits, target, cbtx0, cbtx, txa, txs, tree,
    _, h2, h3, h4, h5, h6, _, _, _, _, h10, _, _, hwork, _⟩ :=
    gbt_work_decode_accepted H hex2bin bin2hex varint_encode fuel genv spare val work0 r hdec hrc
  rw [hw] at hwork
  injection hwork with hwork
  have hP : prevhash.length = 32 ∧ ∀ b ∈ prevhash, b < 256 := by
    cases hs : val.previousblockhash with
    | none => rw [hs] at h3; simp at h3
    | some s => rw [hs] at h3; exact hhex s 32 prevhash h3
  have hB : bits.length = 4 ∧ ∀ b ∈ bits, b < 256 := by
    cases hs : val.bits with
    | none => rw [hs] at h5; simp at h5
    | some s => rw [hs] at h5; exact hhex s 4 bits h5
  have hM := gbt_merkle_tree_root H hex2bin fuel _ _ txa spare tree hH h10
  have hd : work.data = (gbt_header version curtime prevhash bits (tree.getD 0 [])).set 19 n := by
    rw [hdata, hwork]
  have ht : work.txs = some txs := by
    rw [htxs, hwork]
  obtain ⟨hs, hl⟩ := gbt_header_submit_bytes env transport_ok work version curtime prevhash
    bits (tree.getD 0 []) n _ hP.1 hP.2 hB.1 hB.2 hM.1 hM.2 hd ht hmode hgate
  exact ⟨version, curtime, prevhash, bits, tree.getD 0 [], _, h2, h4, h3, h5,
    ⟨txa, _, tree, h6, h10, rfl⟩, hs, hl⟩

theorem toy_hex2bin_bytes (s : String) (k : Nat) (l : List Nat)
    (h : toy_hex2bin s k = some l) : l.length = k ∧ ∀ b ∈ l, b < 256 := by
  unfold toy_hex2bin at h
  injection h with h
  subst h
  refine ⟨by simp, ?_⟩
  intro b hb
  rw [List.eq_of_mem_replicate hb]
  exact Nat.mod_lt _ (by decide)

theorem toy_hash_bytes (l : List Nat) :
    (toy_hash l).length = 32 ∧ ∀ b ∈ toy_hash l, b < 256 := by
  unfold toy_hash
  refine ⟨by simp, ?_⟩
  intro b hb
  rw [List.eq_of_mem_replicate hb]
  exact Nat.mod_lt _ (by decide)

set_option maxRecDepth 1000000 in
theorem gbt_submit_header_bytes_witness :
    ∃ (v t : Int) (P B M : List Nat) (txs : String),
      sample_template.version = some v ∧ sample_template.curtime = some t ∧
      sample_template.previousblockhash.bind (fun s => toy_hex2bin s 32) = some P ∧
      sample_template.bits.bind (fun s => toy_hex2bin s 4) = some B ∧
      (∃ (txa : List TemplateTx) (cbtx : List Nat) (tree : List (List Nat)),
        sample_template.transactions = some txa ∧
        gbt_merkle_tree toy_hash toy_hex2bin 100 (gbt_segwit sample_template.rules) cbtx txa
          [] = some tree ∧
        M = tree.getD 0 []) ∧
      (submit_upstream_work sample_submit_env true sample_mined).sent =
        [WireRequest.submitblock
          (le32enc (v % 2 ^ 32).toNat ++ P.reverse ++ M ++
            le32enc (t % 2 ^ 32).toNat ++ B.reverse ++ be32enc 5) txs sample_mined.workid] ∧
      (le32enc (v % 2 ^ 32).toNat ++ P.reverse ++ M ++
        le32enc (t % 2 ^ 32).toNat ++ B.reverse ++ be32enc 5).length = 80 :=
  gbt_submit_header_bytes toy_hash toy_hex2bin bin2hex varint_encode 100 sample_env []
    sample_template zero_work sample_result sample_work sample_mined 5 sample_submit_env true
    toy_hex2bin_bytes toy_hash_bytes (by decide) (by decide) (by decide) (by decide)
    (by decide) (by decide) (Or.inr (by decide))

/-! ## Theorems: get_upstream_work and workio_get_work -/

theorem gbt_cbtx_stage_have_gbt (H : List Nat → List Nat)
    (hex2bin : String → Nat → Option (List Nat)) (fuel : Nat) (env : GbtEnv) (val : Template)
    (height : Int) (segwit : Bool) (txa : List TemplateTx) (c : Option (List Nat)) (g : Bool)
    (hpk : 0 < env.pk_script.length)
    (h : gbt_cbtx_stage H hex2bin fuel env val height segwit txa = some (c, g)) :
    g = env.have_gbt := by
  unfold gbt_cbtx_stage at h
  have hne : ¬ env.pk_script.length = 0 := by omega
  split at h
  · split at h
    · simp at h; exact h.2.symm
    · split at h <;> (simp at h; exact h.2.symm)
  · rw [if_neg hne] at h
    split at h
    · simp at h; exact h.2.symm
    · split at h
      · simp at h
      · split at h
        · simp at h; exact h.2.symm
        · split at h
          · simp at h
          · simp at h; exact h.2.symm

theorem gbt_work_decode_have_gbt (H : List Nat → List Nat)
    (hex2bin : String → Nat → Option (List Nat))
    (bin2hex : List Nat → String) (varint_encode : Nat → List Nat) (fuel : Nat)
    (env : GbtEnv) (spare : List Nat) (val : Template) (work : Work) (r : GbtResult)
    (hpk : 0 < env.pk_script.length)
    (hdec : gbt_work_decode H hex2bin bin2hex varint_encode fuel env spare val work = some r) :
    r.have_gbt = env.have_gbt := by
  have hrej : ∀ b w, b = env.have_gbt → some (gbt_reject env b w) = some r →
      r.have_gbt = env.have_gbt := by
    intro b w hb h
    injection h with h
    rw [← h, hb]
    rfl
  unfold gbt_work_decode at hdec
  split at hdec
  · split at hdec
    · exact hrej _ _ rfl hdec
    · split at hdec
      · simp at hdec
      · rename_i g hst
        exact hrej _ _ (gbt_cbtx_stage_have_gbt H hex2bin fuel env val _ _ _ _ g hpk hst) hdec
      · rename_i cb g hst
        have hg := gbt_cbtx_stage_have_gbt H hex2bin fuel env val _ _ _ _ g hpk hst
        split at hdec
        · simp at hdec
        · split at hdec
          · simp at hdec
          · exact hrej _ _ hg hdec
          · split at hdec
            · simp at hdec
            · split at hdec
              · exact hrej _ _ hg hdec
              · exact hrej _ _ hg hdec
              · injection hdec with hdec
                rw [← hdec]
                exact hg
  · exact hrej _ _ rfl hdec
  · exact hrej _ _ rfl hdec

theorem get_upstream_work_passes (H : List Nat → List Nat)
    (hex2bin : String → Nat → Option (List Nat))
    (hex2bin_raw : String → Nat → List Nat → List Nat)
    (bin2hex : List Nat → String) (varint_encode : Nat → List Nat) (dfuel : Nat)
    (rpc : RpcBody → Nat → RpcReply) (spare : List Nat) (fuel : Nat) (env : GbtEnv)
    (work : Work) (hgbt : env.have_gbt = true) (hpk : 0 < env.pk_script.length) :
    (env.allow_getwork = true ∧ (rpc RpcBody.gbt_req 0).val = none ∧
        (rpc RpcBody.gbt_req 0).err = 0 →
      ∃ r, get_upstream_work H hex2bin hex2bin_raw bin2hex varint_encode dfuel rpc false spare (fuel + 2)
          env 0 [] [] work = some r ∧
        r.env.have_gbt = false ∧ r.sent = [RpcBody.gbt_req, RpcBody.getwork_req] ∧
        r.log = ["getblocktemplate failed, falling back to getwork"]) ∧
    (∀ r, get_upstream_work H hex2bin hex2bin_raw bin2hex varint_encode dfuel rpc false spare (fuel + 2)
          env 0 [] [] work = some r →
      (r.env.have_gbt = false ∨ RpcBody.getwork_req ∈ r.sent) →
      env.allow_getwork = true ∧ (rpc RpcBody.gbt_req 0).val = none ∧
        (rpc RpcBody.gbt_req 0).err = 0) ∧
    (¬ (env.allow_getwork = true ∧ (rpc RpcBody.gbt_req 0).err = 0) →
      (rpc RpcBody.gbt_req 0).val = none →
      ∃ r, get_upstream_work H hex2bin hex2bin_raw bin2hex varint_encode dfuel rpc false spare (fuel + 2)
          env 0 [] [] work = some r ∧
        r.outcome = some false ∧ r.env.have_gbt = true ∧ r.sent = [RpcBody.gbt_req]) ∧
    (∀ result d, (rpc RpcBody.gbt_req 0).val = some result →
      gbt_work_decode H hex2bin bin2hex varint_encode dfuel env spare result work = some d →
      ∃ r, get_upstream_work H hex2bin hex2bin_raw bin2hex varint_encode dfuel rpc false spare (fuel + 2)
          env 0 [] [] work = some r ∧
        r.outcome = some d.rc ∧ r.work = d.work ∧ r.env.have_gbt = true ∧
        r.sent = [RpcBody.gbt_req]) := by
  have hne : ¬ (env.have_gbt = true ∧ env.pk_script.length = 0) := by omega
  have hkeep : ∀ result d,
      gbt_work_decode H hex2bin bin2hex varint_encode dfuel env spare result work = some d →
      d.have_gbt = true := by
    intro result d hd
    rw [gbt_work_decode_have_gbt H hex2bin bin2hex varint_encode dfuel env spare result work d
      hpk hd, hgbt]
  refine ⟨?_, ?_, ?_, ?_⟩
  · rintro ⟨ha, hv, he⟩
    rw [get_upstream_work, if_neg hne]
    simp only [hgbt, ha, hv, he, if_true, Bool.false_eq_true, if_false, false_and, and_self,
      List.nil_append, Nat.zero_add]
    rw [get_upstream_work]
    simp only [Bool.false_eq_true, false_and, if_false, ha, and_false]
    cases hv2 : (rpc RpcBody.getwork_req 1).val with
    | none => exact ⟨_, rfl, rfl, rfl, rfl⟩
    | some result => exact ⟨_, rfl, rfl, rfl, rfl⟩
  · intro r hr hfb
    rw [get_upstream_work, if_neg hne] at hr
    simp only [hgbt, if_true, Bool.false_eq_true, if_false, false_and, true_and,
      List.nil_append, Nat.zero_add] at hr
    by_cases hc : env.allow_getwork = true ∧ (rpc RpcBody.gbt_req 0).val = none ∧
        (rpc RpcBody.gbt_req 0).err = 0
    · exact hc
    · exfalso
      rw [if_neg hc] at hr
      cases hv : (rpc RpcBody.gbt_req 0).val with
      | none =>
        rw [hv] at hr
        simp only [] at hr
        injection hr with hr
        subst hr
        simp [hgbt] at hfb
      | some result =>
        rw [hv] at hr
        simp only [] at hr
        cases hd : gbt_work_decode H hex2bin bin2hex varint_encode dfuel env spare result
            work with
        | none => rw [hd] at hr; simp at hr
        | some d =>
          rw [hd] at hr
          simp only [hkeep result d hd, Bool.true_eq_false, if_false] at hr
          injection hr with hr
          subst hr
          simp at hfb
  · intro hc hv
    have hc2 : ¬ (env.allow_getwork = true ∧ (rpc RpcBody.gbt_req 0).val = none ∧
        (rpc RpcBody.gbt_req 0).err = 0) := fun h => hc ⟨h.1, h.2.2⟩
    rw [get_upstream_work, if_neg hne]
    simp only [hgbt, if_true, Bool.false_eq_true, if_false, false_and, true_and,
      List.nil_append, Nat.zero_add]
    rw [if_neg hc2, hv]
    exact ⟨_, rfl, rfl, hgbt, rfl⟩
  · intro result d hv hd
    have hc2 : ¬ (env.allow_getwork = true ∧ (rpc RpcBody.gbt_req 0).val = none ∧
        (rpc RpcBody.gbt_req 0).err = 0) := by
      rintro ⟨-, h, -⟩
      rw [hv] at h
      simp at h
    rw [get_upstream_work, if_neg hne]
    simp only [hgbt, if_true, Bool.false_eq_true, if_false, false_and, true_and,
      List.nil_append, Nat.zero_add]
    rw [if_neg hc2, hv]
    simp only []
    rw [hd]
    simp only [hkeep result d hd, Bool.true_eq_false, if_false]
    exact ⟨_, rfl, rfl, rfl, rfl, rfl⟩

/-- C11: in non-Stratum mode with GBT enabled, `get_upstream_work` falls back
to getwork, that is clears `have_gbt` and makes its next RPC call with the
getwork body, if and only if `allow_getwork` is set, the transport reported
`CURLE_OK` and the getblocktemplate call returned no JSON value.  A reply that
was received is handed to `gbt_work_decode` and its verdict is returned: when
the decoder rejects it the call returns false with `have_gbt` still set and no
further request.  This holds with a payout script; without one the `assert`
of line 717 stops the program before any request is made. -/
theorem get_upstream_work_fallback (H : List Nat → List Nat)
    (hex2bin : String → Nat → Option (List Nat))
    (hex2bin_raw : String → Nat → List Nat → List Nat)
    (bin2hex : List Nat → String) (varint_encode : Nat → List Nat) (dfuel : Nat)
    (rpc : RpcBody → Nat → RpcReply) (spare : List Nat) (fuel : Nat) (env : GbtEnv)
    (work : Work) (hgbt : env.have_gbt = true) :
    (0 < env.pk_script.length →
      (env.allow_getwork = true ∧ (rpc RpcBody.gbt_req 0).val = none ∧
          (rpc RpcBody.gbt_req 0).err = 0 →
        ∃ r, get_upstream_work H hex2bin hex2bin_raw bin2hex varint_encode dfuel rpc false spare
            (fuel + 2) env 0 [] [] work = some r ∧
          r.env.have_gbt = false ∧ r.sent = [RpcBody.gbt_req, RpcBody.getwork_req] ∧
          r.log = ["getblocktemplate failed, falling back to getwork"]) ∧
      (∀ r, get_upstream_work H hex2bin hex2bin_raw bin2hex varint_encode dfuel rpc false spare
            (fuel + 2) env 0 [] [] work = some r →
        (r.env.have_gbt = false ∨ RpcBody.getwork_req ∈ r.sent) →
        env.allow_getwork = true ∧ (rpc RpcBody.gbt_req 0).val = none ∧
          (rpc RpcBody.gbt_req 0).err = 0) ∧
      (¬ (env.allow_getwork = true ∧ (rpc RpcBody.gbt_req 0).err = 0) →
        (rpc RpcBody.gbt_req 0).val = none →
        ∃ r, get_upstream_work H hex2bin hex2bin_raw bin2hex varint_encode dfuel rpc false spare
            (fuel + 2) env 0 [] [] work = some r ∧
          r.outcome = some false ∧ r.env.have_gbt = true ∧ r.sent = [RpcBody.gbt_req]) ∧
      (∀ result d, (rpc RpcBody.gbt_req 0).val = some result →
        gbt_work_decode H hex2bin bin2hex varint_encode dfuel env spare result work = some d →
        ∃ r, get_upstream_work H hex2bin hex2bin_raw bin2hex varint_encode dfuel rpc false spare
            (fuel + 2) env 0 [] [] work = some r ∧
          r.outcome = some d.rc ∧ r.work = d.work ∧ r.env.have_gbt = true ∧
          r.sent = [RpcBody.gbt_req])) ∧
    (env.pk_script.length = 0 →
      get_upstream_work H hex2bin hex2bin_raw bin2hex varint_encode dfuel rpc false spare (fuel + 2)
          env 0 [] [] work =
        some { outcome := none, work := none, left := work, env := env, lp_id := none, lp_push := none,
               sent := [], log := [], calls := 0 }) := by
  refine ⟨fun hpk => get_upstream_work_passes H hex2bin hex2bin_raw bin2hex varint_encode dfuel rpc spare
    fuel env work hgbt hpk, ?_⟩
  intro h0
  rw [get_upstream_work, if_pos ⟨hgbt, h0⟩]

set_option maxRecDepth 1000000 in
/-- Witness for C11: against a server without getblocktemplate the call sends
the GBT body, then the getwork body, and returns the decoded getwork. -/
theorem get_upstream_work_fallback_witness :
    (get_upstream_work toy_hash toy_hex2bin toy_hex2bin_raw bin2hex varint_encode 100 sample_rpc_404 false []
      2 sample_env 0 [] [] zero_work).map (fun r => (r.outcome, r.env.have_gbt, r.sent)) =
      some (some true, false, [RpcBody.gbt_req, RpcBody.getwork_req]) ∧
    (sample_env.allow_getwork = true ∧ (sample_rpc_404 RpcBody.gbt_req 0).val = none ∧
        (sample_rpc_404 RpcBody.gbt_req 0).err = 0 →
      ∃ r, get_upstream_work toy_hash toy_hex2bin toy_hex2bin_raw bin2hex varint_encode 100 sample_rpc_404
          false [] (0 + 2) sample_env 0 [] [] zero_work = some r ∧
        r.env.have_gbt = false ∧ r.sent = [RpcBody.gbt_req, RpcBody.getwork_req] ∧
        r.log = ["getblocktemplate failed, falling back to getwork"]) :=
  ⟨by decide,
    ((get_upstream_work_fallback toy_hash toy_hex2bin toy_hex2bin_raw bin2hex varint_encode 100
      sample_rpc_404 [] 0 sample_env zero_work (by decide)).1 (by decide)).1⟩

theorem get_upstream_work_404 (H : List Nat → List Nat)
    (hex2bin : String → Nat → Option (List Nat))
    (hex2bin_raw : String → Nat → List Nat → List Nat)
    (bin2hex : List Nat → String) (varint_encode : Nat → List Nat) (dfuel : Nat)
    (rpc : RpcBody → Nat → RpcReply) (spare : List Nat) (fuel : Nat) (env : GbtEnv)
    (calls : Nat) (sent : List RpcBody) (log : List String) (work : Work)
    (hgbt : env.have_gbt = true) (hno : env.allow_getwork = false)
    (hpk : 0 < env.pk_script.length)
    (h404 : rpc RpcBody.gbt_req calls = { val := none, err := 0 }) :
    get_upstream_work H hex2bin hex2bin_raw bin2hex varint_encode dfuel rpc false spare (fuel + 1)
        env calls sent log work =
      some { outcome := some false, work := none, left := work, env := env, lp_id := none, lp_push := none,
             sent := sent ++ [RpcBody.gbt_req], log := log, calls := calls + 1 } := by
  have hne : ¬ (env.have_gbt = true ∧ env.pk_script.length = 0) := by omega
  rw [get_upstream_work, if_neg hne]
  simp only [hgbt, hno, h404, if_true, Bool.false_eq_true, if_false, false_and, true_and,
    and_false]
  rw [if_neg (by simp)]

theorem workio_get_work_404_forever (H : List Nat → List Nat)
    (hex2bin : String → Nat → Option (List Nat))
    (hex2bin_raw : String → Nat → List Nat → List Nat)
    (bin2hex : List Nat → String) (varint_encode : Nat → List Nat) (dfuel : Nat)
    (rpc : RpcBody → Nat → RpcReply) (spare : List Nat) (opt_retries : Int) (env : GbtEnv)
    (hgbt : env.have_gbt = true) (hno : env.allow_getwork = false)
    (hpk : 0 < env.pk_script.length)
    (h404 : ∀ k, rpc RpcBody.gbt_req k = { val := none, err := 0 })
    (hneg : opt_retries < 0) :
    ∀ (fuel calls failures : Nat) (sent : List RpcBody) (log : List String) (sleeps : Nat)
      (ret_work : Work),
      workio_get_work H hex2bin hex2bin_raw bin2hex varint_encode dfuel rpc false spare opt_retries fuel
        env calls failures sent log sleeps ret_work = none := by
  intro fuel
  induction fuel with
  | zero => intro calls failures sent log sleeps ret_work; rfl
  | succ f ih =>
    intro calls failures sent log sleeps ret_work
    rw [workio_get_work, get_upstream_work_404 H hex2bin hex2bin_raw bin2hex varint_encode dfuel rpc spare 1
      env calls sent log ret_work hgbt hno hpk (h404 calls)]
    simp only []
    rw [if_neg (by omega)]
    exact ih _ _ _ _ _ _

theorem workio_get_work_404_retries (H : List Nat → List Nat)
    (hex2bin : String → Nat → Option (List Nat))
    (hex2bin_raw : String → Nat → List Nat → List Nat)
    (bin2hex : List Nat → String) (varint_encode : Nat → List Nat) (dfuel : Nat)
    (rpc : RpcBody → Nat → RpcReply) (spare : List Nat) (R : Nat) (env : GbtEnv)
    (hgbt : env.have_gbt = true) (hno : env.allow_getwork = false)
    (hpk : 0 < env.pk_script.length)
    (h404 : ∀ k, rpc RpcBody.gbt_req k = { val := none, err := 0 }) :
    ∀ (m fuel calls failures : Nat) (sent : List RpcBody) (log : List String) (sleeps : Nat)
      (ret_work : Work), failures + m = R → m < fuel →
      workio_get_work H hex2bin hex2bin_raw bin2hex varint_encode dfuel rpc false spare (R : Int) fuel
        env calls failures sent log sleeps ret_work =
      some { rc := false, work := none, env := env,
             sent := sent ++ List.replicate (m + 1) RpcBody.gbt_req,
             log := log ++ List.replicate m "json_rpc_call failed, retry after %d seconds" ++
               ["json_rpc_call failed, terminating workio thread"],
             sleeps := sleeps + m } := by
  intro m
  induction m with
  | zero =>
    intro fuel calls failures sent log sleeps ret_work hf hfuel
    obtain ⟨f, rfl⟩ : ∃ f, fuel = f + 1 := ⟨fuel - 1, by omega⟩
    rw [workio_get_work, get_upstream_work_404 H hex2bin hex2bin_raw bin2hex varint_encode dfuel rpc spare 1
      env calls sent log ret_work hgbt hno hpk (h404 calls)]
    simp only []
    rw [if_pos (by omega)]
    simp
  | succ m ih =>
    intro fuel calls failures sent log sleeps ret_work hf hfuel
    obtain ⟨f, rfl⟩ : ∃ f, fuel = f + 1 := ⟨fuel - 1, by omega⟩
    rw [workio_get_work, get_upstream_work_404 H hex2bin hex2bin_raw bin2hex varint_encode dfuel rpc spare 1
      env calls sent log ret_work hgbt hno hpk (h404 calls)]
    simp only []
    rw [if_neg (by omega), if_pos (by omega)]
    rw [ih f (calls + 1) (failures + 1) _ _ _ ret_work (by omega) (by omega)]
    have h1 : (sent ++ [RpcBody.gbt_req]) ++ List.replicate (m + 1) RpcBody.gbt_req =
        sent ++ List.replicate (m + 1 + 1) RpcBody.gbt_req := by
      rw [List.append_assoc]; rfl
    have h2 : log ++ ["json_rpc_call failed, retry after %d seconds"] ++
        List.replicate m "json_rpc_call failed, retry after %d seconds" =
        log ++ List.replicate (m + 1) "json_rpc_call failed, retry after %d seconds" := by
      rw [List.append_assoc]; rfl
    have h3 : sleeps + 1 + m = sleeps + (m + 1) := by omega
    rw [h1, h2, h3]

set_option maxRecDepth 1000000 in
/-- C12 (as stated) fails: with GBT enabled, getwork disallowed and a server
that answers getblocktemplate with HTTP 404, `get_upstream_work` returns false
without any message and with `have_gbt` still set; with the default
`opt_retries = -1` the loop of `workio_get_work` has not returned after 50
calls, and with `opt_retries = 3` it returns false only after four calls and
three pauses, never reporting "No usable protocol". -/
theorem no_getwork_404_counterexample :
    sample_env_no_getwork.have_gbt = true ∧ sample_env_no_getwork.allow_getwork = false ∧
    sample_rpc_404 RpcBody.gbt_req 0 = { val := none, err := 0 } ∧
    (get_upstream_work toy_hash toy_hex2bin toy_hex2bin_raw bin2hex varint_encode 100 sample_rpc_404 false []
      2 sample_env_no_getwork 0 [] [] zero_work).map
        (fun r => (r.outcome, r.log, r.env.have_gbt)) = some (some false, [], true) ∧
    workio_get_work toy_hash toy_hex2bin toy_hex2bin_raw bin2hex varint_encode 100 sample_rpc_404 false []
      (-1) 50 sample_env_no_getwork 0 0 [] [] 0 zero_work = none ∧
    (workio_get_work toy_hash toy_hex2bin toy_hex2bin_raw bin2hex varint_encode 100 sample_rpc_404 false []
      3 50 sample_env_no_getwork 0 0 [] [] 0 zero_work).map
        (fun r => (r.rc, r.sent, r.sleeps, r.log)) =
      some (false, List.replicate 4 RpcBody.gbt_req, 3,
        ["json_rpc_call failed, retry after %d seconds",
         "json_rpc_call failed, retry after %d seconds",
         "json_rpc_call failed, retry after %d seconds",
         "json_rpc_call failed, terminating workio thread"]) := by
  refine ⟨rfl, rfl, rfl, ?_, ?_, ?_⟩
  · decide
  · decide
  · decide

/-- C12 (amended): in non-Stratum mode with GBT enabled, `allow_getwork`
false and a server that answers every getblocktemplate call with HTTP 404,
`get_upstream_work` returns false after the one GBT request, writes no
message and leaves `have_gbt` set ("No usable protocol" is what it reports
when `have_gbt` is false and `allow_getwork` is false); `workio_get_work`
pauses and calls again: with `opt_retries < 0` (the default is -1) it never
returns, and with `opt_retries = R >= 0` it returns false after `R + 1` calls
and `R` pauses. -/
theorem workio_get_work_no_getwork (H : List Nat → List Nat)
    (hex2bin : String → Nat → Option (List Nat))
    (hex2bin_raw : String → Nat → List Nat → List Nat)
    (bin2hex : List Nat → String) (varint_encode : Nat → List Nat) (dfuel : Nat)
    (rpc : RpcBody → Nat → RpcReply) (spare : List Nat) (env : GbtEnv)
    (hgbt : env.have_gbt = true) (hno : env.allow_getwork = false)
    (hpk : 0 < env.pk_script.length)
    (h404 : ∀ k, rpc RpcBody.gbt_req k = { val := none, err := 0 }) :
    (∀ (fuel calls : Nat) (sent : List RpcBody) (log : List String) (work : Work),
      get_upstream_work H hex2bin hex2bin_raw bin2hex varint_encode dfuel rpc false spare (fuel + 1)
          env calls sent log work =
        some { outcome := some false, work := none, left := work, env := env, lp_id := none,
               lp_push := none, sent := sent ++ [RpcBody.gbt_req], log := log,
               calls := calls + 1 }) ∧
    (∀ (fuel calls : Nat) (sent : List RpcBody) (log : List String) (work : Work),
      get_upstream_work H hex2bin hex2bin_raw bin2hex varint_encode dfuel rpc false spare (fuel + 1)
          { env with have_gbt := false } calls sent log work =
        some { outcome := some false, work := none, left := work, env := { env with have_gbt := false },
               lp_id := none, lp_push := none, sent := sent ++ [RpcBody.getwork_req],
               log := log ++ ["No usable protocol"], calls := calls + 1 }) ∧
    (∀ (opt_retries : Int) (fuel : Nat), opt_retries < 0 →
      workio_get_work H hex2bin hex2bin_raw bin2hex varint_encode dfuel rpc false spare opt_retries fuel
        env 0 0 [] [] 0 zero_work = none) ∧
    (∀ (R fuel : Nat), R < fuel →
      workio_get_work H hex2bin hex2bin_raw bin2hex varint_encode dfuel rpc false spare (R : Int) fuel
        env 0 0 [] [] 0 zero_work =
      some { rc := false, work := none, env := env,
             sent := List.replicate (R + 1) RpcBody.gbt_req,
             log := List.replicate R "json_rpc_call failed, retry after %d seconds" ++
               ["json_rpc_call failed, terminating workio thread"],
             sleeps := R }) := by
  refine ⟨?_, ?_, ?_, ?_⟩
  · intro fuel calls sent log work
    exact get_upstream_work_404 H hex2bin hex2bin_raw bin2hex varint_encode dfuel rpc spare fuel env calls
      sent log work hgbt hno hpk (h404 calls)
  · intro fuel calls sent log work
    rw [get_upstream_work]
    simp [hno]
  · intro opt_retries fuel hneg
    exact workio_get_work_404_forever H hex2bin hex2bin_raw bin2hex varint_encode dfuel rpc spare
      opt_retries env hgbt hno hpk h404 hneg fuel 0 0 [] [] 0 zero_work
  · intro R fuel hfuel
    have h := workio_get_work_404_retries H hex2bin hex2bin_raw bin2hex varint_encode dfuel rpc spare R env
      hgbt hno hpk h404 R fuel 0 0 [] [] 0 zero_work (by omega) hfuel
    simpa using h

/-- Witness for the amended C12: the sample globals with getwork disallowed,
against the server without getblocktemplate. -/
theorem workio_get_work_no_getwork_witness :
    (∀ (opt_retries : Int) (fuel : Nat), opt_retries < 0 →
      workio_get_work toy_hash toy_hex2bin toy_hex2bin_raw bin2hex varint_encode 100 sample_rpc_404 false []
        opt_retries fuel sample_env_no_getwork 0 0 [] [] 0 zero_work = none) ∧
    (∀ (R fuel : Nat), R < fuel →
      workio_get_work toy_hash toy_hex2bin toy_hex2bin_raw bin2hex varint_encode 100 sample_rpc_404 false []
        (R : Int) fuel sample_env_no_getwork 0 0 [] [] 0 zero_work =
      some { rc := false, work := none, env := sample_env_no_getwork,
             sent := List.replicate (R + 1) RpcBody.gbt_req,
             log := List.replicate R "json_rpc_call failed, retry after %d seconds" ++
               ["json_rpc_call failed, terminating workio thread"],
             sleeps := R }) :=
  (workio_get_work_no_getwork toy_hash toy_hex2bin toy_hex2bin_raw bin2hex varint_encode 100 sample_rpc_404 []
    sample_env_no_getwork rfl rfl (by decide) (fun _ => rfl)).2.2

set_option maxRecDepth 1000000 in
/-- The one `ret_work` of `workio_get_work` keeps what a failed call wrote: a
template without `version` is rejected after its height 700000 was stored;
the next call falls back to getwork, and the work handed to the worker
carries that height. -/
theorem workio_get_work_reuses_work :
    (gbt_work_decode toy_hash toy_hex2bin bin2hex varint_encode 100 sample_env []
      { sample_template with version := none } zero_work).map
        (fun r => (r.rc, r.left.height)) = some (false, 700000) ∧
    (workio_get_work toy_hash toy_hex2bin toy_hex2bin_raw bin2hex varint_encode 100
      sample_rpc_retry false [] (-1) 5 sample_env 0 0 [] [] 0 zero_work).map
        (fun r => (r.rc, r.sent, r.work.map (fun w => w.height))) =
      some (true, [RpcBody.gbt_req, RpcBody.gbt_req, RpcBody.getwork_req], some 700000) := by
  refine ⟨?_, ?_⟩ <;> decide

/-! ## Theorems: slot writes and the restart flags -/

theorem slot_run_append (a b : List SlotStep) (s : SlotState) :
    slot_run (a ++ b) s = slot_run b (slot_run a s) := by
  simp [slot_run, List.foldl_append]

theorem replicate_drop_set (l : List Bool) (m : Nat) (h : m < l.length) :
    (List.replicate m true ++ l.drop m).set m true =
      List.replicate (m + 1) true ++ l.drop (m + 1) := by
  induction m generalizing l with
  | zero =>
    cases l with
    | nil => simp at h
    | cons a t => simp
  | succ m ih =>
    cases l with
    | nil => simp at h
    | cons a t =>
      have := ih t (by simpa using h)
      simp only [List.replicate_succ, List.cons_append, List.set_cons_succ, List.drop_succ_cons]
      rw [this]
      simp [List.replicate_succ]

theorem slot_run_restart_range (s : SlotState) :
    ∀ m, m ≤ s.restart.length →
      slot_run ((List.range m).map SlotStep.set_restart) s =
        { s with restart := List.replicate m true ++ s.restart.drop m } := by
  intro m
  induction m with
  | zero => intro _; simp [slot_run]
  | succ m ih =>
    intro hm
    rw [List.range_succ, List.map_append, slot_run_append, ih (by omega)]
    simp only [List.map_cons, List.map_nil, slot_run, List.foldl_cons, List.foldl_nil, slot_step]
    rw [replicate_drop_set _ _ (by omega)]

theorem slot_run_restart_threads (s : SlotState) :
    slot_run (restart_threads s.restart.length) s =
      { s with restart := List.replicate s.restart.length true } := by
  unfold restart_threads
  rw [slot_run_restart_range s _ (le_refl _)]
  simp

theorem before_unlock_append (l r : List SlotStep) (h : ∀ x ∈ l, x ≠ SlotStep.unlock) :
    before_unlock (l ++ SlotStep.unlock :: r) = l := by
  induction l with
  | nil => rfl
  | cons a t ih =>
    have ha : a ≠ SlotStep.unlock := h a (by simp)
    have ht := ih (fun x hx => h x (by simp [hx]))
    cases a with
    | unlock => exact absurd rfl ha
    | lock => show _ :: before_unlock (t ++ SlotStep.unlock :: r) = _; rw [ht]
    | write_slot => show _ :: before_unlock (t ++ SlotStep.unlock :: r) = _; rw [ht]
    | write_time => show _ :: before_unlock (t ++ SlotStep.unlock :: r) = _; rw [ht]
    | set_restart k => show _ :: before_unlock (t ++ SlotStep.unlock :: r) = _; rw [ht]
    | clear_restart k => show _ :: before_unlock (t ++ SlotStep.unlock :: r) = _; rw [ht]

theorem restart_threads_no_unlock (n : Nat) :
    ∀ x ∈ restart_threads n, x ≠ SlotStep.unlock := by
  intro x hx
  unfold restart_threads at hx
  rw [List.mem_map] at hx
  obtain ⟨k, _, rfl⟩ := hx
  intro h
  cases h

/-- C16 (as stated) fails: with two scanning workers, when the Stratum task
writes the slot for a job with `clean` set, no flag is set at the moment it
releases the lock; a worker that regenerates or refetches the slot sets no
flag at all; and a long-poll reply that fails to decode leaves the slot
written with no flag set. -/
theorem slot_restart_counterexample :
    slot_run (before_unlock (stratum_notify 2 true)) (scanning_state 2) =
      { locked := true, restart := [false, false], writes := 1 } ∧
    slot_run (stratum_notify 2 false) (scanning_state 2) =
      { locked := false, restart := [false, false], writes := 1 } ∧
    slot_run (miner_refresh_stratum 0 true) (scanning_state 2) =
      { locked := false, restart := [false, false], writes := 1 } ∧
    slot_run (miner_refresh_getwork 0 true true) (scanning_state 2) =
      { locked := false, restart := [false, false], writes := 1 } ∧
    slot_run (longpoll_push 2 false) (scanning_state 2) =
      { locked := false, restart := [false, false], writes := 1 } := by
  decide

/-- C16 (amended): with N flags, a long-poll reply that decodes writes the
slot and has every flag `k < N` set when it releases the lock; a long-poll
reply that fails to decode writes the slot and changes no flag; the Stratum
task writes the slot and releases the lock with the flags unchanged, and has
set every flag afterwards exactly when the job has `clean` set; a worker that
refreshes or regenerates the slot sets no flag: at its release of the lock the
flags are unchanged and afterwards only its own flag is cleared. -/
theorem slot_write_restart_flags (s : SlotState) (thr_id : Nat) :
    slot_run (before_unlock (longpoll_push s.restart.length true)) s =
      { locked := true, restart := List.replicate s.restart.length true,
        writes := s.writes + 1 } ∧
    slot_run (before_unlock (longpoll_push s.restart.length false)) s =
      { locked := true, restart := s.restart, writes := s.writes + 1 } ∧
    (∀ clean, slot_run (before_unlock (stratum_notify s.restart.length clean)) s =
      { locked := true, restart := s.restart, writes := s.writes + 1 }) ∧
    slot_run (stratum_notify s.restart.length true) s =
      { locked := false, restart := List.replicate s.restart.length true,
        writes := s.writes + 1 } ∧
    slot_run (stratum_notify s.restart.length false) s =
      { locked := false, restart := s.restart, writes := s.writes + 1 } ∧
    slot_run (before_unlock (miner_refresh_stratum thr_id true)) s =
      { locked := true, restart := s.restart, writes := s.writes + 1 } ∧
    slot_run (miner_refresh_stratum thr_id true) s =
      { locked := false, restart := s.restart.set thr_id false, writes := s.writes + 1 } ∧
    slot_run (before_unlock (miner_refresh_getwork thr_id true true)) s =
      { locked := true, restart := s.restart, writes := s.writes + 1 } ∧
    slot_run (miner_refresh_getwork thr_id true true) s =
      { locked := false, restart := s.restart.set thr_id false, writes := s.writes + 1 } := by
  have hlp : before_unlock (longpoll_push s.restart.length true) =
      [SlotStep.lock, SlotStep.write_slot, SlotStep.write_time] ++
        restart_threads s.restart.length := by
    have : longpoll_push s.restart.length true =
        ([SlotStep.lock, SlotStep.write_slot, SlotStep.write_time] ++
          restart_threads s.restart.length) ++ SlotStep.unlock :: [] := by
      simp [longpoll_push]
    rw [this, before_unlock_append]
    intro x hx
    rw [List.mem_append] at hx
    rcases hx with hx | hx
    · simp at hx
      rcases hx with rfl | rfl | rfl <;> simp
    · exact restart_threads_no_unlock _ x hx
  refine ⟨?_, rfl, ?_, ?_, rfl, rfl, rfl, rfl, rfl⟩
  · rw [hlp, slot_run_append]
    exact slot_run_restart_threads
      (slot_run [SlotStep.lock, SlotStep.write_slot, SlotStep.write_time] s)
  · intro clean
    cases clean <;> rfl
  · have : stratum_notify s.restart.length true =
        [SlotStep.lock, SlotStep.write_slot, SlotStep.write_time, SlotStep.unlock] ++
          restart_threads s.restart.length := rfl
    rw [this, slot_run_append]
    exact slot_run_restart_threads
      (slot_run [SlotStep.lock, SlotStep.write_slot, SlotStep.write_time, SlotStep.unlock] s)

/-- Witness for the amended C16: three scanning workers, worker 1. -/
theorem slot_write_restart_flags_witness :
    slot_run (before_unlock (longpoll_push 3 true)) (scanning_state 3) =
      { locked := true, restart := [true, true, true], writes := 1 } ∧
    slot_run (stratum_notify 3 true) (scanning_state 3) =
      { locked := false, restart := [true, true, true], writes := 1 } ∧
    slot_run (miner_refresh_stratum 1 true) { scanning_state 3 with restart := [true, true, true] } =
      { locked := false, restart := [true, false, true], writes := 1 } :=
  ⟨(slot_write_restart_flags (scanning_state 3) 1).1,
    (slot_write_restart_flags (scanning_state 3) 1).2.2.2.1,
    (slot_write_restart_flags { scanning_state 3 with restart := [true, true, true] }
      1).2.2.2.2.2.2.1⟩

/-! ## Theorems: the coinbase stays inside its buffer -/

theorem cbtx_store_inside (c : CbtxBuf) (content : List Nat) (i : Nat) (bs : List Nat)
    (h : c.holds content) (hi : i + bs.length ≤ content.length) :
    ∃ c1, cbtx_store c i bs = BufRun.built c1 ∧
      c1.holds (content.take i ++ bs ++ content.drop (i + bs.length)) ∧
      c1.bytes.drop c1.size = c.bytes.drop c.size := by
  obtain ⟨hlen, hsize, htake⟩ := h
  have hs : c.size ≤ 256 := by
    have := congrArg List.length htake
    rw [List.length_take, hlen] at this
    omega
  refine ⟨{ c with bytes := c.bytes.take i ++ bs ++ c.bytes.drop (i + bs.length) }, ?_, ?_, ?_⟩
  · unfold cbtx_store bytes_store
    rw [if_pos (by omega)]
  · refine ⟨?_, ?_, ?_⟩
    · simp only [List.length_append, List.length_take, List.length_drop]
      omega
    · simp only [List.length_append, List.length_take, List.length_drop]
      omega
    · subst htake
      apply List.ext_getElem?
      intro k
      simp only [List.getElem?_take, List.getElem?_append, List.getElem?_drop, List.length_take,
        List.length_append, List.length_drop]
      split_ifs <;> first | rfl | omega | (congr 1; omega)
  · apply List.ext_getElem?
    intro k
    simp only [List.getElem?_take, List.getElem?_append, List.getElem?_drop, List.length_take,
      List.length_append, List.length_drop]
    split_ifs <;> first | rfl | omega | (congr 1; omega)

theorem cbtx_push_inside (c : CbtxBuf) (content bs : List Nat)
    (h : c.holds content) (hi : content.length + bs.length ≤ 256) :
    ∃ c1, cbtx_push c bs = BufRun.built c1 ∧ c1.holds (content ++ bs) := by
  obtain ⟨hlen, hsize, htake⟩ := h
  have hs : c.size ≤ 256 := by omega
  refine ⟨{ bytes := c.bytes.take c.size ++ bs ++ c.bytes.drop (c.size + bs.length),
            size := c.size + bs.length }, ?_, ?_, ?_, ?_⟩
  · unfold cbtx_push cbtx_store bytes_store
    rw [if_pos (by omega)]
    rfl
  · simp only [List.length_append, List.length_take, List.length_drop]
    omega
  · simp only [List.length_append]
    omega
  · subst htake
    apply List.ext_getElem?
    intro k
    simp only [List.getElem?_take, List.getElem?_append, List.getElem?_drop, List.length_take,
      List.length_append, List.length_drop]
    split_ifs <;> first | rfl | omega | (symm; rw [List.getElem?_eq_none_iff]; omega)

theorem cbtx_push_outside (c : CbtxBuf) (content bs : List Nat)
    (h : c.holds content) (hi : 256 < content.length + bs.length) :
    cbtx_push c bs = BufRun.overflow := by
  obtain ⟨hlen, hsize, -⟩ := h
  unfold cbtx_push cbtx_store bytes_store
  rw [if_neg (by omega)]
  rfl

set_option maxRecDepth 100000 in
theorem gbt_cbtx_head_holds :
    ∃ c, gbt_cbtx_head = BufRun.built c ∧
      c.holds (le32enc 1 ++ [1] ++ List.replicate 32 0 ++ le32enc 0xffffffff ++ [0, 0]) :=
  ⟨_, rfl, by unfold CbtxBuf.holds; decide⟩

theorem bip34_loop_acc : ∀ (fuel : Nat) (n : Int) (out : List Nat),
    bip34_loop fuel n out = (bip34_loop fuel n []).map (fun enc => out ++ enc) := by
  intro fuel
  induction fuel with
  | zero => intro n out; rfl
  | succ f ih =>
    intro n out
    rw [bip34_loop, bip34_loop]
    by_cases hn : n = 0
    · simp [hn]
    · rw [if_neg hn, if_neg hn]
      simp only []
      rw [ih _ (if n < 0x100 ∧ n ≥ 0x80 then out ++ [(n % 256).toNat] ++ [0]
            else out ++ [(n % 256).toNat]),
        ih _ (if n < 0x100 ∧ n ≥ 0x80 then [] ++ [(n % 256).toNat] ++ [0]
            else [] ++ [(n % 256).toNat])]
      cases bip34_loop f (n >>> 8) [] with
      | none => rfl
      | some enc =>
        simp only [Option.map_some']
        split <;> simp

theorem bip34_buf_of_loop : ∀ (fuel : Nat) (n : Int) (c : CbtxBuf) (content enc : List Nat),
    c.holds content → bip34_loop fuel n [] = some enc → content.length + enc.length ≤ 256 →
    ∃ c1, bip34_buf fuel n c = BufRun.built c1 ∧ c1.holds (content ++ enc) := by
  intro fuel
  induction fuel with
  | zero => intro n c content enc _ h; simp [bip34_loop] at h
  | succ f ih =>
    intro n c content enc hc hl hlen
    rw [bip34_loop] at hl
    rw [bip34_buf]
    by_cases hn : n = 0
    · rw [if_pos hn] at hl
      rw [if_pos hn]
      injection hl with hl
      subst hl
      exact ⟨c, rfl, by simpa using hc⟩
    · rw [if_neg hn] at hl
      rw [if_neg hn]
      simp only [] at hl
      rw [bip34_loop_acc] at hl
      cases hr : bip34_loop f (n >>> 8) [] with
      | none => rw [hr] at hl; simp at hl
      | some enc1 =>
        rw [hr] at hl
        simp only [Option.map_some', Option.some.injEq] at hl
        by_cases hs : n < 0x100 ∧ n ≥ 0x80
        · rw [if_pos hs] at hl
          subst hl
          simp only [List.nil_append, List.length_append, List.length_cons, List.length_nil]
            at hlen
          obtain ⟨c1, h1, hc1⟩ := cbtx_push_inside c content [(n % 256).toNat] hc
            (by simp; omega)
          obtain ⟨c2, h2, hc2⟩ := cbtx_push_inside c1 _ [0] hc1 (by simp; omega)
          obtain ⟨c3, h3, hc3⟩ := ih (n >>> 8) c2 _ enc1 hc2 hr (by simp; omega)
          refine ⟨c3, ?_, by simpa using hc3⟩
          rw [h1]
          simp only [BufRun.andThen]
          rw [if_pos hs, h2]
          simp only [BufRun.andThen]
          exact h3
        · rw [if_neg hs] at hl
          subst hl
          simp only [List.nil_append, List.length_append, List.length_cons, List.length_nil]
            at hlen
          obtain ⟨c1, h1, hc1⟩ := cbtx_push_inside c content [(n % 256).toNat] hc
            (by simp; omega)
          obtain ⟨c3, h3, hc3⟩ := ih (n >>> 8) c1 _ enc1 hc1 hr (by simp; omega)
          refine ⟨c3, ?_, by simpa using hc3⟩
          rw [h1]
          simp only [BufRun.andThen]
          rw [if_neg hs]
          exact h3

theorem andThen_built (c : CbtxBuf) (f : CbtxBuf → BufRun) :
    (BufRun.built c).andThen f = f c := rfl

theorem cbtx_store_pair (c : CbtxBuf) (content a b : List Nat) (hc : c.holds content)
    (ha : a.length = 4) (hb : b.length = 4) (hlen : content.length + 8 ≤ 256) :
    ∃ c6 c7, cbtx_store c c.size a = BufRun.built c6 ∧
      cbtx_store c6 (c6.size + 4) b = BufRun.built c7 ∧
      CbtxBuf.holds { c7 with size := c7.size + 8 } (content ++ a ++ b) := by
  obtain ⟨hlen0, hsize, htake⟩ := hc
  refine ⟨{ c with bytes := c.bytes.take c.size ++ a ++ c.bytes.drop (c.size + a.length) },
    { c with bytes :=
        (List.take (c.size + 4)
            (c.bytes.take c.size ++ a ++ c.bytes.drop (c.size + a.length)) ++ b ++
          List.drop (c.size + 4 + b.length)
            (c.bytes.take c.size ++ a ++ c.bytes.drop (c.size + a.length))) },
    ?_, ?_, ?_, ?_, ?_⟩
  · unfold cbtx_store bytes_store
    rw [if_pos (by omega)]
  · unfold cbtx_store bytes_store
    simp only [List.length_append, List.length_take, List.length_drop]
    rw [if_pos (by omega)]
  · simp only [List.length_append, List.length_take, List.length_drop]
    omega
  · simp only [List.length_append]
    omega
  · subst htake
    apply List.ext_getElem?
    intro k
    simp only [List.getElem?_take, List.getElem?_append, List.getElem?_drop, List.length_take,
      List.length_append, List.length_drop]
    split_ifs <;> first | rfl | omega | (congr 1; omega) |
      (symm; rw [List.getElem?_eq_none_iff]; omega)

theorem gbt_witness_buf_built (H : List Nat → List Nat)
    (hex2bin : String → Nat → Option (List Nat)) (fuel : Nat) (segwit : Bool)
    (txs : List TemplateTx) (c : CbtxBuf) (content out2 : List Nat)
    (hc : c.holds content)
    (ho : gbt_witness_output H hex2bin fuel segwit txs = some out2)
    (hlen : content.length + out2.length ≤ 256) :
    ∃ c1, gbt_witness_buf H hex2bin fuel segwit txs c = BufRun.built c1 ∧
      c1.holds (content ++ out2) := by
  unfold gbt_witness_output at ho
  unfold gbt_witness_buf
  cases segwit with
  | false =>
    simp only [Bool.false_eq_true, if_false, Option.some.injEq] at ho
    subst ho
    exact ⟨c, by simp, by simpa using hc⟩
  | true =>
    simp only [if_true] at ho
    cases hcm : gbt_witness_commitment H hex2bin fuel txs with
    | none => rw [hcm] at ho; simp at ho
    | some cm =>
      rw [hcm] at ho
      simp only [Option.map_some', Option.some.injEq] at ho
      subst ho
      have hleaves : ∃ lv, gbt_witness_leaves hex2bin txs = some lv := by
        unfold gbt_witness_commitment at hcm
        cases hl : gbt_witness_leaves hex2bin txs with
        | none => rw [hl] at hcm; simp at hcm
        | some lv => exact ⟨lv, rfl⟩
      obtain ⟨lv, hlv⟩ := hleaves
      simp only [List.length_append, List.length_replicate, List.length_cons,
        List.length_nil] at hlen
      obtain ⟨c1, h1, hc1⟩ := cbtx_push_inside c content (List.replicate 8 0) hc
        (by simp; omega)
      obtain ⟨c2, h2, hc2⟩ := cbtx_push_inside c1 _ [38] hc1 (by simp; omega)
      obtain ⟨c3, h3, hc3⟩ := cbtx_push_inside c2 _ [0x6a] hc2 (by simp; omega)
      obtain ⟨c4, h4, hc4⟩ := cbtx_push_inside c3 _ [0x24] hc3 (by simp; omega)
      obtain ⟨c5, h5, hc5⟩ := cbtx_push_inside c4 _ [0xaa] hc4 (by simp; omega)
      obtain ⟨c6, h6, hc6⟩ := cbtx_push_inside c5 _ [0x21] hc5 (by simp; omega)
      obtain ⟨c7, h7, hc7⟩ := cbtx_push_inside c6 _ [0xa9] hc6 (by simp; omega)
      obtain ⟨c8, h8, hc8⟩ := cbtx_push_inside c7 _ [0xed] hc7 (by simp; omega)
      obtain ⟨c9, h9, hc9⟩ := cbtx_push_inside c8 _ cm hc8 (by simp; omega)
      refine ⟨c9, ?_, by simpa [List.append_assoc] using hc9⟩
      simp only [if_true, h1, h2, h3, h4, h5, h6, h7, h8, BufRun.andThen, hlv, hcm]
      exact h9

theorem gbt_cbtx_head_fix (enc : List Nat) (a b : List Nat) (ha : a.length = 1)
    (hb : b.length = 1) :
    (((le32enc 1 ++ [1] ++ List.replicate 32 0 ++ le32enc 0xffffffff ++ [0, 0] ++ enc).take 42 ++
        a ++ (le32enc 1 ++ [1] ++ List.replicate 32 0 ++ le32enc 0xffffffff ++ [0, 0] ++
          enc).drop (42 + a.length)).take 41 ++ b ++
      ((le32enc 1 ++ [1] ++ List.replicate 32 0 ++ le32enc 0xffffffff ++ [0, 0] ++ enc).take 42 ++
        a ++ (le32enc 1 ++ [1] ++ List.replicate 32 0 ++ le32enc 0xffffffff ++ [0, 0] ++
          enc).drop (42 + a.length)).drop (41 + b.length)) =
      le32enc 1 ++ [1] ++ List.replicate 32 0 ++ le32enc 0xffffffff ++ b ++ (a ++ enc) := by
  match a, ha, b, hb with
  | [x], _, [y], _ => rfl

theorem gbt_coinbase_buf_stem (H : List Nat → List Nat)
    (hex2bin : String → Nat → Option (List Nat)) (fuel : Nat)
    (height cbvalue : Int) (pk_script : List Nat) (segwit : Bool)
    (txs : List TemplateTx) (enc : List Nat)
    (hl : bip34_loop fuel height [] = some enc)
    (hlen : 61 + enc.length + pk_script.length ≤ 256) :
    ∃ c9, gbt_coinbase_buf H hex2bin fuel height cbvalue pk_script segwit txs =
        (gbt_witness_buf H hex2bin fuel segwit txs c9).andThen
          (fun c10 => cbtx_push c10 (le32enc 0)) ∧
      c9.holds (le32enc 1 ++ [1] ++ List.replicate 32 0 ++ le32enc 0xffffffff ++
        [(enc.length % 256 :: enc).length % 256] ++ (enc.length % 256 :: enc) ++
        le32enc 0xffffffff ++ [if segwit then 2 else 1] ++
        le32enc (cbvalue % 2 ^ 32).toNat ++ le32enc ((cbvalue >>> 32) % 2 ^ 32).toNat ++
        [pk_script.length % 256] ++ pk_script) := by
  obtain ⟨c0, h0, hc0⟩ := gbt_cbtx_head_holds
  obtain ⟨c1, h1, hc1⟩ := bip34_buf_of_loop fuel height c0 _ enc hc0 hl
    (by simp [le32enc]; omega)
  have hs1 : c1.size = 43 + enc.length := by
    rw [hc1.2.1]; simp [le32enc]; omega
  obtain ⟨c2, h2, hc2, -⟩ := cbtx_store_inside c1 _ 42 [(c1.size - 43) % 256] hc1
    (by simp [le32enc])
  have hs2 : c2.size = 43 + enc.length := by
    rw [hc2.2.1]; simp [le32enc]; omega
  obtain ⟨c3, h3, hc3, -⟩ := cbtx_store_inside c2 _ 41 [(c2.size - 42) % 256] hc2
    (by simp [le32enc])
  rw [gbt_cbtx_head_fix enc [(c1.size - 43) % 256] [(c2.size - 42) % 256] rfl rfl] at hc3
  obtain ⟨c4, h4, hc4⟩ := cbtx_push_inside c3 _ (le32enc 0xffffffff) hc3
    (by simp [le32enc]; omega)
  obtain ⟨c5, h5, hc5⟩ := cbtx_push_inside c4 _ [if segwit then 2 else 1] hc4
    (by simp [le32enc]; omega)
  obtain ⟨c6, c7, h6, h7, hc7⟩ := cbtx_store_pair c5 _ (le32enc (cbvalue % 2 ^ 32).toNat)
    (le32enc ((cbvalue >>> 32) % 2 ^ 32).toNat) hc5 rfl rfl (by simp [le32enc]; omega)
  obtain ⟨c8, h8, hc8⟩ := cbtx_push_inside _ _ [pk_script.length % 256] hc7
    (by simp [le32enc]; omega)
  obtain ⟨c9, h9, hc9⟩ := cbtx_push_inside c8 _ pk_script hc8
    (by simp [le32enc]; omega)
  refine ⟨c9, ?_, ?_⟩
  · unfold gbt_coinbase_buf
    rw [h0, andThen_built, h1, andThen_built, h2, andThen_built, h3,
      andThen_built, h4, andThen_built, h5, andThen_built, h6,
      andThen_built, h7, andThen_built, h8, andThen_built, h9,
      andThen_built]
  · have e1 : 43 + enc.length - 43 = enc.length := by omega
    have e2 : 43 + enc.length - 42 = enc.length + 1 := by omega
    simpa [hs1, hs2, e1, e2, List.append_assoc] using hc9

theorem gbt_coinbase_buf_built (H : List Nat → List Nat)
    (hex2bin : String → Nat → Option (List Nat)) (fuel : Nat)
    (height cbvalue : Int) (pk_script : List Nat) (segwit : Bool)
    (txs : List TemplateTx) (cb : List Nat)
    (hcb : gbt_coinbase H hex2bin fuel height cbvalue pk_script segwit txs = some cb)
    (hlen : cb.length ≤ 256) :
    ∃ c, gbt_coinbase_buf H hex2bin fuel height cbvalue pk_script segwit txs =
        BufRun.built c ∧ c.holds cb := by
  obtain ⟨push, out2, hpush, hout, rfl⟩ :=
    gbt_coinbase_eq H hex2bin fuel height cbvalue pk_script segwit txs cb hcb
  unfold bip34_push at hpush
  cases hl : bip34_loop fuel height [] with
  | none => rw [hl] at hpush; simp at hpush
  | some enc =>
    rw [hl] at hpush
    simp only [Option.map_some', Option.some.injEq] at hpush
    subst hpush
    have hlen2 := hlen
    simp only [List.length_append, List.length_cons, List.length_nil, List.length_replicate,
      le32enc] at hlen2
    obtain ⟨c9, h9, hc9⟩ := gbt_coinbase_buf_stem H hex2bin fuel height cbvalue pk_script
      segwit txs enc hl (by omega)
    obtain ⟨c10, h10, hc10⟩ := gbt_witness_buf_built H hex2bin fuel segwit txs c9 _ out2 hc9
      hout (by simp [le32enc]; omega)
    obtain ⟨c11, h11, hc11⟩ := cbtx_push_inside c10 _ (le32enc 0) hc10
      (by simp [le32enc]; omega)
    exact ⟨c11, by rw [h9, h10, andThen_built]; exact h11, hc11⟩

theorem gbt_witness_buf_rejected (H : List Nat → List Nat)
    (hex2bin : String → Nat → Option (List Nat)) (fuel : Nat)
    (txs : List TemplateTx) (c : CbtxBuf) (content : List Nat)
    (hc : c.holds content) (hl : gbt_witness_leaves hex2bin txs = none)
    (hlen : content.length + 15 ≤ 256) :
    gbt_witness_buf H hex2bin fuel true txs c = BufRun.rejected := by
  obtain ⟨c1, h1, hc1⟩ := cbtx_push_inside c content (List.replicate 8 0) hc
    (by simp; omega)
  obtain ⟨c2, h2, hc2⟩ := cbtx_push_inside c1 _ [38] hc1 (by simp; omega)
  obtain ⟨c3, h3, hc3⟩ := cbtx_push_inside c2 _ [0x6a] hc2 (by simp; omega)
  obtain ⟨c4, h4, hc4⟩ := cbtx_push_inside c3 _ [0x24] hc3 (by simp; omega)
  obtain ⟨c5, h5, hc5⟩ := cbtx_push_inside c4 _ [0xaa] hc4 (by simp; omega)
  obtain ⟨c6, h6, hc6⟩ := cbtx_push_inside c5 _ [0x21] hc5 (by simp; omega)
  obtain ⟨c7, h7, hc7⟩ := cbtx_push_inside c6 _ [0xa9] hc6 (by simp; omega)
  obtain ⟨c8, h8, hc8⟩ := cbtx_push_inside c7 _ [0xed] hc7 (by simp; omega)
  unfold gbt_witness_buf
  rw [if_pos rfl, h1, andThen_built, h2, andThen_built, h3, andThen_built,
    h4, andThen_built, h5, andThen_built, h6, andThen_built, h7,
    andThen_built, h8, andThen_built, hl]

theorem bytes_store_length (B : List Nat) (i : Nat) (bs : List Nat)
    (h : i + bs.length ≤ B.length) : (bytes_store B i bs).length = B.length := by
  unfold bytes_store
  simp only [List.length_append, List.length_take, List.length_drop]
  omega

theorem cbtx_store_ok (c : CbtxBuf) (i : Nat) (bs : List Nat)
    (h : i + bs.length ≤ c.bytes.length) :
    cbtx_store c i bs = BufRun.built { c with bytes := bytes_store c.bytes i bs } := by
  unfold cbtx_store
  rw [if_pos h]

theorem bytes_store_getElem (B : List Nat) (i : Nat) (bs : List Nat) (k : Nat)
    (h : i + bs.length ≤ B.length) :
    (bytes_store B i bs)[k]? =
      if k < i then B[k]? else if k < i + bs.length then bs[k - i]? else B[k]? := by
  unfold bytes_store
  have hmin : min i B.length = i := by omega
  simp only [List.getElem?_take, List.getElem?_append, List.getElem?_drop, List.length_take,
    List.length_append, hmin]
  split_ifs <;> first | rfl | omega | (congr 1; omega)

theorem bytes_store_nil (B : List Nat) (e : Nat) : bytes_store B e [] = B := by
  unfold bytes_store
  simp

theorem append_layout (B : List Nat) (s e n v : Nat) (G xsig : List Nat)
    (hB : B.length = 256) (hes : e ≤ s) (h41 : 41 < e) (hn : n = G.length + xsig.length)
    (hsn : s + n ≤ 256) :
    (bytes_store (bytes_store (bytes_store (bytes_store B (e + n) ((B.drop e).take (s - e)))
      41 [v]) e G) (e + G.length) xsig).length = 256 ∧
    (bytes_store (bytes_store (bytes_store (bytes_store B (e + n) ((B.drop e).take (s - e)))
      41 [v]) e G) (e + G.length) xsig).take (s + n) =
      ((B.take s).take e).set 41 v ++ G ++ xsig ++ (B.take s).drop e := by
  have hT : ((B.drop e).take (s - e)).length = s - e := by
    rw [List.length_take, List.length_drop]; omega
  have l1 : (bytes_store B (e + n) ((B.drop e).take (s - e))).length = 256 := by
    rw [bytes_store_length _ _ _ (by rw [hT]; omega), hB]
  have l2 : (bytes_store (bytes_store B (e + n) ((B.drop e).take (s - e))) 41 [v]).length =
      256 := by
    rw [bytes_store_length _ _ _ (by rw [l1]; simp), l1]
  have l3 : (bytes_store (bytes_store (bytes_store B (e + n) ((B.drop e).take (s - e)))
      41 [v]) e G).length = 256 := by
    rw [bytes_store_length _ _ _ (by rw [l2]; omega), l2]
  have l5 : (bytes_store (bytes_store (bytes_store (bytes_store B (e + n)
      ((B.drop e).take (s - e))) 41 [v]) e G) (e + G.length) xsig).length = 256 := by
    rw [bytes_store_length _ _ _ (by rw [l3]; omega), l3]
  refine ⟨l5, ?_⟩
  apply List.ext_getElem?
  intro k
  rw [List.getElem?_take]
  rw [bytes_store_getElem _ _ _ _ (by rw [l3]; omega)]
  rw [bytes_store_getElem _ _ _ _ (by rw [l2]; omega)]
  rw [bytes_store_getElem _ _ _ _ (by rw [l1]; simp)]
  rw [bytes_store_getElem _ _ _ _ (by rw [hT]; omega)]
  simp only [List.getElem?_append, List.getElem?_set, List.getElem?_take, List.getElem?_drop,
    List.length_append, List.length_set, List.length_take, List.length_drop, hB, hT,
    List.length_cons, List.length_nil]
  have hmin : min e (min s 256) = e := by omega
  simp only [hmin]
  subst hn
  by_cases r1 : k < 41
  · have f1 : k < s + (G.length + xsig.length) := by omega
    have f2 : k < e + G.length := by omega
    have f3 : k < e := by omega
    have f4 : k < e + (G.length + xsig.length) := by omega
    have f5 : k < e + G.length + xsig.length := by omega
    have f6 : ¬ 41 = k := by omega
    have f7 : k < s := by omega
    simp only [r1, f1, f2, f3, f4, f5, f6, f7, if_true, if_false]
  by_cases r2 : k = 41
  · subst r2
    have f1 : 41 < s + (G.length + xsig.length) := by omega
    have f2 : 41 < e + G.length := by omega
    have f5 : 41 < e + G.length + xsig.length := by omega
    have f6 : 41 < 41 + (0 + 1) := by omega
    have f7 : ¬ (41 < 41) := by omega
    simp only [f1, f2, h41, f5, f6, f7, if_true, if_false]
    rfl
  by_cases r3 : k < e
  · have f1 : k < s + (G.length + xsig.length) := by omega
    have f2 : k < e + G.length := by omega
    have f4 : k < e + (G.length + xsig.length) := by omega
    have f5 : k < e + G.length + xsig.length := by omega
    have f6 : ¬ 41 = k := by omega
    have f7 : k < s := by omega
    have f8 : ¬ k < 41 + (0 + 1) := by omega
    simp only [r1, r3, f1, f2, f4, f5, f6, f7, f8, if_true, if_false]
  by_cases r4 : k < e + G.length
  · have f1 : k < s + (G.length + xsig.length) := by omega
    have f5 : k < e + G.length + xsig.length := by omega
    simp only [r3, r4, f1, f5, if_true, if_false]
  by_cases r5 : k < e + G.length + xsig.length
  · have f1 : k < s + (G.length + xsig.length) := by omega
    simp only [r4, r5, f1, if_true, if_false]
  by_cases r6 : k < s + (G.length + xsig.length)
  · have f4 : ¬ k < e + (G.length + xsig.length) := by omega
    have f8 : ¬ k < 41 + (0 + 1) := by omega
    have f9 : k < e + (G.length + xsig.length) + (s - e) := by omega
    have f10 : k - (e + (G.length + xsig.length)) < s - e := by omega
    have f11 : e + (k - (e + G.length + xsig.length)) < s := by omega
    simp only [r1, r3, r4, r5, r6, f4, f8, f9, f10, f11, if_true, if_false]
    congr 1
    omega
  · have f11 : ¬ e + (k - (e + G.length + xsig.length)) < s := by omega
    simp only [r5, r6, f11, if_true, if_false]

theorem bytes_store_two (B : List Nat) (e a b : Nat) (h : e + 2 ≤ B.length) :
    bytes_store (bytes_store B e [a]) (e + 1) [b] = bytes_store B e [a, b] := by
  have l1 : (bytes_store B e [a]).length = B.length :=
    bytes_store_length B e [a] (by simp; omega)
  apply List.ext_getElem?
  intro k
  rw [bytes_store_getElem _ _ _ _ (by rw [l1]; simp; omega),
    bytes_store_getElem _ _ _ _ (by simp; omega),
    bytes_store_getElem _ _ _ _ (by simp; omega)]
  simp only [List.length_cons, List.length_nil]
  by_cases r1 : k < e
  · have f1 : k < e + 1 := by omega
    simp only [r1, f1, if_true]
  by_cases r2 : k = e
  · subst r2
    have f1 : k < k + 1 := by omega
    have f2 : k < k + (0 + 1) := by omega
    have f3 : k < k + (0 + 1 + 1) := by omega
    simp only [r1, f1, f2, f3, if_true, if_false, Nat.sub_self]
    rfl
  by_cases r3 : k = e + 1
  · subst r3
    have f1 : ¬ e + 1 < e + 1 := by omega
    have f2 : e + 1 < e + 1 + (0 + 1) := by omega
    have f3 : e + 1 < e + (0 + 1 + 1) := by omega
    have f4 : e + 1 - e = 1 := by omega
    simp only [r1, f1, f2, f3, f4, if_true, if_false, Nat.sub_self]
    rfl
  · have f1 : ¬ k < e + 1 := by omega
    have f2 : ¬ k < e + 1 + (0 + 1) := by omega
    have f3 : ¬ k < e + (0 + 1 + 1) := by omega
    have f4 : ¬ k < e + (0 + 1) := by omega
    simp only [r1, f1, f2, f3, f4, if_false]

theorem append_run_holds (c : CbtxBuf) (cb : List Nat) (L v : Nat) (xsig G : List Nat)
    (hc : c.holds cb) (he : 42 + L ≤ cb.length) (hG : G.length ≤ 2)
    (hlen : cb.length + xsig.length + 2 ≤ 256) :
    CbtxBuf.holds
      { bytes := bytes_store (bytes_store (bytes_store (bytes_store c.bytes
          (42 + L + (xsig.length + G.length))
          ((c.bytes.drop (42 + L)).take (c.size - 42 - L))) 41 [v]) (42 + L) G)
          (42 + L + G.length) xsig,
        size := c.size + (xsig.length + G.length) }
      ((cb.take (42 + L)).set 41 v ++ G ++ xsig ++ cb.drop (42 + L)) := by
  obtain ⟨hlen0, hsize, htake⟩ := hc
  have hsub : c.size - 42 - L = c.size - (42 + L) := by omega
  have hcomm : xsig.length + G.length = G.length + xsig.length := Nat.add_comm _ _
  obtain ⟨h1, h2⟩ := append_layout c.bytes c.size (42 + L) (G.length + xsig.length) v G xsig
    hlen0 (by omega) (by omega) rfl (by omega)
  rw [hsub, hcomm]
  refine ⟨h1, ?_, ?_⟩
  · simp only [List.length_append, List.length_set, List.length_take, List.length_drop]
    omega
  · rw [← htake]
    exact h2

theorem gbt_append_buf_built (hex2bin : String → Nat → Option (List Nat))
    (coinbase_sig : List Nat) (coinbaseaux : Option (List (Option String)))
    (c : CbtxBuf) (cb : List Nat) (hc : c.holds cb)
    (he : 42 + cb.getD 41 0 ≤ cb.length)
    (hlen : cb.length +
      (gbt_xsig hex2bin (cb.getD 41 0) coinbase_sig coinbaseaux).length + 2 ≤ 256) :
    ∃ c1, gbt_append_buf hex2bin coinbase_sig coinbaseaux c = BufRun.built c1 ∧
      c1.holds (gbt_append_insert cb
        (gbt_xsig hex2bin (cb.getD 41 0) coinbase_sig coinbaseaux)) := by
  have hc0 := hc
  obtain ⟨hlen0, hsize, htake⟩ := hc
  have hs : c.size ≤ 256 := by omega
  have hL : c.bytes.getD 41 0 = cb.getD 41 0 := by
    rw [← htake]
    simp only [List.getD_eq_getElem?_getD, List.getElem?_take]
    rw [if_pos (by omega)]
  unfold gbt_append_buf
  simp only [hL]
  generalize gbt_xsig hex2bin (cb.getD 41 0) coinbase_sig coinbaseaux = xsig at hlen ⊢
  generalize hLv : cb.getD 41 0 = L at he hlen ⊢
  by_cases hx0 : xsig.length = 0
  · rw [if_pos hx0]
    refine ⟨c, rfl, ?_⟩
    unfold gbt_append_insert
    rw [if_pos hx0]
    exact hc0
  · rw [if_neg hx0, if_neg (by omega)]
    unfold gbt_append_insert
    rw [if_neg hx0, hLv]
    simp only []
    generalize hp : (if L + xsig.length < 76 then 1
      else if L + 2 + xsig.length > 100 then 0 else 2) = p
    have hp3 : p = 0 ∨ p = 1 ∨ p = 2 := by
      rw [← hp]
      split
      · right; left; rfl
      · split
        · left; rfl
        · right; right; rfl
    have hT : ((c.bytes.drop (42 + L)).take (c.size - 42 - L)).length = c.size - 42 - L := by
      rw [List.length_take, List.length_drop]; omega
    have e1 := cbtx_store_ok c (42 + L + (xsig.length + p))
      ((c.bytes.drop (42 + L)).take (c.size - 42 - L)) (by rw [hT]; omega)
    have l1 : (bytes_store c.bytes (42 + L + (xsig.length + p))
        ((c.bytes.drop (42 + L)).take (c.size - 42 - L))).length = 256 := by
      rw [bytes_store_length _ _ _ (by rw [hT]; omega), hlen0]
    rw [e1, andThen_built, cbtx_store_ok _ _ _ (by simp only []; rw [l1]; simp),
      andThen_built]
    have l2 : (bytes_store (bytes_store c.bytes (42 + L + (xsig.length + p))
        ((c.bytes.drop (42 + L)).take (c.size - 42 - L))) 41
        [(L + (xsig.length + p)) % 256]).length = 256 := by
      rw [bytes_store_length _ _ _ (by rw [l1]; simp), l1]
    rcases hp3 with rfl | rfl | rfl
    · have h02 : ¬ ((0 : Nat) = 2) := by decide
      have h00 : ¬ ((0 : Nat) ≠ 0) := by decide
      simp only [h02, h00, if_false, andThen_built]
      rw [cbtx_store_ok _ _ _ (by simp only []; rw [l2]; omega), andThen_built]
      refine ⟨_, rfl, ?_⟩
      have h := append_run_holds c cb L ((L + (xsig.length + 0)) % 256) xsig [] hc0 he
        (by simp) hlen
      rw [bytes_store_nil] at h
      simpa using h
    · have h12 : ¬ ((1 : Nat) = 2) := by decide
      have h10 : (1 : Nat) ≠ 0 := by decide
      simp only [h12, h10, if_false, if_true, ne_eq, not_false_eq_true, andThen_built,
        Nat.add_zero]
      rw [cbtx_store_ok _ _ _ (by simp only []; rw [l2]; simp; omega), andThen_built]
      have l3 : (bytes_store (bytes_store (bytes_store c.bytes (42 + L + (xsig.length + 1))
          ((c.bytes.drop (42 + L)).take (c.size - 42 - L))) 41
          [(L + (xsig.length + 1)) % 256]) (42 + L) [xsig.length % 256]).length = 256 := by
        rw [bytes_store_length _ _ _ (by rw [l2]; simp; omega), l2]
      rw [cbtx_store_ok _ _ _ (by simp only []; rw [l3]; omega), andThen_built]
      refine ⟨_, rfl, ?_⟩
      have h := append_run_holds c cb L ((L + (xsig.length + 1)) % 256) xsig
        [xsig.length % 256] hc0 he (by simp) hlen
      simpa using h
    · have h20 : (2 : Nat) ≠ 0 := by decide
      simp only [h20, if_true, ne_eq, not_false_eq_true, andThen_built]
      rw [cbtx_store_ok _ _ _ (by simp only []; rw [l2]; simp; omega), andThen_built]
      have l3 : (bytes_store (bytes_store (bytes_store c.bytes (42 + L + (xsig.length + 2))
          ((c.bytes.drop (42 + L)).take (c.size - 42 - L))) 41
          [(L + (xsig.length + 2)) % 256]) (42 + L) [0x4c]).length = 256 := by
        rw [bytes_store_length _ _ _ (by rw [l2]; simp; omega), l2]
      rw [cbtx_store_ok _ _ _ (by simp only []; rw [l3]; simp; omega), andThen_built]
      simp only []
      rw [bytes_store_two _ _ _ _ (by rw [l2]; omega)]
      have l4 : (bytes_store (bytes_store (bytes_store c.bytes (42 + L + (xsig.length + 2))
          ((c.bytes.drop (42 + L)).take (c.size - 42 - L))) 41
          [(L + (xsig.length + 2)) % 256]) (42 + L) [0x4c, xsig.length % 256]).length =
          256 := by
        rw [bytes_store_length _ _ _ (by rw [l2]; simp; omega), l2]
      rw [cbtx_store_ok _ _ _ (by simp only []; rw [l4]; omega), andThen_built]
      refine ⟨_, rfl, ?_⟩
      have h := append_run_holds c cb L ((L + (xsig.length + 2)) % 256) xsig
        [0x4c, xsig.length % 256] hc0 he (by simp) hlen
      simpa using h

/-- C21: for a template without `coinbasetxn` whose height is in
`0 .. 2^31 - 1`, a payout script of 1 to 25 bytes, with or without SegWit, and
any `coinbase_sig` and `coinbaseaux` values, building the coinbase and
appending the signature makes no store outside the 256 allocated bytes: the
run over the buffer ends rejected (a SegWit transaction without a decodable
`hash`) or built, and then `cbtx[0 .. cbtx_size)` is the coinbase of the
value-level model and `cbtx_size` is at most 232, within the 256 bytes.  The
hash is taken to return 32 bytes, and the loop bounds to suffice. -/
theorem gbt_coinbase_buf_in_bounds (H : List Nat → List Nat)
    (hex2bin : String → Nat → Option (List Nat)) (fuel : Nat)
    (height cbvalue : Int) (pk_script : List Nat) (segwit : Bool)
    (txs : List TemplateTx) (coinbase_sig : List Nat)
    (coinbaseaux : Option (List (Option String)))
    (hH : ∀ l, (H l).length = 32) (h0 : 0 ≤ height) (h1 : height < 2 ^ 31)
    (hpk1 : 1 ≤ pk_script.length) (hpk2 : pk_script.length ≤ 25)
    (hf : 5 ≤ fuel) (hft : txs.length + 1 ≤ fuel) :
    (segwit = true ∧ gbt_witness_leaves hex2bin txs = none →
      gbt_coinbase_final_buf H hex2bin fuel height cbvalue pk_script segwit txs coinbase_sig
        coinbaseaux = BufRun.rejected) ∧
    (¬ (segwit = true ∧ gbt_witness_leaves hex2bin txs = none) →
      ∃ c cb, gbt_coinbase_final_buf H hex2bin fuel height cbvalue pk_script segwit txs
          coinbase_sig coinbaseaux = BufRun.built c ∧
        gbt_coinbase_final H hex2bin fuel height cbvalue pk_script segwit txs coinbase_sig
          coinbaseaux = some cb ∧
        c.bytes.length = 256 ∧ c.bytes.take c.size = cb ∧ c.size = cb.length ∧
        c.size ≤ 232 ∧ c.size ≤ c.bytes.length) := by
  obtain ⟨m, rfl⟩ : ∃ m : Nat, height = (m : Int) := ⟨height.toNat, by omega⟩
  obtain ⟨enc, henc, -, -, -, hencl, -⟩ := bip34_loop_fuel fuel m hf (by omega)
  constructor
  · rintro ⟨rfl, hlv⟩
    obtain ⟨c9, h9, hc9⟩ := gbt_coinbase_buf_stem H hex2bin fuel (m : Int) cbvalue pk_script
      true txs enc henc (by omega)
    unfold gbt_coinbase_final_buf
    rw [h9, gbt_witness_buf_rejected H hex2bin fuel txs c9 _ hc9 hlv
      (by simp [le32enc]; omega)]
    rfl
  · intro hno
    have hout : ∃ out2, gbt_witness_output H hex2bin fuel segwit txs = some out2 ∧
        out2.length ≤ 47 := by
      unfold gbt_witness_output
      cases segwit with
      | false => exact ⟨[], by simp, by simp⟩
      | true =>
        cases hlv : gbt_witness_leaves hex2bin txs with
        | none => exact absurd ⟨rfl, hlv⟩ hno
        | some lv =>
          rw [if_pos rfl, gbt_witness_commitment_eq H hex2bin fuel txs lv hft hlv]
          exact ⟨_, rfl, by simp [hH]⟩
    obtain ⟨out2, hout, hol⟩ := hout
    have hpush : bip34_push fuel (m : Int) = some (enc.length % 256 :: enc) := by
      unfold bip34_push
      rw [henc]
      rfl
    have hcb : gbt_coinbase H hex2bin fuel (m : Int) cbvalue pk_script segwit txs =
        some (le32enc 1 ++ [1] ++ List.replicate 32 0 ++ le32enc 0xffffffff ++
          [(enc.length % 256 :: enc).length % 256] ++ (enc.length % 256 :: enc) ++
          le32enc 0xffffffff ++ [if segwit then 2 else 1] ++
          le32enc (cbvalue % 2 ^ 32).toNat ++ le32enc ((cbvalue >>> 32) % 2 ^ 32).toNat ++
          [pk_script.length % 256] ++ pk_script ++ out2 ++ le32enc 0) := by
      unfold gbt_coinbase
      rw [if_neg (by omega), hpush, hout]
    generalize hcbv : le32enc 1 ++ [1] ++ List.replicate 32 0 ++ le32enc 0xffffffff ++
          [(enc.length % 256 :: enc).length % 256] ++ (enc.length % 256 :: enc) ++
          le32enc 0xffffffff ++ [if segwit then 2 else 1] ++
          le32enc (cbvalue % 2 ^ 32).toNat ++ le32enc ((cbvalue >>> 32) % 2 ^ 32).toNat ++
          [pk_script.length % 256] ++ pk_script ++ out2 ++ le32enc 0 = cb at hcb
    have hcl : cb.length = 61 + enc.length + pk_script.length + out2.length := by
      rw [← hcbv]
      simp [le32enc]
      omega
    obtain ⟨h41, -, -⟩ := gbt_coinbase_height_bytes H hex2bin fuel (m : Int) cbvalue pk_script
      segwit txs cb (enc.length % 256) enc (Nat.mod_eq_of_lt (by omega)) hpush hcb
    have hL : cb.getD 41 0 = enc.length + 1 := by
      rw [h41, Nat.mod_eq_of_lt (by omega : enc.length < 256),
        Nat.mod_eq_of_lt (by omega : enc.length + 1 < 256)]
    have hxb := gbt_xsig_bound hex2bin (cb.getD 41 0) coinbase_sig coinbaseaux
    obtain ⟨c, hb, hc⟩ := gbt_coinbase_buf_built H hex2bin fuel (m : Int) cbvalue pk_script
      segwit txs cb hcb (by omega)
    have hxl : (gbt_xsig hex2bin (cb.getD 41 0) coinbase_sig coinbaseaux).length + cb.getD 41 0
        ≤ 100 := by
      rcases hxb with hx | hx
      · rw [hx, hL]; simp; omega
      · omega
    obtain ⟨c1, ha, hc1⟩ := gbt_append_buf_built hex2bin coinbase_sig coinbaseaux c cb hc
      (by omega) (by omega)
    have hfin : (gbt_append_insert cb
        (gbt_xsig hex2bin (cb.getD 41 0) coinbase_sig coinbaseaux)).length ≤ 232 := by
      by_cases hx : gbt_xsig hex2bin (cb.getD 41 0) coinbase_sig coinbaseaux = []
      · rw [hx, gbt_append_insert_nil]; omega
      · rw [gbt_append_insert_length cb _ hx]
        have hp : cb.getD 41 0 +
            (gbt_xsig hex2bin (cb.getD 41 0) coinbase_sig coinbaseaux).length +
            gbt_push_len (cb.getD 41 0)
              (gbt_xsig hex2bin (cb.getD 41 0) coinbase_sig coinbaseaux).length ≤ 100 := by
          unfold gbt_push_len
          split
          · omega
          · split <;> omega
        omega
    obtain ⟨hl1, hs1, ht1⟩ := hc1
    refine ⟨c1, _, ?_, ?_, hl1, ht1, hs1, by rw [hs1]; exact hfin, by rw [hs1, hl1]; omega⟩
    · unfold gbt_coinbase_final_buf
      rw [hb, andThen_built]
      exact ha
    · rw [gbt_coinbase_final_map, hcb]
      rfl

set_option maxRecDepth 1000000 in
/-- Witness for C21: height `0x80`, a payout script of 25 bytes, SegWit, the
three sample transactions and a signature of 97 bytes. -/
theorem gbt_coinbase_buf_in_bounds_witness :
    ∃ c cb, gbt_coinbase_final_buf toy_hash toy_hex2bin 100 0x80 5000000000
        (List.replicate 25 7) true sample_txs (List.replicate 97 0x41) none =
        BufRun.built c ∧
      gbt_coinbase_final toy_hash toy_hex2bin 100 0x80 5000000000 (List.replicate 25 7) true
        sample_txs (List.replicate 97 0x41) none = some cb ∧
      c.bytes.length = 256 ∧ c.bytes.take c.size = cb ∧ c.size = cb.length ∧
      c.size ≤ 232 ∧ c.size ≤ c.bytes.length :=
  (gbt_coinbase_buf_in_bounds toy_hash toy_hex2bin 100 0x80 5000000000 (List.replicate 25 7)
    true sample_txs (List.replicate 97 0x41) none (fun l => (toy_hash_bytes l).1)
    (by decide) (by decide) (by decide) (by decide) (by decide) (by decide)).2 (by decide)

/-! ## Theorems: the height loop on a negative height -/

theorem shiftRight_neg (h : Int) (hneg : h < 0) : h >>> 8 < 0 := by
  cases h with
  | ofNat n => exact absurd hneg (by simp)
  | negSucc k =>
    show Int.shiftRight (Int.negSucc k) 8 < 0
    simp only [Int.shiftRight]
    exact Int.negSucc_lt_zero _

theorem bip34_loop_negative : ∀ (fuel : Nat) (h : Int) (out : List Nat), h < 0 →
    bip34_loop fuel h out = none := by
  intro fuel
  induction fuel with
  | zero => intro h out _; rfl
  | succ f ih =>
    intro h out hneg
    rw [bip34_loop, if_neg (by omega)]
    exact ih _ _ (shiftRight_neg h hneg)

theorem bip34_buf_negative : ∀ (fuel : Nat) (h : Int) (c : CbtxBuf) (content : List Nat),
    h < 0 → c.holds content →
    (256 - content.length < fuel → bip34_buf fuel h c = BufRun.overflow) ∧
    (fuel ≤ 256 - content.length → bip34_buf fuel h c = BufRun.timeout) := by
  intro fuel
  induction fuel with
  | zero =>
    intro h c content _ _
    exact ⟨fun hf => absurd hf (by omega), fun _ => rfl⟩
  | succ f ih =>
    intro h c content hneg hc
    have hne : ¬ h = 0 := by omega
    have hs : ¬ (h < 0x100 ∧ h ≥ 0x80) := by omega
    have hcl : content.length ≤ 256 := by
      obtain ⟨h1, h2, h3⟩ := hc
      have := congrArg List.length h3
      rw [List.length_take] at this
      omega
    rw [bip34_buf, if_neg hne]
    by_cases hroom : content.length + 1 ≤ 256
    · obtain ⟨c1, h1, hc1⟩ := cbtx_push_inside c content [(h % 256).toNat] hc
        (by simpa using hroom)
      rw [h1, andThen_built, if_neg hs]
      obtain ⟨i1, i2⟩ := ih (h >>> 8) c1 _ (shiftRight_neg h hneg) hc1
      simp only [List.length_append, List.length_cons, List.length_nil] at i1 i2
      exact ⟨fun hf => i1 (by omega), fun hf => i2 (by omega)⟩
    · rw [cbtx_push_outside c content [(h % 256).toNat] hc (by simp; omega)]
      exact ⟨fun _ => rfl, fun hf => absurd hf (by omega)⟩

theorem gbt_coinbase_buf_negative (H : List Nat → List Nat)
    (hex2bin : String → Nat → Option (List Nat)) (fuel : Nat)
    (height cbvalue : Int) (pk_script : List Nat) (segwit : Bool)
    (txs : List TemplateTx) (hneg : height < 0) :
    (213 < fuel → gbt_coinbase_buf H hex2bin fuel height cbvalue pk_script segwit txs =
      BufRun.overflow) ∧
    (fuel ≤ 213 → gbt_coinbase_buf H hex2bin fuel height cbvalue pk_script segwit txs =
      BufRun.timeout) := by
  obtain ⟨c0, h0, hc0⟩ := gbt_cbtx_head_holds
  obtain ⟨i1, i2⟩ := bip34_buf_negative fuel height c0 _ hneg hc0
  simp only [List.length_append, List.length_cons, List.length_nil, List.length_replicate,
    le32enc] at i1 i2
  unfold gbt_coinbase_buf
  rw [h0, andThen_built]
  constructor
  · intro hf
    rw [i1 (by omega)]
    rfl
  · intro hf
    rw [i2 (by omega)]
    rfl

/-- C22 fails on the code for a negative height: for every template that
carries a height which is negative as an `int`, and otherwise passes the
checks before the coinbase is built (version, previousblockhash, curtime,
bits, transactions with `data`, no `coinbasetxn`, a payout script, a
`coinbasevalue`), the loop `for (n = height; n; n >>= 8)` never reaches
`n = 0`: for no bound on the passes does `gbt_work_decode` return, and on the
256-byte buffer the loop stores past the end once it has made 214 passes. -/
theorem gbt_negative_height_diverges (H : List Nat → List Nat)
    (hex2bin : String → Nat → Option (List Nat))
    (bin2hex : List Nat → String) (varint_encode : Nat → List Nat) (fuel : Nat)
    (env : GbtEnv) (spare : List Nat) (val : Template) (work : Work)
    (height version curtime cbvalue : Int) (prevhash bits : List Nat)
    (txa : List TemplateTx)
    (hh : val.height = some height) (hneg : int32_wrap height < 0)
    (hv : val.version = some version)
    (hp : val.previousblockhash.bind (fun s => hex2bin s 32) = some prevhash)
    (hc : val.curtime = some curtime)
    (hb : val.bits.bind (fun s => hex2bin s 4) = some bits)
    (ht : val.transactions = some txa) (hd : txa.any (fun tx => tx.data.isNone) = false)
    (hno : val.coinbasetxn = none) (hpk : env.pk_script.length ≠ 0)
    (hcv : val.coinbasevalue = some cbvalue) :
    gbt_work_decode H hex2bin bin2hex varint_encode fuel env spare val work = none ∧
    bip34_loop fuel (int32_wrap height) [] = none ∧
    (213 < fuel →
      gbt_coinbase_buf H hex2bin fuel (int32_wrap height) cbvalue env.pk_script
        (gbt_segwit val.rules) txa = BufRun.overflow) := by
  have hl := bip34_loop_negative fuel (int32_wrap height) [] hneg
  have hpush : bip34_push fuel (int32_wrap height) = none := by
    unfold bip34_push
    rw [hl]
    rfl
  refine ⟨?_, hl, (gbt_coinbase_buf_negative H hex2bin fuel _ cbvalue env.pk_script _ txa
    hneg).1⟩
  have hstage : gbt_cbtx_stage H hex2bin fuel env val (int32_wrap height)
      (gbt_segwit val.rules) txa = none := by
    unfold gbt_cbtx_stage
    rw [hno]
    simp only []
    rw [if_neg hpk, hcv]
    simp only []
    rw [hpush]
  unfold gbt_work_decode
  rw [hh, hv, hp, hc, hb, ht]
  simp only []
  rw [hd]
  simp only [Bool.false_eq_true, if_false]
  rw [hstage]

set_option maxRecDepth 1000000 in
/-- Witness for C22: the sample template with `"height": -1`. -/
theorem gbt_negative_height_diverges_witness :
    gbt_work_decode toy_hash toy_hex2bin bin2hex varint_encode 1000 sample_env []
      { sample_template with height := some (-1) } zero_work = none ∧
    bip34_loop 1000 (int32_wrap (-1)) [] = none ∧
    (213 < 1000 →
      gbt_coinbase_buf toy_hash toy_hex2bin 1000 (int32_wrap (-1)) 5000000000
        sample_env.pk_script (gbt_segwit ({ sample_template with
          height := some (-1) } : Template).rules) sample_txs = BufRun.overflow) :=
  gbt_negative_height_diverges toy_hash toy_hex2bin bin2hex varint_encode 1000 sample_env []
    { sample_template with height := some (-1) } zero_work (-1) 0x20000000 1700000000
    5000000000 (List.replicate 32 1) (List.replicate 4 1) sample_txs
    rfl (by decide) rfl (by decide) rfl (by decide) rfl (by decide) rfl (by decide) rfl

/-! ## Theorems: retrying a submission -/

theorem be32enc_host_le (w : Nat) : be32enc (host_word true (be32enc w)) = le32enc w := by
  have h := be32enc_le32dec (w / 16777216 % 256) (w / 65536 % 256) (w / 256 % 256) (w % 256) []
    (Nat.mod_lt _ (by decide)) (Nat.mod_lt _ (by decide)) (Nat.mod_lt _ (by decide))
    (Nat.mod_lt _ (by decide))
  unfold host_word
  rw [if_pos rfl]
  exact h

theorem submit_gbt_pass (env : SubmitEnv) (ok : Bool) (work : Work) (txs : String)
    (hmode : env.have_stratum = false) (htxs : work.txs = some txs)
    (hgate : env.submit_old = true ∨
      (work.data.drop 1).take 8 = (env.g_work.data.drop 1).take 8) :
    submit_upstream_work env ok work =
      { rc := ok
        sent := [WireRequest.submitblock ((work.data.take 20).flatMap be32enc) txs work.workid]
        work := { work with data := work.data.map (fun w => host_word env.host_le (be32enc w)) } } := by
  have hg : ¬ ((!env.submit_old && (work.data.drop 1).take 8 !=
      (env.g_work.data.drop 1).take 8) = true) := by
    rcases hgate with h | h
    · simp [h]
    · rw [h]
      simp
  unfold submit_upstream_work
  rw [if_neg hg, if_neg (by simp [hmode]), htxs]

/-- C23 fails on the code on a little-endian host: in GBT mode a call of
`submit_upstream_work` that passes the stale gate leaves every header word
byte-swapped in the work (`be32enc` is applied in place).  A second call on
that work therefore, with `submit_old` off, returns true at the stale gate
without sending anything as soon as one of the words 1 to 8 is not a byte
palindrome, and with `submit_old` on sends the little-endian bytes of the
words where the first call sent the big-endian bytes. -/
theorem submit_retry_reencodes (env : SubmitEnv) (ok1 ok2 : Bool) (work : Work)
    (txs : String) (hmode : env.have_stratum = false) (htxs : work.txs = some txs)
    (hle : env.host_le = true)
    (hgate : env.submit_old = true ∨
      (work.data.drop 1).take 8 = (env.g_work.data.drop 1).take 8) :
    (submit_upstream_work env ok1 work).sent =
      [WireRequest.submitblock ((work.data.take 20).flatMap be32enc) txs work.workid] ∧
    (submit_upstream_work env ok1 work).work.data =
      work.data.map (fun w => host_word true (be32enc w)) ∧
    (env.submit_old = false →
      ((work.data.drop 1).take 8).map (fun w => host_word true (be32enc w)) ≠
        (work.data.drop 1).take 8 →
      submit_upstream_work env ok2 (submit_upstream_work env ok1 work).work =
        { rc := true, sent := [], work := (submit_upstream_work env ok1 work).work }) ∧
    (env.submit_old = true →
      (submit_upstream_work env ok2 (submit_upstream_work env ok1 work).work).sent =
        [WireRequest.submitblock ((work.data.take 20).flatMap le32enc) txs work.workid]) := by
  have h1 := submit_gbt_pass env ok1 work txs hmode htxs hgate
  rw [hle] at h1
  rw [h1]
  refine ⟨rfl, rfl, ?_, ?_⟩
  · intro hold hnp
    have hg : (work.data.drop 1).take 8 = (env.g_work.data.drop 1).take 8 := by
      rcases hgate with h | h
      · rw [hold] at h; exact absurd h (by simp)
      · exact h
    refine ((stale_share_gate env ok2 _).1 hold ?_)
    simp only []
    rw [← hg, ← List.map_drop, ← List.map_take]
    exact hnp
  · intro hold
    have h2 := submit_gbt_pass env ok2
      { work with data := work.data.map (fun w => host_word true (be32enc w)) } txs hmode htxs
      (Or.inl hold)
    show (submit_upstream_work env ok2
      { work with data := work.data.map (fun w => host_word true (be32enc w)) }).sent = _
    rw [h2]
    simp only [← List.map_take, List.flatMap_map]
    simp only [be32enc_host_le]

set_option maxRecDepth 1000000 in
/-- Witness for C23: the first transport fails; the retry of
`workio_submit_work` is discarded at the stale gate, so the loop returns true
with the failed request as the only one sent.  On a big-endian host the same
first call leaves the work as it was. -/
theorem submit_retry_reencodes_witness :
    (workio_submit_work sample_retry_env (-1) sample_transport 10 0 0 sample_retry_work
      []).map (fun r => (r.rc, r.sent)) =
      some (true, [WireRequest.submitblock
        ((sample_retry_work.data.take 20).flatMap be32enc) "01" none]) ∧
    (submit_upstream_work sample_retry_env false sample_retry_work).work.data ≠
      sample_retry_work.data ∧
    submit_upstream_work sample_retry_env true
        (submit_upstream_work sample_retry_env false sample_retry_work).work =
      { rc := true, sent := [],
        work := (submit_upstream_work sample_retry_env false sample_retry_work).work } ∧
    (submit_upstream_work { sample_retry_env with host_le := false } false
      sample_retry_work).work = sample_retry_work :=
  ⟨by decide, by decide,
    (submit_retry_reencodes sample_retry_env false true sample_retry_work "01" rfl rfl rfl
      (Or.inr rfl)).2.2.1 rfl (by decide),
    by decide⟩

end CpuMiner
